import Mathlib

/-!
# ULib `USocketExt` (src/ulib/utility/socket_ext.cpp)

A shallow embedding of the buffered socket I/O engine and of the synchronous
command/response layer built on it, followed by theorems about them.

Conventions of the embedding

* The transport (`recv`, `send`, the `writev` system call, `waitForRead`,
  `waitForWrite`, `shutdown`, `checkTime`, `pending`) is an oracle `Env`: the
  result of the n-th call of each operation is a function of n (and of the
  length offered or requested).  A transfer never moves more bytes than the
  length it is given: the oracle's answer is clamped to it.
* `USocket` carries the socket status `iState` and a trace of what the transport
  was asked to do (call counters, bytes sent, bytes received, what each `send`
  was offered).
* An access outside an array or a buffer is undefined behaviour in the source.
  The run is ended at that point and marked: `ret := none` in the results of
  `writev` and of the reply readers, the flag `overrun` of the socket in `read`
  and `vsyncCommandToken`.
* The `goto` loops become recursive functions on a fuel argument, one unit per
  pass through the loop label; `none` means the fuel ran out.
* `U_INTERNAL_ASSERT...`, `U_ASSERT...`, `U_TRACE` and `U_INTERNAL_DUMP` are
  debug-build macros and have no counterpart here.
* `uint32_t`/`int` values are `Nat`/`Int`; the cast `(int)count` is `castInt`.
-/

namespace ULib

/-! ## Constants -/

/-- Linux value of the `errno` code EAGAIN (would block). -/
def EAGAIN : Nat := 11

/-- Linux value of the `errno` code EINTR. -/
def EINTR : Nat := 4

/-- Linux value of the `errno` code ECONNRESET. -/
def ECONNRESET : Nat := 104

/-- Linux value of the `errno` code EBADF. -/
def EBADF : Nat := 9

/-- Linux value of the `errno` code EINVAL. -/
def EINVAL : Nat := 22

/-- Constants that socket_ext.cpp takes from headers of the library
(`U_CAPACITY`, `U_SINGLE_READ`, `U_NOT_FOUND`, the `USocket::State` values). -/
structure Consts where
  U_CAPACITY : Nat
  U_SINGLE_READ : Nat
  U_NOT_FOUND : Nat
  CLOSE : Nat
  TIMEOUT : Nat
  BROKEN : Nat
  EPOLLERROR : Nat
  deriving Repr, DecidableEq

/-- The cast `(int)count` of a `uint32_t`. -/
def castInt (count : Nat) : Int :=
  if count % 2 ^ 32 < 2 ^ 31 then ((count % 2 ^ 32 : Nat) : Int)
  else ((count % 2 ^ 32 : Nat) : Int) - 2 ^ 32

/-! ## Transport oracle and socket -/

/-- Result of one `recv`: the bytes delivered (none of them: return value 0),
or the return value -1 with the `errno` it leaves. -/
inductive RecvResult where
  | data (bytes : List Char)
  | error (errno : Nat)
  deriving Repr, DecidableEq

/-- Result of one `send` or `writev` system call: the number of bytes the
transport accepts, or the return value -1 with the `errno` it leaves. -/
inductive SendResult where
  | accepted (n : Nat)
  | error (errno : Nat)
  deriving Repr, DecidableEq

/-- Result of `UNotifier::waitForRead` / `waitForWrite`: the value returned
(1 means ready) and the value of `errno` after the call. -/
structure WaitResult where
  ret : Int
  errno : Nat
  deriving Repr, DecidableEq

/-- A growable byte string (`UString`) as far as socket_ext.cpp uses it: the
logical content (its length is `size()`) and the reserved capacity. -/
structure UString where
  content : List Char
  capacity : Nat
  deriving Repr, DecidableEq

/-- Model of `UString::size()`. -/
def UString.size (b : UString) : Nat := b.content.length

/-- Model of `UString::space()`: reserved bytes past the logical end. -/
def UString.space (b : UString) : Nat := b.capacity - b.content.length

/-- Everything outside socket_ext.cpp that its functions consult. -/
structure Env where
  /-- Value of `sk->isBlocking()`. -/
  blocking : Bool
  /-- Value of `sk->isSSL(true)` in a build with USE_LIBSSL (false in a build without). -/
  isSSL : Bool
  /-- Whether `(UNotifier::add_mask & EPOLLET) != 0`, in a build with HAVE_EPOLL_WAIT
  that is neither U_SERVER_CAPTIVE_PORTAL nor _MSWINDOWS_ (false otherwise). -/
  epollet : Bool
  /-- Value of `U_ClientImage_parallelization`. -/
  parallelization : Nat
  /-- Result of the n-th `sk->recv(ptr, len)`. -/
  recv : Nat → Nat → RecvResult
  /-- Result of the n-th `sk->send(ptr, len)`. -/
  send : Nat → Nat → SendResult
  /-- Result of the n-th `writev(fd, iov, iovcnt)`, given the number of bytes offered. -/
  writev : Nat → Nat → SendResult
  /-- Result of the n-th `UNotifier::waitForRead`. -/
  waitForRead : Nat → WaitResult
  /-- Result of the n-th `UNotifier::waitForWrite`. -/
  waitForWrite : Nat → WaitResult
  /-- Result of the n-th `sk->shutdown(SHUT_RD)`. -/
  shutdown : Nat → Bool
  /-- Result of the n-th `sk->checkTime(time_limit, timeout)`. -/
  checkTime : Nat → Bool
  /-- Result of the n-th `((USSLSocket*)sk)->pending()`. -/
  pending : Nat → Nat
  /-- Result of the n-th `UInterrupt::checkForEventSignalPending()`. -/
  checkForEventSignalPending : Nat → Bool
  /-- The hook `USocketExt::read_buffer_resize`. -/
  read_buffer_resize : UString → Nat → UString
  /-- Value of `sk->checkIO(n)`. -/
  checkIO : Int → Bool

/-- The socket: its status word and the trace of the calls made on it. -/
structure USocket where
  iState : Nat
  recvCalls : Nat
  sendCalls : Nat
  writevCalls : Nat
  waitReadCalls : Nat
  waitWriteCalls : Nat
  shutdownCalls : Nat
  checkTimeCalls : Nat
  pendingCalls : Nat
  signalCalls : Nat
  closeCalls : Nat
  /-- Set by `UClientImage_Base::setCloseConnection()`. -/
  closeConnection : Bool
  /-- Bytes delivered by `recv`, in order. -/
  received : List Char
  /-- Bytes accepted by `send` / `writev`, in order. -/
  sent : List Char
  /-- What each `sk->send(ptr, len)` was offered (the `len` bytes at `ptr`) and the
  value it returned, in order. -/
  sendLog : List (List Char × Int) := []
  /-- Set when a call stored bytes past the end of the storage reserved for them,
  which is undefined behaviour in the source: the run is ended there and the
  other fields of its result carry no information. -/
  overrun : Bool := false
  deriving Repr, DecidableEq

/-- A connected socket on which nothing has happened yet. -/
def USocket.fresh (state : Nat) : USocket :=
  { iState := state, recvCalls := 0, sendCalls := 0, writevCalls := 0,
    waitReadCalls := 0, waitWriteCalls := 0, shutdownCalls := 0,
    checkTimeCalls := 0, pendingCalls := 0, signalCalls := 0, closeCalls := 0,
    closeConnection := false, received := [], sent := [] }

/-- Model of `sk->closesocket()`: the call is counted. -/
def USocket.closesocket (sk : USocket) : USocket :=
  { sk with closeCalls := sk.closeCalls + 1 }

/-- Model of `UNotifier::waitForWrite(sk->iSockDesc, timeoutMS)`. -/
def USocket.waitForWrite (env : Env) (sk : USocket) : WaitResult × USocket :=
  (env.waitForWrite sk.waitWriteCalls, { sk with waitWriteCalls := sk.waitWriteCalls + 1 })

/-- Model of `UNotifier::waitForRead(sk->iSockDesc, timeoutMS)`. -/
def USocket.waitForRead (env : Env) (sk : USocket) : WaitResult × USocket :=
  (env.waitForRead sk.waitReadCalls, { sk with waitReadCalls := sk.waitReadCalls + 1 })

/-- Model of `sk->send(ptr, len)` where `ptr` is the memory from the pointer on: the
return value and `errno`, the socket with the offer and the accepted bytes
logged. -/
def USocket.send (env : Env) (sk : USocket) (ptr : List Char) (len : Nat) :
    Int × Nat × USocket :=
  match env.send sk.sendCalls len with
  | .accepted n =>
      (((min n len : Nat) : Int), 0,
        { sk with sendCalls := sk.sendCalls + 1,
                  sent := sk.sent ++ (ptr.take len).take (min n len),
                  sendLog := sk.sendLog ++ [(ptr.take len, ((min n len : Nat) : Int))] })
  | .error e =>
      (-1, e, { sk with sendCalls := sk.sendCalls + 1,
                        sendLog := sk.sendLog ++ [(ptr.take len, -1)] })

/-! ## `USocketExt::write` -/

/-- Label `error:` of `USocketExt::write`, entered with the value of `errno`;
`again` is `goto write`. -/
def writeError (c : Consts) (env : Env) (again : USocket → Option (Int × USocket))
    (errno : Nat) (sk : USocket) (byte_written : Int) (timeoutMS : Int) :
    Option (Int × USocket) :=
  if errno ≠ EAGAIN then
    let sk1 := { sk with iState := c.BROKEN }
    let sk2 := sk1.closesocket
    some (byte_written, { sk2 with iState := c.CLOSE })
  else if timeoutMS ≠ 0 then
    let (w, sk1) := sk.waitForWrite env
    if w.ret = 1 then again sk1
    else some (byte_written, { sk1 with iState := sk1.iState ||| c.TIMEOUT })
  else some (byte_written, sk)

/-- The statement `value = sk->send(ptr + byte_written, count);` of
`USocketExt::write` and what follows it; `again` is `goto write` with the values
of `byte_written`, `count` and `timeoutMS` at the jump. -/
def writeSend (c : Consts) (env : Env) (ptr : List Char)
    (again : USocket → Int → Nat → Int → Option (Int × USocket))
    (sk : USocket) (byte_written : Int) (count : Nat) (timeoutMS : Int) :
    Option (Int × USocket) :=
  let (value, errno, sk1) := sk.send env (ptr.drop byte_written.toNat) count
  if value ≤ 0 then
    if value = -1 then
      writeError c env (fun s => again s byte_written count timeoutMS)
        errno sk1 byte_written timeoutMS
    else some (byte_written, sk1)
  else
    let byte_written1 := byte_written + value
    if byte_written1 < castInt count then again sk1 byte_written1 (count - value.toNat) 0
    else some (byte_written1, sk1)

/-- The loop of `USocketExt::write` from label `write:`; `ptr` is the source
from the caller's pointer on, the other arguments are the loop's variables. -/
def writeLoop (c : Consts) (env : Env) (ptr : List Char) :
    Nat → USocket → Int → Nat → Int → Option (Int × USocket)
  | 0, _, _, _, _ => none
  | fuel + 1, sk, byte_written, count, timeoutMS =>
    let again := writeLoop c env ptr fuel
    if env.blocking ∧ timeoutMS ≠ 0 then
      let (w, sk1) := sk.waitForWrite env
      if w.ret ≠ 1 then
        writeError c env (fun s => again s byte_written count timeoutMS)
          w.errno sk1 byte_written timeoutMS
      else writeSend c env ptr again sk1 byte_written count timeoutMS
    else writeSend c env ptr again sk byte_written count timeoutMS

/-- Model of `USocketExt::write(sk, ptr, count, timeoutMS)`: the value returned and the
socket afterwards. -/
def write (c : Consts) (env : Env) (fuel : Nat) (sk : USocket) (ptr : List Char)
    (count : Nat) (timeoutMS : Int) : Option (Int × USocket) :=
  writeLoop c env ptr fuel sk 0 count timeoutMS

/-! ## `USocketExt::writev` (5 arguments) -/

/-- A `struct iovec`: the address of the first byte and the length. -/
structure iovec where
  iov_base : Nat
  iov_len : Nat
  deriving Repr, DecidableEq

/-- The `len` bytes of memory that start at address `base`. -/
def memRead (mem : Nat → Char) (base len : Nat) : List Char :=
  (List.range len).map (fun i => mem (base + i))

/-- The bytes a segment list describes, in order. -/
def gather (mem : Nat → Char) : List iovec → List Char
  | [] => []
  | e :: rest => memRead mem e.iov_base e.iov_len ++ gather mem rest

/-- Outcome of `USocketExt::writev`: the value returned (`none` when the run
read `iov[idx]` past the end of the array, which is undefined behaviour), the
socket, and the caller's array as the call leaves it. -/
structure WritevResult where
  ret : Option Int
  sk : USocket
  iov : List iovec
  deriving Repr, DecidableEq

/-- The system call `writev(sk->iSockDesc, iov, iovcnt)`, `iov` being the array
from the pointer on: the return value and `errno`, the accepted bytes logged. -/
def USocket.writev (env : Env) (sk : USocket) (mem : Nat → Char) (iov : List iovec)
    (iovcnt : Int) : Int × Nat × USocket :=
  if iovcnt < 0 then (-1, EINVAL, { sk with writevCalls := sk.writevCalls + 1 })
  else
    let bytes := gather mem (iov.take iovcnt.toNat)
    match env.writev sk.writevCalls bytes.length with
    | .accepted n =>
        (((min n bytes.length : Nat) : Int), 0,
          { sk with writevCalls := sk.writevCalls + 1,
                    sent := sk.sent ++ bytes.take (min n bytes.length) })
    | .error e => (-1, e, { sk with writevCalls := sk.writevCalls + 1 })

/-- The walk over the segment list after a partial send, on the array from
`iov[idx]` on:
`while ((size_t)value >= iov[idx].iov_len) { value -= iov[idx].iov_len; iov[idx].iov_len = 0; ++idx; }`
followed by `iov[idx].iov_len -= value; iov[idx].iov_base += value`.
Gives the array from the old `iov[idx]` on and the number of `++idx`, or `none`
when the walk reads an entry past the end of the array. -/
def shrink : List iovec → Nat → Option (List iovec × Nat)
  | [], _ => none
  | e :: rest, value =>
    if value ≥ e.iov_len then
      match shrink rest (value - e.iov_len) with
      | none => none
      | some (rest1, k) => some ({ e with iov_len := 0 } :: rest1, k + 1)
    else some ({ iov_base := e.iov_base + value, iov_len := e.iov_len - value } :: rest, 0)

/-- Label `error:` of `USocketExt::writev`, entered with the value of `errno`;
`again` is `goto write`. -/
def writevError (c : Consts) (env : Env) (again : USocket → Option WritevResult)
    (errno : Nat) (sk : USocket) (arr : List iovec) (byte_written : Int) (timeoutMS : Int) :
    Option WritevResult :=
  let broken := fun (sk : USocket) =>
    let sk1 := { sk with iState := c.BROKEN }
    let sk2 := sk1.closesocket
    some { ret := some byte_written, sk := { sk2 with iState := c.CLOSE }, iov := arr }
  if errno ≠ EAGAIN then
    if errno = EINTR then
      let sk1 := { sk with signalCalls := sk.signalCalls + 1 }
      if env.checkForEventSignalPending sk.signalCalls then again sk1 else broken sk1
    else broken sk
  else if timeoutMS ≠ 0 then
    let (w, sk1) := sk.waitForWrite env
    if w.ret = 1 then again sk1
    else some { ret := some byte_written,
                sk := { sk1 with iState := sk1.iState ||| c.TIMEOUT }, iov := arr }
  else some { ret := some byte_written, sk := sk, iov := arr }

/-- The variables of the plain-transport loop of `USocketExt::writev`.  `arr` is
the caller's array and `off` how far the pointer `iov` has been advanced in it;
the others carry the names of the source. -/
structure WritevVars where
  arr : List iovec
  off : Nat
  iovcnt : Int
  count : Nat
  idx : Nat
  byte_written : Int
  timeoutMS : Int
  deriving Repr, DecidableEq

/-- The statement `value = writev(sk->iSockDesc, iov, iovcnt);` of
`USocketExt::writev` and what follows it; `again` is `goto write`. -/
def writevSys (c : Consts) (env : Env) (mem : Nat → Char)
    (again : USocket → WritevVars → Option WritevResult) (sk : USocket) (v : WritevVars) :
    Option WritevResult :=
  let (value, errno, sk1) := sk.writev env mem (v.arr.drop v.off) v.iovcnt
  if value ≤ 0 then
    if value = -1 then
      writevError c env (fun s => again s v) errno sk1 v.arr v.byte_written v.timeoutMS
    else some { ret := some v.byte_written, sk := sk1, iov := v.arr }
  else
    let byte_written1 := v.byte_written + value
    if value.toNat % 2 ^ 32 < v.count then
      match shrink (v.arr.drop (v.off + v.idx)) value.toNat with
      | none => some { ret := none, sk := sk1, iov := v.arr }
      | some (rest, k) =>
          again sk1
            { arr := v.arr.take (v.off + v.idx) ++ rest,
              off := v.off + (v.idx + k),
              iovcnt := v.iovcnt - ((v.idx + k : Nat) : Int),
              count := v.count - value.toNat,
              idx := v.idx + k,
              byte_written := byte_written1,
              timeoutMS := 0 }
    else some { ret := some byte_written1, sk := sk1, iov := v.arr }

/-- The plain-transport loop of `USocketExt::writev` from label `write:`. -/
def writevLoop (c : Consts) (env : Env) (mem : Nat → Char) :
    Nat → USocket → WritevVars → Option WritevResult
  | 0, _, _ => none
  | fuel + 1, sk, v =>
    let again := writevLoop c env mem fuel
    if env.blocking ∧ v.timeoutMS ≠ 0 then
      let (w, sk1) := sk.waitForWrite env
      if w.ret ≠ 1 then
        writevError c env (fun s => again s v) w.errno sk1 v.arr v.byte_written v.timeoutMS
      else writevSys c env mem again sk1 v
    else writevSys c env mem again sk v

/-- The loop of `USocketExt::writev` for a TLS socket whose payload exceeds
U_CAPACITY: one `write` per segment of non-zero length, stopping at the first
failed or short one. -/
def writevEach (c : Consts) (env : Env) (mem : Nat → Char) (fuel : Nat) (timeoutMS : Int) :
    List iovec → USocket → Int → Option (Int × USocket)
  | [], sk, byte_written => some (byte_written, sk)
  | e :: rest, sk, byte_written =>
    if e.iov_len ≠ 0 then
      match write c env fuel sk (memRead mem e.iov_base e.iov_len) e.iov_len timeoutMS with
      | none => none
      | some (value, sk1) =>
        if value ≤ 0 then some (byte_written, sk1)
        else if value ≠ (e.iov_len : Int) then some (byte_written + value, sk1)
        else writevEach c env mem fuel timeoutMS rest sk1 (byte_written + value)
    else writevEach c env mem fuel timeoutMS rest sk byte_written

/-- Model of `USocketExt::writev(sk, iov, iovcnt, count, timeoutMS)`; `iov` is the
caller's array and `mem` the memory its entries point into.  The overload
`write(sk, buffer, timeoutMS)` used for a small TLS payload is taken to be
`write(sk, buffer.data(), buffer.size(), timeoutMS)`. -/
def writev (c : Consts) (env : Env) (mem : Nat → Char) (fuel : Nat) (sk : USocket)
    (iov : List iovec) (iovcnt : Int) (count : Nat) (timeoutMS : Int) : Option WritevResult :=
  if iovcnt = 1 then
    match iov with
    | [] => some { ret := none, sk := sk, iov := iov }
    | e :: _ =>
      (write c env fuel sk (memRead mem e.iov_base e.iov_len) e.iov_len timeoutMS).map
        (fun r => { ret := some r.1, sk := r.2, iov := iov })
  else if env.isSSL then
    if count ≤ c.U_CAPACITY then
      let buffer := gather mem (iov.take iovcnt.toNat)
      (write c env fuel sk buffer buffer.length timeoutMS).map
        (fun r => { ret := some r.1, sk := r.2, iov := iov })
    else
      (writevEach c env mem fuel timeoutMS (iov.take iovcnt.toNat) sk 0).map
        (fun r => { ret := some r.1, sk := r.2, iov := iov })
  else
    writevLoop c env mem fuel sk
      { arr := iov, off := 0, iovcnt := iovcnt, count := count, idx := 0, byte_written := 0,
        timeoutMS := timeoutMS }

/-! ## `USocketExt::writev` (6 arguments, `cloop`) -/

/-- The copies into the scratch array `struct iovec _iov[256]` of the 6-argument
`writev`, `n` of them still to do: each `u__memcpy(ptr, iov, sz)` stores the
`iovcnt` entries `saved` of the caller's array behind the part `scratch` written
so far (`ptr += sz` between two copies).  Gives `none` when a copy writes past
the end of `_iov`. -/
def copyLoop (saved : List iovec) : Nat → List iovec → Option (List iovec)
  | 0, scratch => some scratch
  | n + 1, scratch =>
    if scratch.length + saved.length ≤ 256 then copyLoop saved n (scratch ++ saved) else none

/-- Model of `USocketExt::writev(sk, iov, iovcnt, count, timeoutMS, cloop)` in a build
without U_PIPELINE_HOMOGENEOUS_DISABLE.  `iov` is the caller's array; the result
carries it as the call leaves it.  A copy that reads past the caller's array or
writes past `_iov` is undefined behaviour (`ret := none`).  With `cloop > 1` the
pointer `iov` is redirected to `_iov`, whose written part is handed to the
5-argument `writev`; otherwise that `writev` works on the caller's array and,
when `cloop == 1`, `u__memcpy(iov, _iov, sz)` stores the saved entries back. -/
def writevCloop (c : Consts) (env : Env) (mem : Nat → Char) (fuel : Nat) (sk : USocket)
    (iov : List iovec) (iovcnt : Int) (count : Nat) (timeoutMS : Int) (cloop : Nat) :
    Option WritevResult :=
  if iovcnt < 0 ∨ iov.length < iovcnt.toNat then some { ret := none, sk := sk, iov := iov }
  else
    let saved := iov.take iovcnt.toNat
    match copyLoop saved 1 [] with
    | none => some { ret := none, sk := sk, iov := iov }
    | some scratch0 =>
      if cloop > 1 then
        match copyLoop saved (cloop - 1) scratch0 with
        | none => some { ret := none, sk := sk, iov := iov }
        | some scratch =>
          (writev c env mem fuel sk scratch (iovcnt * (cloop : Int)) count timeoutMS).map
            (fun r => { ret := r.ret, sk := r.sk, iov := iov })
      else
        (writev c env mem fuel sk iov iovcnt count timeoutMS).map
          (fun r =>
            { ret := r.ret, sk := r.sk,
              iov := if cloop = 1 then saved ++ r.iov.drop saved.length else r.iov })

/-! ## Reply parsing: `readLineReply`, `parseCommandResponse`, `readMultilineReply`

A `char*` buffer is the list of the bytes from the caller's pointer to the end
of its allocation; `buffer + off` is the pair of that list and `off`.  An access
outside the list is undefined behaviour and ends the run with `ret := none`. -/

/-- Model of `sk->recv(ptr, len)`: the return value, `errno`, the bytes stored
at `ptr`, and the socket with the delivery logged. -/
def USocket.recv (env : Env) (sk : USocket) (len : Nat) : Int × Nat × List Char × USocket :=
  match env.recv sk.recvCalls len with
  | .data bytes =>
      (((bytes.take len).length : Int), 0, bytes.take len,
        { sk with recvCalls := sk.recvCalls + 1, received := sk.received ++ bytes.take len })
  | .error e => (-1, e, [], { sk with recvCalls := sk.recvCalls + 1 })

/-- Store `bytes` at index `pos` of a `char*` buffer; `none` when they do not fit
in the allocation. -/
def poke (buffer : List Char) (pos : Nat) (bytes : List Char) : Option (List Char) :=
  if pos + bytes.length ≤ buffer.length then
    some (buffer.take pos ++ bytes ++ buffer.drop (pos + bytes.length))
  else none

/-- Outcome of a reply reader: the value returned (`none`: undefined behaviour),
the socket and the caller's buffer afterwards. -/
structure ReplyResult where
  ret : Option Int
  sk : USocket
  buffer : List Char
  deriving Repr, DecidableEq

/-- C `isspace` in the "C" locale. -/
def isspace (ch : Char) : Bool :=
  ch = ' ' || ch = '\t' || ch = '\n' || ch = '\x0b' || ch = '\x0c' || ch = '\r'

/-- Value of a digit character in bases up to 16. -/
def digitVal (ch : Char) : Option Nat :=
  if '0' ≤ ch ∧ ch ≤ '9' then some (ch.toNat - 48)
  else if 'a' ≤ ch ∧ ch ≤ 'f' then some (ch.toNat - 87)
  else if 'A' ≤ ch ∧ ch ≤ 'F' then some (ch.toNat - 55)
  else none

/-- Value of the longest prefix of digits of the given base, and its length. -/
def scanDigits (base : Nat) : List Char → Nat → Nat → Nat × Nat
  | [], acc, n => (acc, n)
  | ch :: rest, acc, n =>
    match digitVal ch with
    | some d => if d < base then scanDigits base rest (acc * base + d) (n + 1) else (acc, n)
    | none => (acc, n)

/-- The C string at a pointer: the bytes before the first NUL. -/
def cstr (s : List Char) : List Char := s.takeWhile (fun ch => ch ≠ '\x00')

/-- C `atoi` (overflow apart): white space, an optional sign, decimal digits. -/
def atoi (s : List Char) : Int :=
  let body := (cstr s).dropWhile isspace
  match body with
  | '-' :: rest => - ((scanDigits 10 rest 0 0).1 : Int)
  | '+' :: rest => ((scanDigits 10 rest 0 0).1 : Int)
  | _ => ((scanDigits 10 body 0 0).1 : Int)

/-- The conversion `%i` on an input field (glibc): an optional sign, then a
hexadecimal number after `0x`, an octal number after `0`, a decimal number
otherwise; `none` when the field holds no number. -/
def convI (field : List Char) : Option Int :=
  let unsigned : List Char → Option Nat := fun f =>
    match f with
    | [] => none
    | '0' :: [] => some 0
    | '0' :: x :: rest =>
        if x = 'x' ∨ x = 'X' then some (scanDigits 16 rest 0 0).1
        else some (scanDigits 8 (x :: rest) 0 0).1
    | d :: rest =>
        let r := scanDigits 10 (d :: rest) 0 0
        if r.2 = 0 then none else some r.1
  match field with
  | '-' :: rest => (unsigned rest).map (fun n => - (n : Int))
  | '+' :: rest => (unsigned rest).map (fun n => (n : Int))
  | _ => (unsigned field).map (fun n => (n : Int))

/-- The statements `int j = -1; (void) sscanf(s, "%3i", &j);` give this `j`. -/
def sscanf3i (s : List Char) : Int :=
  match convI (((cstr s).dropWhile isspace).take 3) with
  | some j => j
  | none => -1

/-- The `for` loop of `parseCommandResponse` with `n` iterations left, at index
`i`, with the current value of `complete`; `none` on a read outside the buffer. -/
def parseLoop (buffer : List Char) (response : Int) : Nat → Nat → Nat → Option Nat
  | 0, _, complete => some complete
  | n + 1, i, complete =>
    match buffer[i]? with
    | none => none
    | some ch =>
      if ch = '\n' then
        if complete = 1 then some 2
        else
          match buffer[i + 4]? with
          | none => none
          | some sp =>
            if sp = ' ' then
              let j := sscanf3i (buffer.drop (i + 1))
              parseLoop buffer response n (i + 1) (if j = response then 1 else complete)
            else parseLoop buffer response n (i + 1) complete
      else parseLoop buffer response n (i + 1) complete

/-- Model of `USocketExt::parseCommandResponse(buffer, r, response)`: true when
the reply is not complete; `none` on a read outside the buffer. -/
def parseCommandResponse (buffer : List Char) (r : Int) (response : Int) : Option Bool :=
  match buffer[3]? with
  | none => none
  | some ch =>
    if ch = '-' then (parseLoop buffer response r.toNat 0 0).map (fun complete => complete ≠ 2)
    else some false

/-- The `do ... while` loop of `readLineReply` on the buffer `buffer + off`, with
the current `r`. -/
def readLineLoop (c : Consts) (env : Env) (off buffer_size : Nat) :
    Nat → USocket → List Char → Int → Option ReplyResult
  | 0, _, _, _ => none
  | fuel + 1, sk, buffer, r =>
    let count := buffer_size - r.toNat
    let (i, _, bytes, sk1) := sk.recv env count
    match poke buffer (off + r.toNat) bytes with
    | none => some { ret := none, sk := sk1, buffer := buffer }
    | some buffer1 =>
      if env.checkIO i = false then some { ret := some c.BROKEN, sk := sk1, buffer := buffer1 }
      else
        let r1 := r + i
        if r1 ≤ 0 then some { ret := none, sk := sk1, buffer := buffer1 }
        else
          match buffer1[off + (r1.toNat - 1)]? with
          | none => some { ret := none, sk := sk1, buffer := buffer1 }
          | some ch =>
            if ch ≠ '\n' then readLineLoop c env off buffer_size fuel sk1 buffer1 r1
            else
              match poke buffer1 (off + r1.toNat) ['\x00'] with
              | none => some { ret := none, sk := sk1, buffer := buffer1 }
              | some buffer2 => some { ret := some r1, sk := sk1, buffer := buffer2 }

/-- Model of `USocketExt::readLineReply(sk, buffer + off, buffer_size)`. -/
def readLineReply (c : Consts) (env : Env) (fuel : Nat) (sk : USocket) (buffer : List Char)
    (off buffer_size : Nat) : Option ReplyResult :=
  readLineLoop c env off buffer_size fuel sk buffer 0

/-- The `do ... while` loop of `readMultilineReply`, with the current `r`. -/
def readMultilineLoop (c : Consts) (env : Env) (buffer_size : Nat) (lineFuel : Nat) :
    Nat → USocket → List Char → Int → Option ReplyResult
  | 0, _, _, _ => none
  | fuel + 1, sk, buffer, r =>
    match readLineReply c env lineFuel sk buffer r.toNat (buffer_size - r.toNat) with
    | none => none
    | some line =>
      match line.ret with
      | none => some line
      | some r1 =>
        if r1 = c.BROKEN then some { line with ret := some c.BROKEN }
        else
          let response := atoi line.buffer
          match parseCommandResponse line.buffer r1 response with
          | none => some { line with ret := none }
          | some true => readMultilineLoop c env buffer_size lineFuel fuel line.sk line.buffer r1
          | some false => some { line with ret := some response }

/-- Model of `USocketExt::readMultilineReply(sk, buffer, buffer_size)`. -/
def readMultilineReply (c : Consts) (env : Env) (fuel : Nat) (sk : USocket)
    (buffer : List Char) (buffer_size : Nat) : Option ReplyResult :=
  readMultilineLoop c env buffer_size fuel fuel sk buffer 0

/-! ## `USocketExt::read`

`recv` stores what it delivers at `ptr + byte_read`, in the reserved space past
the logical end of the buffer.  The embedding keeps those bytes in `pend` until
`size_adjust_force` moves the logical end over them. -/

/-- Model of `UString::size_adjust_force(n)`: the logical size becomes `n`; `pend` are
the bytes stored past the logical end.  Gives the buffer and the bytes that are
still past its end. -/
def UString.size_adjust_force (b : UString) (pend : List Char) (n : Nat) :
    UString × List Char :=
  let storage := b.content ++ pend
  ({ content := storage.take n ++ List.replicate (n - storage.length) '\x00',
     capacity := b.capacity }, storage.drop n)

/-- Outcome of `USocketExt::read`. -/
structure ReadResult where
  ret : Bool
  sk : USocket
  buffer : UString
  deriving Repr, DecidableEq

/-- The variables of `USocketExt::read` that change in its loop. -/
structure ReadVars where
  buffer : UString
  pend : List Char
  byte_read : Int
  ncount : Nat
  timeoutMS : Int
  deriving Repr, DecidableEq

/-- Label `done:` of `USocketExt::read`. -/
def readDone (c : Consts) (start count : Nat) (sk : USocket) (v : ReadVars) : ReadResult :=
  if v.byte_read ≠ 0 then
    let start1 := (start + v.byte_read).toNat
    let buffer1 :=
      if start1 > v.buffer.size then (v.buffer.size_adjust_force v.pend start1).1 else v.buffer
    if v.byte_read ≥ castInt count ∧ sk.iState ≠ c.CLOSE then
      { ret := true, sk := sk, buffer := buffer1 }
    else { ret := false, sk := sk, buffer := buffer1 }
  else { ret := false, sk := sk, buffer := v.buffer }

/-- Label `close:` of `USocketExt::read`, which runs on to `done:`. -/
def readClose (c : Consts) (start count : Nat) (sk : USocket) (v : ReadVars) : ReadResult :=
  let sk1 := sk.closesocket
  readDone c start count { sk1 with iState := c.CLOSE } v

/-- Label `error:` of `USocketExt::read`, entered with the value of `errno`;
`again` is `goto read`. -/
def readError (c : Consts) (env : Env) (start count : Nat)
    (again : USocket → ReadVars → Option ReadResult)
    (errno : Nat) (sk : USocket) (v : ReadVars) : Option ReadResult :=
  if errno ≠ EAGAIN then
    some (readClose c start count
      { sk with iState := if errno = ECONNRESET then c.EPOLLERROR else c.BROKEN } v)
  else if v.timeoutMS ≠ 0 then
    let (w, sk1) := sk.waitForRead env
    if w.ret = 1 then again sk1 v
    else some (readDone c start count { sk1 with iState := sk1.iState ||| c.TIMEOUT } v)
  else some (readDone c start count sk v)

/-- The branch of `USocketExt::read` for a `recv` that returned 0. -/
def readEOF (c : Consts) (env : Env) (start count : Nat) (sk : USocket) (v : ReadVars) :
    ReadResult :=
  if v.byte_read = 0 then
    if env.parallelization = 1 then { ret := false, sk := sk, buffer := v.buffer }
    else readClose c start count sk v
  else
    let sk1 := { sk with shutdownCalls := sk.shutdownCalls + 1 }
    if env.shutdown sk.shutdownCalls = false then
      if env.parallelization = 1 then { ret := false, sk := sk1, buffer := v.buffer }
      else readClose c start count sk1 v
    else readDone c start count { sk1 with closeConnection := true } v

/-- The part of `USocketExt::read` after a `recv` that returned `value > 0` and
stored `bytes`; `again` is `goto read`.  The `recv` that drains the pending TLS
bytes is offered `available` bytes whatever space the buffer has past its end:
when it delivers more than that space, the store runs past the reserved storage
and the run ends with `overrun` set. -/
def readGot (c : Consts) (env : Env) (start count time_limit : Nat)
    (again : USocket → ReadVars → Option ReadResult)
    (value : Int) (bytes : List Char) (sk : USocket) (v : ReadVars) : Option ReadResult :=
  let byte_read := v.byte_read + value
  let pend := v.pend ++ bytes
  if byte_read < castInt count then
    let timedOut := time_limit ≠ 0 ∧ env.checkTime sk.checkTimeCalls = false
    let sk1 := if time_limit ≠ 0 then { sk with checkTimeCalls := sk.checkTimeCalls + 1 } else sk
    if timedOut then
      some (readDone c start count { sk1 with iState := sk1.iState ||| c.TIMEOUT }
        { v with pend := pend, byte_read := byte_read })
    else
      again sk1 { v with pend := pend, byte_read := byte_read, ncount := v.ncount - value.toNat }
  else if value = (v.ncount : Int) then
    let (adjusted, pend1) := v.buffer.size_adjust_force pend (start + byte_read).toNat
    let buffer1 := env.read_buffer_resize adjusted (v.ncount * 2 % 2 ^ 32)
    if env.isSSL then
      let available := env.pending sk.pendingCalls
      let sk1 := { sk with pendingCalls := sk.pendingCalls + 1 }
      if available ≠ 0 then
        let (value1, _, bytes1, sk2) := sk1.recv env available
        if buffer1.space < bytes1.length then
          some { ret := false, sk := { sk2 with overrun := true }, buffer := buffer1 }
        else
          some (readDone c start count sk2
            { v with buffer := buffer1, pend := pend1 ++ bytes1, byte_read := byte_read + value1 })
      else
        again sk1 { buffer := buffer1, pend := pend1, byte_read := byte_read,
                    ncount := buffer1.space, timeoutMS := 0 }
    else
      again sk { buffer := buffer1, pend := pend1, byte_read := byte_read,
                 ncount := buffer1.space, timeoutMS := 0 }
  else if env.isSSL = false ∧ env.epollet = true then
    let (adjusted, pend1) := v.buffer.size_adjust_force pend (start + byte_read).toNat
    again sk { buffer := adjusted, pend := pend1, byte_read := byte_read,
               ncount := adjusted.space, timeoutMS := 0 }
  else some (readDone c start count sk { v with pend := pend, byte_read := byte_read })

/-- The statement `value = sk->recv(ptr + byte_read, ncount);` of
`USocketExt::read` and what follows it; `again` is `goto read`. -/
def readRecv (c : Consts) (env : Env) (start count time_limit : Nat)
    (again : USocket → ReadVars → Option ReadResult) (sk : USocket) (v : ReadVars) :
    Option ReadResult :=
  let (value, errno, bytes, sk1) := sk.recv env v.ncount
  if value ≤ 0 then
    if value = -1 then readError c env start count again errno sk1 v
    else some (readEOF c env start count sk1 v)
  else readGot c env start count time_limit again value bytes sk1 v

/-- The loop of `USocketExt::read` from label `read:`. -/
def readLoop (c : Consts) (env : Env) (start count time_limit : Nat) :
    Nat → USocket → ReadVars → Option ReadResult
  | 0, _, _ => none
  | fuel + 1, sk, v =>
    let again := readLoop c env start count time_limit fuel
    if env.blocking ∧ v.timeoutMS ≠ 0 then
      let (w, sk1) := sk.waitForRead env
      if w.ret ≠ 1 then readError c env start count again w.errno sk1 v
      else readRecv c env start count time_limit again sk1 v
    else readRecv c env start count time_limit again sk v

/-- Model of `USocketExt::read(sk, buffer, count, timeoutMS, time_limit)`. -/
def read (c : Consts) (env : Env) (fuel : Nat) (sk : USocket) (buffer : UString)
    (count : Nat) (timeoutMS : Int) (time_limit : Nat) : Option ReadResult :=
  let start := buffer.size
  let ncount := buffer.space
  let chunk := if count < c.U_CAPACITY then c.U_CAPACITY else count
  let buffer1 := if ncount < chunk then env.read_buffer_resize buffer chunk else buffer
  let ncount1 := if ncount < chunk then buffer1.space else ncount
  readLoop c env start count time_limit fuel sk
    { buffer := buffer1, pend := [], byte_read := 0, ncount := ncount1, timeoutMS := timeoutMS }

/-! ## `USocketExt::readWhileNotToken` and `USocketExt::vsyncCommandToken` -/

/-- Search of `tok` in `hay`, whose first byte has index `i`: the index of the
first position at which `tok` occurs entirely. -/
def findFrom (tok : List Char) : List Char → Nat → Option Nat
  | [], i => if tok = [] then some i else none
  | x :: xs, i => if tok.isPrefixOf (x :: xs) then some i else findFrom tok xs (i + 1)

/-- Modelled from the spec: `UString::find(s, pos, s_len)`, which is not in
socket_ext.cpp, is the buffer's "content search for a byte subsequence from a
given offset"; it gives the offset of the first occurrence at or after `pos`,
or U_NOT_FOUND. -/
def UString.find (c : Consts) (b : UString) (tok : List Char) (pos : Nat) : Nat :=
  if pos ≤ b.size then
    match findFrom tok (b.content.drop pos) pos with
    | some i => i
    | none => c.U_NOT_FOUND
  else c.U_NOT_FOUND

/-- The `uint32_t` difference `a - b`. -/
def sub32 (a b : Nat) : Nat := (((a : Int) - (b : Int)) % 2 ^ 32).toNat

/-- Outcome of `USocketExt::readWhileNotToken`. -/
structure TokenResult where
  ret : Nat
  sk : USocket
  buffer : UString
  deriving Repr, DecidableEq

/-- The `while` loop of `readWhileNotToken`, with the current `start`.  `token`
holds the `token_len` bytes at the pointer `token`; `read` is called with its
declared default `time_limit` of zero and gets `readFuel` units of fuel. -/
def readWhileNotTokenLoop (c : Consts) (env : Env) (token : List Char) (timeoutMS : Int)
    (readFuel : Nat) : Nat → USocket → UString → Nat → Option TokenResult
  | 0, _, _, _ => none
  | fuel + 1, sk, buffer, start =>
    match read c env readFuel sk buffer c.U_SINGLE_READ timeoutMS 0 with
    | none => none
    | some r =>
      if r.ret then
        let pos_token := r.buffer.find c token start
        if pos_token ≠ c.U_NOT_FOUND then some { ret := pos_token, sk := r.sk, buffer := r.buffer }
        else
          readWhileNotTokenLoop c env token timeoutMS readFuel fuel r.sk r.buffer
            (sub32 r.buffer.size token.length)
      else some { ret := c.U_NOT_FOUND, sk := r.sk, buffer := r.buffer }

/-- Model of `USocketExt::readWhileNotToken(sk, buffer, token, token_len, timeoutMS)`. -/
def readWhileNotToken (c : Consts) (env : Env) (readFuel fuel : Nat) (sk : USocket)
    (buffer : UString) (token : List Char) (timeoutMS : Int) : Option TokenResult :=
  readWhileNotTokenLoop c env token timeoutMS readFuel fuel sk buffer buffer.size

/-- The decimal digits of `n`, padded with zeros on the left to `width`. -/
def zeroPad (width n : Nat) : List Char :=
  let digits := Nat.toDigits 10 n
  List.replicate (width - digits.length) '0' ++ digits

/-- The token `u__snprintf(token, sizeof(token), "U%04u ", cmd_count)` builds. -/
def commandToken (cmd_count : Nat) : List Char :=
  'U' :: zeroPad 4 (cmd_count % 2 ^ 32) ++ [' ']

/-- The bytes `vsyncCommandToken` sends: the token, the formatted command, CR LF. -/
def commandLine (cmd_count : Nat) (formatted : List Char) : List Char :=
  commandToken cmd_count ++ formatted ++ ['\r', '\n']

/-- Model of `USocketExt::vsyncCommandToken(sk, buffer, format, argp)`.  `cmd_count` is
the value of the static counter, `formatted` the text `u__vsnprintf` produces
from `format` and `argp`, `timeoutMS` the default argument of
`readWhileNotToken`.  The command is stored from `buffer.data()` on without
changing the size of the buffer; when it is longer than the capacity of the
buffer the store runs past the reserved storage and the run ends with `overrun`
set.  The value returned is the `uint32_t` that the source converts to its `int`
result. -/
def vsyncCommandToken (c : Consts) (env : Env) (readFuel fuel : Nat) (sk : USocket)
    (buffer : UString) (cmd_count : Nat) (formatted : List Char) (timeoutMS : Int) :
    Option TokenResult :=
  let token := commandToken cmd_count
  let command := commandLine cmd_count formatted
  if buffer.capacity < command.length then
    some { ret := c.U_NOT_FOUND, sk := { sk with overrun := true }, buffer := buffer }
  else
    let buffer1 : UString :=
      { buffer with content := command.take buffer.size ++ buffer.content.drop command.length }
    let (n, _, sk1) := sk.send env command command.length
    if env.checkIO n then
      match readWhileNotToken c env readFuel fuel sk1 buffer1 token timeoutMS with
      | none => none
      | some r =>
        if r.ret ≠ c.U_NOT_FOUND then some { r with ret := (r.ret + token.length) % 2 ^ 32 }
        else some { r with ret := c.U_NOT_FOUND }
    else some { ret := c.BROKEN, sk := sk1, buffer := buffer1 }

/-! ## Sample environments -/

/-- Sample values for the header constants. -/
def sampleConsts : Consts :=
  { U_CAPACITY := 64, U_SINGLE_READ := 0, U_NOT_FOUND := 4294967295,
    CLOSE := 0, TIMEOUT := 1, BROKEN := 2, EPOLLERROR := 4 }

/-- Status of a connected socket in the sample constants. -/
def sampleCONNECT : Nat := 16

/-- Growth strategy described for the default hook: reserve at least the chunk
asked for past the current size. -/
def sampleReserve (b : UString) (n : Nat) : UString :=
  if b.space < n then { b with capacity := b.size + n } else b

/-- A plain, non-blocking transport on which every transfer would block. -/
def idleEnv : Env :=
  { blocking := false, isSSL := false, epollet := false, parallelization := 0,
    recv := fun _ _ => .error EAGAIN,
    send := fun _ _ => .error EAGAIN,
    writev := fun _ _ => .error EAGAIN,
    waitForRead := fun _ => { ret := 0, errno := EAGAIN },
    waitForWrite := fun _ => { ret := 0, errno := EAGAIN },
    shutdown := fun _ => true,
    checkTime := fun _ => true,
    pending := fun _ => 0,
    checkForEventSignalPending := fun _ => false,
    read_buffer_resize := sampleReserve,
    checkIO := fun n => decide (0 < n) }

/-- The send stub that accepts `min K offered` bytes per call and never fails. -/
def sendAtMost (K : Nat) : Env :=
  { idleEnv with send := fun _ _ => .accepted K, writev := fun _ _ => .accepted K }

/-- Memory holding the letters a, b, c, ... from address 0 on. -/
def letters (i : Nat) : Char := Char.ofNat (97 + i)

/-- The three lines of the multi-line reply, one per `recv`; afterwards nothing
more arrives. -/
def threeLineReply : Env :=
  { idleEnv with
    recv := fun n _ =>
      match n with
      | 0 => .data "123-First line\r\n".toList
      | 1 => .data "234 A line beginning with numbers\r\n".toList
      | 2 => .data "123 The last line\r\n".toList
      | _ => .error EAGAIN }

/-- A parallelization child whose peer sends three bytes and then closes, and
whose half-close fails. -/
def childEnv : Env :=
  { idleEnv with
    parallelization := 1
    shutdown := fun _ => false
    recv := fun n _ =>
      match n with
      | 0 => .data "abc".toList
      | _ => .data [] }

/-- A parallelization child whose peer fills the reserved space of 64 bytes and
then closes, and whose half-close fails. -/
def childFullEnv : Env :=
  { idleEnv with
    parallelization := 1
    shutdown := fun _ => false
    recv := fun n _ =>
      match n with
      | 0 => .data (List.replicate 64 'a')
      | _ => .data [] }

/-- A plain transport that delivers "abc" and then would block. -/
def abcEnv : Env :=
  { idleEnv with
    recv := fun n _ =>
      match n with
      | 0 => .data "abc".toList
      | _ => .error EAGAIN }

/-- A transport whose descriptor is closed: every call fails with EBADF. -/
def closedEnv : Env :=
  { idleEnv with
    recv := fun _ _ => .error EBADF
    send := fun _ _ => .error EBADF
    writev := fun _ _ => .error EBADF
    waitForRead := fun _ => { ret := -1, errno := EBADF }
    waitForWrite := fun _ => { ret := -1, errno := EBADF } }

/-- A TLS socket: the first `recv` fills the reserved space of 64 bytes, 5
decrypted bytes are pending, and the `recv` that drains them fails with
ECONNRESET. -/
def tlsResetEnv : Env :=
  { idleEnv with
    isSSL := true
    pending := fun _ => 5
    recv := fun n _ =>
      match n with
      | 0 => .data (List.replicate 64 'a')
      | _ => .error ECONNRESET }

/-- An inbound stream, one piece per `recv`, after which nothing more arrives;
every `send` is accepted whole. -/
def streamEnv (pieces : List String) : Env :=
  { idleEnv with
    send := fun _ n => .accepted n
    recv := fun n _ =>
      match pieces[n]? with
      | some s => .data s.toList
      | none => .error EAGAIN }

/-- A transport that delivers one byte per `recv`; `checkTime` reports the
budget exceeded from its third call on. -/
def trickleEnv : Env :=
  { idleEnv with
    recv := fun _ _ => .data ['x']
    checkTime := fun i => decide (i < 2) }

/-- What `read` returns on `tlsResetEnv` for an empty buffer and `count` 1. -/
def tlsResetResult : ReadResult :=
  { ret := true,
    sk := { USocket.fresh sampleCONNECT with
            recvCalls := 2, pendingCalls := 1, received := List.replicate 64 'a' },
    buffer := { content := List.replicate 64 'a', capacity := 192 } }

/-- A TLS socket on which "abc" arrives and every later `recv` would block. -/
def tlsStallEnv : Env :=
  { idleEnv with
    isSSL := true
    recv := fun n _ =>
      match n with
      | 0 => .data "abc".toList
      | _ => .error EAGAIN }

/-- What `read` returns on `tlsStallEnv` for a buffer holding "xy" and `count` 5. -/
def tlsStallResult : ReadResult :=
  { ret := false,
    sk := { USocket.fresh sampleCONNECT with recvCalls := 2, received := "abc".toList },
    buffer := { content := "xyabc".toList, capacity := 66 } }

/-- A run in which the token straddles two reads, each longer than the token. -/
def straddleEnv : Env := streamEnv ["* hello\r\nU00", "07 OK\r\n"]

/-- The socket after the first read on `straddleEnv`. -/
def straddleSk1 : USocket :=
  { USocket.fresh sampleCONNECT with recvCalls := 1, received := "* hello\r\nU00".toList }

/-- The result of the second read on `straddleEnv`. -/
def straddleResult : ReadResult :=
  { ret := true,
    sk := { USocket.fresh sampleCONNECT with
            recvCalls := 2, received := "* hello\r\nU0007 OK\r\n".toList },
    buffer := { content := "* hello\r\nU0007 OK\r\n".toList, capacity := 76 } }

/-- A run with unrelated text, then the tagged reply. -/
def taggedEnv : Env := streamEnv ["* unrelated text\r\n", "U0007 OK\r\n"]

/-- The socket after the command was sent and the first read on `taggedEnv`. -/
def taggedSk1 : USocket :=
  { USocket.fresh sampleCONNECT with
    sendCalls := 1, sent := "U0007 NOOP\r\n".toList,
    sendLog := [("U0007 NOOP\r\n".toList, 12)],
    recvCalls := 1, received := "* unrelated text\r\n".toList }

/-- The result of the second read on `taggedEnv`. -/
def taggedResult : ReadResult :=
  { ret := true,
    sk := { USocket.fresh sampleCONNECT with
            sendCalls := 1, sent := "U0007 NOOP\r\n".toList,
            sendLog := [("U0007 NOOP\r\n".toList, 12)],
            recvCalls := 2, received := "* unrelated text\r\nU0007 OK\r\n".toList },
    buffer := { content := "* unrelated text\r\nU0007 OK\r\n".toList, capacity := 82 } }

/-- The socket after `write` of the first 3 bytes of "abcde" on `sendAtMost 2`. -/
def writeSampleSk : USocket :=
  { USocket.fresh sampleCONNECT with
    sendCalls := 2, sent := "abc".toList,
    sendLog := [("abc".toList, 2), ("c".toList, 1)] }

/-- A blocking socket on which every `recv` would block; the first two waits
report ready, the later ones time out. -/
def blockingStallEnv : Env :=
  { idleEnv with
    blocking := true
    waitForRead := fun i => if i < 2 then { ret := 1, errno := 0 } else { ret := 0, errno := EAGAIN } }

/-- A plain non-blocking transport whose first `recv` would block and whose
second delivers "abc"; every wait reports ready. -/
def retryEnv : Env :=
  { idleEnv with
    waitForRead := fun _ => { ret := 1, errno := 0 }
    recv := fun n _ =>
      match n with
      | 0 => .error EAGAIN
      | 1 => .data "abc".toList
      | _ => .error EAGAIN }


/-- What `read` returns on `retryEnv` for an empty buffer, `count` 3 and a timeout
of 5 ms. -/
def retryResult : ReadResult :=
  { ret := true,
    sk := { USocket.fresh sampleCONNECT with
            recvCalls := 2, waitReadCalls := 1, received := "abc".toList },
    buffer := { content := "abc".toList, capacity := 64 } }

/-- The variables of that `read` at its first `recv`. -/
def retryVars : ReadVars :=
  { buffer := { content := [], capacity := 64 }, pend := [], byte_read := 0, ncount := 64,
    timeoutMS := 5 }

/-- Invariant of the loop of `read`. -/
def ReadInv (C0 R0 : List Char) (start : Nat) (sk : USocket) (v : ReadVars) : Prop :=
  start = C0.length ∧
  ∃ d1, v.buffer.content = C0 ++ d1 ∧ sk.received = R0 ++ (d1 ++ v.pend) ∧
    v.byte_read = ((d1.length + v.pend.length : Nat) : Int)

/-- A run of `read` that began with `pendingCalls = P0` and left the socket `sk`
ended in a failed TLS drain: `pending()` was consulted during the run, its last
answer was not zero, and the last `recv`, which was offered that many bytes,
returned -1.  (A non-zero answer of `pending()` is always followed by the drain
`recv`, after which `read` goes to label `done:`.) -/
def DrainFailed (env : Env) (P0 : Nat) (sk : USocket) : Prop :=
  env.isSSL = true ∧ P0 < sk.pendingCalls ∧ env.pending (sk.pendingCalls - 1) ≠ 0 ∧
    ∃ e, env.recv (sk.recvCalls - 1) (env.pending (sk.pendingCalls - 1)) = RecvResult.error e

/-- What the loop of `read` keeps of the call counters: `pending()` was consulted
`P0` times before the call, and no half-close was attempted yet (the one
attempt `read` makes ends the call). -/
def CallsInv (P0 S0 : Nat) (sk : USocket) : Prop :=
  P0 ≤ sk.pendingCalls ∧ sk.shutdownCalls = S0

/-- What `read` guarantees of the buffer on return, for a run that began with a
buffer holding `C0` and the bytes `R0` received: the buffer holds `C0` followed
by the bytes delivered during the run. -/
def ReadPost (C0 R0 : List Char) (res : ReadResult) : Prop :=
  ∃ d, res.sk.received = R0 ++ d ∧ res.buffer.content = C0 ++ d

/-- Invariant of the loop of `read` for the value it returns: `byte_read` counts
the bytes delivered so far. -/
def CountInv (R0 : List Char) (sk : USocket) (v : ReadVars) : Prop :=
  ∃ d, sk.received = R0 ++ d ∧ v.byte_read = (d.length : Int)

/-- What `read` guarantees of the value it returns, for a run that began with
`pendingCalls = P0` and the bytes `R0` received. -/
def RetPost (c : Consts) (env : Env) (count P0 : Nat) (R0 : List Char)
    (res : ReadResult) : Prop :=
  ∃ d, res.sk.received = R0 ++ d ∧
    (¬ DrainFailed env P0 res.sk →
      (res.ret = true ↔ d ≠ [] ∧ castInt count ≤ (d.length : Int) ∧ res.sk.iState ≠ c.CLOSE))

/-- Invariant of the loop of `read` on a socket that is CLOSE at entry. -/
def ClosedInv (c : Consts) (count : Nat) (sk : USocket) (v : ReadVars) : Prop :=
  sk.iState = c.CLOSE ∧ (v.timeoutMS ≠ 0 → v.byte_read = 0 ∨ v.byte_read < castInt count)

/-- A transport whose descriptor is closed: every transfer fails with an `errno`
other than EAGAIN, and so does every wait that does not report ready. -/
def Env.descriptorClosed (env : Env) : Prop :=
  (∀ i n, ∃ e, env.recv i n = RecvResult.error e ∧ e ≠ EAGAIN) ∧
  (∀ i n, ∃ e, env.send i n = SendResult.error e ∧ e ≠ EAGAIN) ∧
  (∀ i, (env.waitForRead i).ret ≠ 1 → (env.waitForRead i).errno ≠ EAGAIN) ∧
  (∀ i, (env.waitForWrite i).ret ≠ 1 → (env.waitForWrite i).errno ≠ EAGAIN)

/-- Invariant of the loop of `read` for "the buffer only grows at its end". -/
def GrowInv (C0 : List Char) (start : Nat) (v : ReadVars) : Prop :=
  start = C0.length ∧ C0 <+: v.buffer.content ∧ 0 ≤ v.byte_read

/-- The socket and the buffer after `k` calls of
`USocketExt::read(sk, buffer, U_SINGLE_READ, timeoutMS)` that all returned true;
`none` when one of them returned false (or ran out of fuel). -/
def readSeq (c : Consts) (env : Env) (readFuel : Nat) (timeoutMS : Int) :
    Nat → USocket → UString → Option (USocket × UString)
  | 0, sk, buffer => some (sk, buffer)
  | k + 1, sk, buffer =>
    match read c env readFuel sk buffer c.U_SINGLE_READ timeoutMS 0 with
    | some r => if r.ret then readSeq c env readFuel timeoutMS k r.sk r.buffer else none
    | none => none

/-- Invariant of the loop of `readWhileNotToken`: the token does not occur in the
buffer, and the next search starts no later than `token.length` before its end. -/
def TokenInv (token : List Char) (b : UString) (start : Nat) : Prop :=
  (start = 0 ∨ start + token.length ≤ b.size) ∧ start ≤ b.size ∧ ¬ token <:+: b.content

/-- The segments `iov[0..iovcnt)` the loop of `writev` hands to the system call. -/
def WritevVars.current (v : WritevVars) : List iovec :=
  (v.arr.drop v.off).take v.iovcnt.toNat

/-- Sum of the lengths of a segment list. -/
def lengthSum (l : List iovec) : Nat := (l.map (fun e => e.iov_len)).sum

/-- The bytes stored by the first `m` calls of `recv` of a run of `readLineReply`
that starts with call number `first`: each call is offered what is left of
`buffer_size`. -/
def lineBytes (env : Env) (first buffer_size : Nat) : Nat → List Char
  | 0 => []
  | m + 1 =>
    let acc := lineBytes env first buffer_size m
    match env.recv (first + m) (buffer_size - acc.length) with
    | .data bytes => acc ++ bytes.take (buffer_size - acc.length)
    | .error _ => acc

/-- The value returned by call `m` of `recv` in that run. -/
def lineValue (env : Env) (first buffer_size : Nat) (m : Nat) : Int :=
  let acc := lineBytes env first buffer_size m
  match env.recv (first + m) (buffer_size - acc.length) with
  | .data bytes => ((bytes.take (buffer_size - acc.length)).length : Int)
  | .error _ => -1

/-- The sends of a run of `write(sk, ptr, count, ...)` are in order: with `acc`
bytes accepted before, each entry of the log is an offer of exactly the bytes of
the source from offset `acc` up to `count`, and what it accepted (its return
value when positive) is added to `acc` for the next entry. -/
def sendsInOrder (src : List Char) (count : Nat) : Nat → List (List Char × Int) → Prop
  | _, [] => True
  | acc, (offer, value) :: rest =>
    offer = (src.take count).drop acc ∧ sendsInOrder src count (acc + value.toNat) rest

/-- Sum of the positive return values in a log of sends. -/
def acceptedSum (log : List (List Char × Int)) : Nat :=
  (log.map (fun e => e.2.toNat)).sum

/-- Invariant of the loop of `write`: `byte_written` bytes of the source have
been accepted, in order, `count` is what is left of the `count0` asked for, and
the sends made so far were in order. -/
def WriteInv (ptr S0 : List Char) (L0 : List (List Char × Int)) (count0 : Nat) (sk : USocket)
    (byte_written : Int) (count : Nat) : Prop :=
  0 ≤ byte_written ∧ byte_written.toNat + count = count0 ∧
    sk.sent = S0 ++ ptr.take byte_written.toNat ∧
    ∃ log, sk.sendLog = L0 ++ log ∧ sendsInOrder ptr count0 0 log ∧
      acceptedSum log = byte_written.toNat

/-- What `write` guarantees on return. -/
def WritePost (ptr S0 : List Char) (L0 : List (List Char × Int)) (count0 : Nat)
    (res : Int × USocket) : Prop :=
  0 ≤ res.1 ∧ res.1 ≤ (count0 : Int) ∧ res.2.sent = S0 ++ ptr.take res.1.toNat ∧
    ∃ log, res.2.sendLog = L0 ++ log ∧ sendsInOrder ptr count0 0 log ∧
      acceptedSum log = res.1.toNat

/-- The socket of a run of `readLineReply` after `j` calls of `recv` that stored
`bytes` in all. -/
def lineSk (sk : USocket) (bytes : List Char) (j : Nat) : USocket :=
  { sk with recvCalls := sk.recvCalls + j, received := sk.received ++ bytes }

/-- The buffer `B` with `bytes` stored from index `off` on. -/
def lineBuffer (B : List Char) (off : Nat) (bytes : List Char) : List Char :=
  B.take off ++ bytes ++ B.drop (off + bytes.length)

/-! # Theorems -/

set_option maxRecDepth 100000

theorem readDone_sk (c : Consts) (start count : Nat) (sk : USocket) (v : ReadVars) :
    (readDone c start count sk v).sk = sk := by
  unfold readDone
  split
  · split <;> rfl
  · rfl

theorem readDone_ret (c : Consts) (start count : Nat) (sk : USocket) (v : ReadVars) :
    ((readDone c start count sk v).ret = true ↔
      v.byte_read ≠ 0 ∧ castInt count ≤ v.byte_read ∧ sk.iState ≠ c.CLOSE) := by
  unfold readDone
  split
  · next h0 =>
    split
    · next hh => simpa [h0] using hh
    · next hh => simpa [h0] using hh
  · next h0 => simp [h0]

theorem readDone_buffer (c : Consts) (start count : Nat) (sk : USocket) (v : ReadVars) :
    (readDone c start count sk v).buffer =
      if v.byte_read ≠ 0 ∧ (start + v.byte_read).toNat > v.buffer.size then
        (v.buffer.size_adjust_force v.pend (start + v.byte_read).toNat).1
      else v.buffer := by
  unfold readDone
  by_cases h0 : v.byte_read = 0
  · simp [h0]
  · by_cases h1 : (start + v.byte_read).toNat > v.buffer.size
    · simp only [ne_eq, h0, not_false_eq_true, ↓reduceIte, h1, and_self]
      split <;> rfl
    · simp only [ne_eq, h0, not_false_eq_true, ↓reduceIte, h1, and_false]
      split <;> rfl

theorem readDone_post (c : Consts) (count : Nat) {C0 R0 : List Char}
    {start : Nat} {sk : USocket} {v : ReadVars} (h : ReadInv C0 R0 start sk v) :
    ReadPost C0 R0 (readDone c start count sk v) := by
  obtain ⟨hs, d1, hc, hr, hb⟩ := h
  refine ⟨d1 ++ v.pend, by rw [readDone_sk]; exact hr, ?_⟩
  rw [readDone_buffer]
  have hst : (↑start + v.byte_read).toNat = C0.length + d1.length + v.pend.length := by
    rw [hb, hs]; omega
  by_cases hp : v.pend = []
  · have : ¬ (v.byte_read ≠ 0 ∧ (↑start + v.byte_read).toNat > v.buffer.size) := by
      rw [hst, UString.size, hc, hp]; simp
    rw [if_neg this, hc, hp]; simp
  · have hpos : 0 < v.pend.length := List.length_pos.mpr hp
    have : (v.byte_read ≠ 0 ∧ (↑start + v.byte_read).toNat > v.buffer.size) := by
      rw [hst, UString.size, hc, hb]; simp; omega
    rw [if_pos this, hst]
    simp only [UString.size_adjust_force, hc]
    rw [List.take_of_length_le (by simp; omega)]
    simp [Nat.sub_eq_zero_of_le, Nat.add_assoc]

theorem readInv_of_received {C0 R0 : List Char} {start : Nat} {sk sk1 : USocket} {v : ReadVars}
    (h : ReadInv C0 R0 start sk v) (hr : sk1.received = sk.received) :
    ReadInv C0 R0 start sk1 v := by
  obtain ⟨hs, d1, hc, hrec, hb⟩ := h
  exact ⟨hs, d1, hc, by rw [hr]; exact hrec, hb⟩

theorem readInv_recv {C0 R0 : List Char} {start : Nat} {sk sk1 : USocket} {v : ReadVars}
    (h : ReadInv C0 R0 start sk v) (bytes : List Char)
    (hr : sk1.received = sk.received ++ bytes) (n : Nat) (t : Int) :
    ReadInv C0 R0 start sk1
      { buffer := v.buffer, pend := v.pend ++ bytes,
        byte_read := v.byte_read + (bytes.length : Int), ncount := n, timeoutMS := t } := by
  obtain ⟨hs, d1, hc, hrec, hb⟩ := h
  refine ⟨hs, d1, hc, ?_, ?_⟩
  · simp [hr, hrec]
  · simp only [hb, List.length_append]; push_cast; ring

theorem readInv_adjust {C0 R0 : List Char} {start : Nat} {sk : USocket} {v : ReadVars}
    (h : ReadInv C0 R0 start sk v) (b1 : UString)
    (hb1 : b1.content =
      (v.buffer.size_adjust_force v.pend (start + v.byte_read).toNat).1.content)
    (n : Nat) (t : Int) :
    ReadInv C0 R0 start sk
      { buffer := b1, pend := (v.buffer.size_adjust_force v.pend (start + v.byte_read).toNat).2,
        byte_read := v.byte_read, ncount := n, timeoutMS := t } := by
  obtain ⟨hs, d1, hc, hrec, hb⟩ := h
  have hst : (↑start + v.byte_read).toNat = C0.length + d1.length + v.pend.length := by
    rw [hb, hs]; omega
  have hlen : (v.buffer.content ++ v.pend).length = C0.length + d1.length + v.pend.length := by
    simp [hc, Nat.add_assoc]
  refine ⟨hs, d1 ++ v.pend, ?_, ?_, ?_⟩
  · have hz : C0.length + d1.length + v.pend.length - (v.buffer.content ++ v.pend).length = 0 := by
      omega
    rw [hb1]
    simp only [UString.size_adjust_force, hst]
    rw [List.take_of_length_le (by omega), hz]
    simp [hc]
  · simp only [UString.size_adjust_force, hst]
    rw [List.drop_of_length_le (by omega)]
    simpa using hrec
  · simp only [UString.size_adjust_force, hst]
    rw [List.drop_of_length_le (by omega)]
    simpa using hb

theorem adjust_pend_nil {C0 R0 : List Char} {start : Nat} {sk : USocket} {v : ReadVars}
    (h : ReadInv C0 R0 start sk v) :
    (v.buffer.size_adjust_force v.pend (start + v.byte_read).toNat).2 = [] := by
  obtain ⟨hs, d1, hc, hrec, hb⟩ := h
  have hst : (↑start + v.byte_read).toNat = C0.length + d1.length + v.pend.length := by
    rw [hb, hs]; omega
  simp only [UString.size_adjust_force, hst]
  exact List.drop_of_length_le (by simp [hc, Nat.add_assoc])

/-- Label `done:` after the `recv` that drains the pending TLS bytes returned -1:
the buffer holds what was delivered. -/
theorem readDone_failed_drain (c : Consts) (count : Nat) {C0 R0 : List Char}
    {start : Nat} {sk sk1 : USocket} {v : ReadVars} (h : ReadInv C0 R0 start sk v)
    (hpend : v.pend = []) (hrec : sk1.received = sk.received) :
    ReadPost C0 R0
      (readDone c start count sk1
        { v with pend := v.pend ++ [], byte_read := v.byte_read + -1 }) := by
  obtain ⟨hs, d1, hc, hr, hb⟩ := h
  rw [hpend] at hr hb
  refine ⟨d1, ?_, ?_⟩
  · rw [readDone_sk, hrec, hr]; simp
  · rw [readDone_buffer]
    have : ¬ ((v.byte_read + -1 ≠ 0) ∧ (↑start + (v.byte_read + -1)).toNat > v.buffer.size) := by
      rw [UString.size, hc, hb, hs]
      simp only [List.length_nil, Nat.add_zero, List.length_append]
      omega
    simp only at this
    rw [if_neg this]
    exact hc

theorem readClose_post (c : Consts) (count : Nat) {C0 R0 : List Char}
    {start : Nat} {sk : USocket} {v : ReadVars} (h : ReadInv C0 R0 start sk v) :
    ReadPost C0 R0 (readClose c start count sk v) :=
  readDone_post c count (readInv_of_received h rfl)

theorem readEOF_post (c : Consts) (env : Env) (count : Nat) {C0 R0 : List Char}
    {start : Nat} {sk : USocket} {v : ReadVars}
    (hpar : env.parallelization = 1 → env.shutdown sk.shutdownCalls = true)
    (h : ReadInv C0 R0 start sk v) :
    ReadPost C0 R0 (readEOF c env start count sk v) := by
  unfold readEOF
  split
  · next h0 =>
    split
    · obtain ⟨hs, d1, hc, hrec, hb⟩ := h
      have h1 : d1 = [] := List.length_eq_zero.mp (by omega)
      have h2 : v.pend = [] := List.length_eq_zero.mp (by omega)
      exact ⟨[], by simp [hrec, h1, h2], by simp [hc, h1]⟩
    · exact readClose_post c count h
  · split
    · next hsh =>
      split
      · next hp => rw [hpar hp] at hsh; exact absurd hsh (by simp)
      · exact readClose_post c count (readInv_of_received h rfl)
    · exact readDone_post c count (readInv_of_received h rfl)

theorem readError_post (c : Consts) (env : Env) (count S0 : Nat) {C0 R0 : List Char}
    {start : Nat} {again : USocket → ReadVars → Option ReadResult}
    (hagain : ∀ sk1 v1 res, ReadInv C0 R0 start sk1 v1 → sk1.shutdownCalls = S0 →
      again sk1 v1 = some res → res.sk.overrun = false → ReadPost C0 R0 res)
    {sk : USocket} {v : ReadVars} (h : ReadInv C0 R0 start sk v) (hP : sk.shutdownCalls = S0)
    (errno : Nat) {res : ReadResult}
    (he : readError c env start count again errno sk v = some res)
    (hdef : res.sk.overrun = false) :
    ReadPost C0 R0 res := by
  unfold readError at he
  split at he
  · cases he
    exact readClose_post c count (readInv_of_received h rfl)
  · split at he
    · simp only [USocket.waitForRead] at he
      split at he
      · refine hagain _ _ _ ?_ ?_ he hdef
        · exact readInv_of_received h rfl
        · exact hP
      · cases he
        exact readDone_post c count (readInv_of_received h rfl)
    · cases he
      exact readDone_post c count h

theorem readGot_post (c : Consts) (env : Env) (count time_limit S0 : Nat) {C0 R0 : List Char}
    {start : Nat} {again : USocket → ReadVars → Option ReadResult}
    (hres : ∀ b n, (env.read_buffer_resize b n).content = b.content)
    (hagain : ∀ sk1 v1 res, ReadInv C0 R0 start sk1 v1 → sk1.shutdownCalls = S0 →
      again sk1 v1 = some res → res.sk.overrun = false → ReadPost C0 R0 res)
    {sk : USocket} {v : ReadVars} (bytes : List Char)
    (h : ReadInv C0 R0 start sk
      { v with pend := v.pend ++ bytes, byte_read := v.byte_read + (bytes.length : Int) })
    (hP : sk.shutdownCalls = S0) {res : ReadResult}
    (he : readGot c env start count time_limit again (bytes.length : Int) bytes sk v = some res)
    (hdef : res.sk.overrun = false) :
    ReadPost C0 R0 res := by
  unfold readGot at he
  simp only at he
  split at he
  · split at he
    · cases he
      exact readDone_post c count (readInv_of_received h (by split <;> rfl))
    · refine hagain _ _ _ ?_ ?_ he hdef
      · obtain ⟨hs, d1, hc, hrec, hb⟩ := h
        exact ⟨hs, d1, hc, by split <;> exact hrec, hb⟩
      · split <;> exact hP
  · split at he
    · have hadj := readInv_adjust h
      have hnil := adjust_pend_nil h
      split at he
      · next hssl =>
        split at he
        · next hav =>
          cases hrecv : env.recv sk.recvCalls (env.pending sk.pendingCalls) with
          | data bytes1 =>
            simp only [USocket.recv, hrecv] at he
            split at he
            · cases he
              simp at hdef
            · cases he
              refine readDone_post c count ?_
              exact readInv_recv (readInv_of_received (hadj _ (hres _ _) 0 0) rfl) _ rfl _ _
          | error e =>
            simp only [USocket.recv, hrecv, List.length_nil, Nat.not_lt_zero, if_false] at he
            cases he
            exact readDone_failed_drain c count
              (readInv_of_received (hadj _ (hres _ _) v.ncount v.timeoutMS) rfl) hnil rfl
        · refine hagain _ _ _ ?_ ?_ he hdef
          · exact readInv_of_received (hadj _ (hres _ _) _ _) rfl
          · exact hP
      · refine hagain _ _ _ ?_ ?_ he hdef
        · exact hadj _ (hres _ _) _ _
        · exact hP
    · split at he
      · refine hagain _ _ _ ?_ ?_ he hdef
        · exact readInv_adjust h _ rfl _ _
        · exact hP
      · cases he
        exact readDone_post c count h

theorem readRecv_post (c : Consts) (env : Env) (count time_limit S0 : Nat) {C0 R0 : List Char}
    {start : Nat} {again : USocket → ReadVars → Option ReadResult}
    (hres : ∀ b n, (env.read_buffer_resize b n).content = b.content)
    (hpar : env.parallelization = 1 → env.shutdown S0 = true)
    (hagain : ∀ sk1 v1 res, ReadInv C0 R0 start sk1 v1 → sk1.shutdownCalls = S0 →
      again sk1 v1 = some res → res.sk.overrun = false → ReadPost C0 R0 res)
    {sk : USocket} {v : ReadVars} (h : ReadInv C0 R0 start sk v) (hP : sk.shutdownCalls = S0)
    {res : ReadResult}
    (he : readRecv c env start count time_limit again sk v = some res)
    (hdef : res.sk.overrun = false) :
    ReadPost C0 R0 res := by
  unfold readRecv at he
  cases hrecv : env.recv sk.recvCalls v.ncount with
  | data bytes =>
    simp only [USocket.recv, hrecv] at he
    split at he
    · split at he
      · next h1 h2 => omega
      · cases he
        refine readEOF_post c env count (fun hp => by rw [← hP] at hpar; exact hpar hp) ?_
        obtain ⟨hs, d1, hc, hrec, hb⟩ := h
        have : List.take v.ncount bytes = [] := List.length_eq_zero.mp (by omega)
        exact ⟨hs, d1, hc, by simp [this, hrec], hb⟩
    · refine readGot_post c env count time_limit S0 hres hagain _ ?_ ?_ he hdef
      · exact readInv_recv h _ rfl _ _
      · exact hP
  | error e =>
    simp only [USocket.recv, hrecv] at he
    refine readError_post c env count S0 hagain ?_ ?_ _ he hdef
    · exact readInv_of_received h rfl
    · exact hP

theorem readLoop_post (c : Consts) (env : Env) (count time_limit S0 : Nat) {C0 R0 : List Char}
    {start : Nat}
    (hres : ∀ b n, (env.read_buffer_resize b n).content = b.content)
    (hpar : env.parallelization = 1 → env.shutdown S0 = true) :
    ∀ (fuel : Nat) (sk : USocket) (v : ReadVars) (res : ReadResult),
      ReadInv C0 R0 start sk v → sk.shutdownCalls = S0 →
      readLoop c env start count time_limit fuel sk v = some res →
      res.sk.overrun = false → ReadPost C0 R0 res := by
  intro fuel
  induction fuel with
  | zero => intro sk v res _ _ he; simp [readLoop] at he
  | succ fuel ih =>
    intro sk v res h hP he hdef
    unfold readLoop at he
    simp only [USocket.waitForRead] at he
    split at he
    · split at he
      · refine readError_post c env count S0 ih ?_ ?_ _ he hdef
        · exact readInv_of_received h rfl
        · exact hP
      · refine readRecv_post c env count time_limit S0 hres hpar ih ?_ ?_ he hdef
        · exact readInv_of_received h rfl
        · exact hP
    · exact readRecv_post c env count time_limit S0 hres hpar ih h hP he hdef

theorem read_post (c : Consts) (env : Env) (fuel : Nat) (sk : USocket) (buffer : UString)
    (count : Nat) (timeoutMS : Int) (time_limit : Nat) (res : ReadResult)
    (hres : ∀ b n, (env.read_buffer_resize b n).content = b.content)
    (hpar : env.parallelization = 1 → env.shutdown sk.shutdownCalls = true)
    (he : read c env fuel sk buffer count timeoutMS time_limit = some res)
    (hdef : res.sk.overrun = false) :
    ReadPost buffer.content sk.received res := by
  unfold read at he
  refine readLoop_post c env count time_limit sk.shutdownCalls hres hpar fuel
    sk _ res ?_ rfl he hdef
  refine ⟨rfl, [], ?_, by simp, by simp⟩
  simp only []
  split_ifs <;> simp [hres]

theorem readDone_retPost (c : Consts) (env : Env) (start count P0 : Nat) {R0 : List Char}
    {sk : USocket} {v : ReadVars} (h : CountInv R0 sk v) :
    RetPost c env count P0 R0 (readDone c start count sk v) := by
  obtain ⟨d, hr, hb⟩ := h
  refine ⟨d, by rw [readDone_sk]; exact hr, fun _ => ?_⟩
  rw [readDone_ret, readDone_sk, hb]
  have : (d ≠ [] ↔ ((d.length : Nat) : Int) ≠ 0) := by
    rw [ne_eq, ne_eq, Int.natCast_eq_zero, List.length_eq_zero]
  rw [this]

theorem countInv_of_received {R0 : List Char} {sk sk1 : USocket} {v v1 : ReadVars}
    (h : CountInv R0 sk v) (hr : sk1.received = sk.received) (hb : v1.byte_read = v.byte_read) :
    CountInv R0 sk1 v1 := by
  obtain ⟨d, hrec, hbr⟩ := h
  exact ⟨d, by rw [hr]; exact hrec, by rw [hb]; exact hbr⟩

theorem countInv_recv {R0 : List Char} {sk sk1 : USocket} {v v1 : ReadVars}
    (h : CountInv R0 sk v) (bytes : List Char) (hr : sk1.received = sk.received ++ bytes)
    (hb : v1.byte_read = v.byte_read + (bytes.length : Int)) :
    CountInv R0 sk1 v1 := by
  obtain ⟨d, hrec, hbr⟩ := h
  refine ⟨d ++ bytes, by rw [hr, hrec, List.append_assoc], ?_⟩
  rw [hb, hbr, List.length_append]
  push_cast
  rfl

theorem readClose_retPost (c : Consts) (env : Env) (start count P0 : Nat) {R0 : List Char}
    {sk : USocket} {v : ReadVars} (h : CountInv R0 sk v) :
    RetPost c env count P0 R0 (readClose c start count sk v) :=
  readDone_retPost c env start count P0 (countInv_of_received h rfl rfl)

theorem readEOF_retPost (c : Consts) (env : Env) (start count P0 : Nat) {R0 : List Char}
    {sk : USocket} {v : ReadVars}
    (hpar : env.parallelization = 1 → env.shutdown sk.shutdownCalls = true)
    (h : CountInv R0 sk v) :
    RetPost c env count P0 R0 (readEOF c env start count sk v) := by
  unfold readEOF
  split
  · next h0 =>
    split
    · obtain ⟨d, hrec, hb⟩ := h
      have h1 : d = [] := List.length_eq_zero.mp (by omega)
      exact ⟨[], by simp [hrec, h1], fun _ => by simp⟩
    · exact readClose_retPost c env start count P0 h
  · split
    · next hsh =>
      split
      · next hp => rw [hpar hp] at hsh; exact absurd hsh (by simp)
      · exact readClose_retPost c env start count P0 (countInv_of_received h rfl rfl)
    · exact readDone_retPost c env start count P0 (countInv_of_received h rfl rfl)

theorem readError_retPost (c : Consts) (env : Env) (start count P0 S0 : Nat) {R0 : List Char}
    {again : USocket → ReadVars → Option ReadResult}
    (hagain : ∀ sk1 v1 res, CountInv R0 sk1 v1 → CallsInv P0 S0 sk1 →
      again sk1 v1 = some res → res.sk.overrun = false → RetPost c env count P0 R0 res)
    {sk : USocket} {v : ReadVars} (h : CountInv R0 sk v) (hP : CallsInv P0 S0 sk)
    (errno : Nat) {res : ReadResult}
    (he : readError c env start count again errno sk v = some res)
    (hdef : res.sk.overrun = false) :
    RetPost c env count P0 R0 res := by
  unfold readError at he
  split at he
  · cases he
    exact readClose_retPost c env start count P0 (countInv_of_received h rfl rfl)
  · split at he
    · simp only [USocket.waitForRead] at he
      split at he
      · refine hagain _ _ _ ?_ ?_ he hdef
        · exact countInv_of_received h rfl rfl
        · exact hP
      · cases he
        exact readDone_retPost c env start count P0 (countInv_of_received h rfl rfl)
    · cases he
      exact readDone_retPost c env start count P0 h

theorem readGot_retPost (c : Consts) (env : Env) (start count time_limit P0 S0 : Nat)
    {R0 : List Char} {again : USocket → ReadVars → Option ReadResult}
    (hagain : ∀ sk1 v1 res, CountInv R0 sk1 v1 → CallsInv P0 S0 sk1 →
      again sk1 v1 = some res → res.sk.overrun = false → RetPost c env count P0 R0 res)
    {sk : USocket} {v : ReadVars} (bytes : List Char)
    (h : CountInv R0 sk { v with byte_read := v.byte_read + (bytes.length : Int) })
    (hP : CallsInv P0 S0 sk) {res : ReadResult}
    (he : readGot c env start count time_limit again (bytes.length : Int) bytes sk v = some res)
    (hdef : res.sk.overrun = false) :
    RetPost c env count P0 R0 res := by
  unfold readGot at he
  simp only at he
  split at he
  · split at he
    · cases he
      exact readDone_retPost c env start count P0
        (countInv_of_received h (by split <;> rfl) rfl)
    · refine hagain _ _ _ ?_ ?_ he hdef
      · exact countInv_of_received h (by split <;> rfl) rfl
      · split <;> exact hP
  · split at he
    · split at he
      · next hssl =>
        split at he
        · next hav =>
          cases hrecv : env.recv sk.recvCalls (env.pending sk.pendingCalls) with
          | data bytes1 =>
            simp only [USocket.recv, hrecv] at he
            split at he
            · cases he
              simp at hdef
            · cases he
              exact readDone_retPost c env start count P0 (countInv_recv h _ rfl rfl)
          | error e =>
            simp only [USocket.recv, hrecv, List.length_nil, Nat.not_lt_zero, if_false] at he
            cases he
            obtain ⟨d, hrec, -⟩ := h
            refine ⟨d, by rw [readDone_sk]; exact hrec, fun hnd => ?_⟩
            rw [readDone_sk] at hnd
            refine absurd ⟨hssl, Nat.lt_succ_of_le hP.1, ?_, e, ?_⟩ hnd
            · simpa using hav
            · simpa using hrecv
        · refine hagain _ _ _ ?_ ?_ he hdef
          · exact countInv_of_received h rfl rfl
          · exact ⟨Nat.le_succ_of_le hP.1, hP.2⟩
      · refine hagain _ _ _ ?_ ?_ he hdef
        · exact countInv_of_received h rfl rfl
        · exact hP
    · split at he
      · refine hagain _ _ _ ?_ ?_ he hdef
        · exact countInv_of_received h rfl rfl
        · exact hP
      · cases he
        exact readDone_retPost c env start count P0 (countInv_of_received h rfl rfl)

theorem readRecv_retPost (c : Consts) (env : Env) (start count time_limit P0 S0 : Nat)
    {R0 : List Char} {again : USocket → ReadVars → Option ReadResult}
    (hpar : env.parallelization = 1 → env.shutdown S0 = true)
    (hagain : ∀ sk1 v1 res, CountInv R0 sk1 v1 → CallsInv P0 S0 sk1 →
      again sk1 v1 = some res → res.sk.overrun = false → RetPost c env count P0 R0 res)
    {sk : USocket} {v : ReadVars} (h : CountInv R0 sk v) (hP : CallsInv P0 S0 sk)
    {res : ReadResult}
    (he : readRecv c env start count time_limit again sk v = some res)
    (hdef : res.sk.overrun = false) :
    RetPost c env count P0 R0 res := by
  unfold readRecv at he
  cases hrecv : env.recv sk.recvCalls v.ncount with
  | data bytes =>
    simp only [USocket.recv, hrecv] at he
    split at he
    · split at he
      · next h1 h2 => omega
      · cases he
        refine readEOF_retPost c env start count P0
          (fun hp => by rw [← hP.2] at hpar; exact hpar hp) ?_
        have : List.take v.ncount bytes = [] := List.length_eq_zero.mp (by omega)
        exact countInv_of_received h (by simp [this]) rfl
    · refine readGot_retPost c env start count time_limit P0 S0 hagain _ ?_ ?_ he hdef
      · exact countInv_recv h _ rfl rfl
      · exact hP
  | error e =>
    simp only [USocket.recv, hrecv] at he
    refine readError_retPost c env start count P0 S0 hagain ?_ ?_ _ he hdef
    · exact countInv_of_received h rfl rfl
    · exact hP

theorem readLoop_retPost (c : Consts) (env : Env) (start count time_limit P0 S0 : Nat)
    {R0 : List Char} (hpar : env.parallelization = 1 → env.shutdown S0 = true) :
    ∀ (fuel : Nat) (sk : USocket) (v : ReadVars) (res : ReadResult),
      CountInv R0 sk v → CallsInv P0 S0 sk →
      readLoop c env start count time_limit fuel sk v = some res →
      res.sk.overrun = false → RetPost c env count P0 R0 res := by
  intro fuel
  induction fuel with
  | zero => intro sk v res _ _ he; simp [readLoop] at he
  | succ fuel ih =>
    intro sk v res h hP he hdef
    unfold readLoop at he
    simp only [USocket.waitForRead] at he
    split at he
    · split at he
      · refine readError_retPost c env start count P0 S0 ih ?_ ?_ _ he hdef
        · exact countInv_of_received h rfl rfl
        · exact hP
      · refine readRecv_retPost c env start count time_limit P0 S0 hpar ih ?_ ?_ he hdef
        · exact countInv_of_received h rfl rfl
        · exact hP
    · exact readRecv_retPost c env start count time_limit P0 S0 hpar ih h hP he hdef

theorem read_retPost (c : Consts) (env : Env) (fuel : Nat) (sk : USocket) (buffer : UString)
    (count : Nat) (timeoutMS : Int) (time_limit : Nat) (res : ReadResult)
    (hpar : env.parallelization = 1 → env.shutdown sk.shutdownCalls = true)
    (he : read c env fuel sk buffer count timeoutMS time_limit = some res)
    (hdef : res.sk.overrun = false) :
    RetPost c env count sk.pendingCalls sk.received res := by
  unfold read at he
  exact readLoop_retPost c env _ count time_limit sk.pendingCalls sk.shutdownCalls hpar fuel
    sk _ res ⟨[], by simp, by simp⟩ ⟨le_refl _, rfl⟩ he hdef

theorem readDone_false (c : Consts) (start count : Nat) (sk : USocket) (v : ReadVars)
    (h : sk.iState = c.CLOSE ∨ v.byte_read = 0 ∨ v.byte_read < castInt count) :
    (readDone c start count sk v).ret = false := by
  rw [← Bool.not_eq_true, readDone_ret]
  rintro ⟨h1, h2, h3⟩
  rcases h with h | h | h
  · exact h3 h
  · exact h1 h
  · omega

theorem readClose_false (c : Consts) (start count : Nat) (sk : USocket) (v : ReadVars) :
    (readClose c start count sk v).ret = false :=
  readDone_false c start count _ v (Or.inl rfl)

theorem readEOF_false (c : Consts) (env : Env) (start count : Nat) (sk : USocket) (v : ReadVars)
    (h : sk.iState = c.CLOSE) : (readEOF c env start count sk v).ret = false := by
  unfold readEOF
  split
  · split
    · rfl
    · exact readClose_false c start count _ v
  · split
    · split
      · rfl
      · exact readClose_false c start count _ v
    · exact readDone_false c start count _ v (Or.inl h)

theorem readError_false (c : Consts) (env : Env) (start count : Nat)
    {again : USocket → ReadVars → Option ReadResult}
    (hagain : ∀ sk1 v1 res, ClosedInv c count sk1 v1 → again sk1 v1 = some res → res.ret = false)
    {sk : USocket} {v : ReadVars} (h : ClosedInv c count sk v) (errno : Nat)
    {res : ReadResult} (he : readError c env start count again errno sk v = some res) :
    res.ret = false := by
  unfold readError at he
  split at he
  · cases he
    exact readClose_false c start count _ v
  · split at he
    · next ht =>
      simp only [USocket.waitForRead] at he
      split at he
      · refine hagain _ _ _ ?_ he
        exact ⟨h.1, h.2⟩
      · cases he
        exact readDone_false c start count _ v (Or.inr (h.2 ht))
    · cases he
      exact readDone_false c start count _ v (Or.inl h.1)

theorem readGot_false (c : Consts) (env : Env) (start count time_limit : Nat)
    {again : USocket → ReadVars → Option ReadResult}
    (hagain : ∀ sk1 v1 res, ClosedInv c count sk1 v1 → again sk1 v1 = some res → res.ret = false)
    {sk : USocket} {v : ReadVars} (h : sk.iState = c.CLOSE) (value : Int) (bytes : List Char)
    {res : ReadResult}
    (he : readGot c env start count time_limit again value bytes sk v = some res) :
    res.ret = false := by
  unfold readGot at he
  simp only at he
  split at he
  · next hlt =>
    split at he
    · cases he
      exact readDone_false c start count _ _ (Or.inr (Or.inr hlt))
    · refine hagain _ _ _ ?_ he
      refine ⟨?_, fun _ => Or.inr hlt⟩
      split <;> exact h
  · split at he
    · split at he
      · split at he
        · cases hrecv : env.recv sk.recvCalls (env.pending sk.pendingCalls) with
          | data bytes1 =>
            simp only [USocket.recv, hrecv] at he
            split at he
            · cases he
              rfl
            · cases he
              exact readDone_false c start count _ _ (Or.inl h)
          | error e =>
            simp only [USocket.recv, hrecv, List.length_nil, Nat.not_lt_zero, if_false] at he
            cases he
            exact readDone_false c start count _ _ (Or.inl h)
        · refine hagain _ _ _ ?_ he
          exact ⟨h, fun hne => absurd rfl hne⟩
      · refine hagain _ _ _ ?_ he
        exact ⟨h, fun hne => absurd rfl hne⟩
    · split at he
      · refine hagain _ _ _ ?_ he
        exact ⟨h, fun hne => absurd rfl hne⟩
      · cases he
        exact readDone_false c start count _ _ (Or.inl h)

theorem readRecv_false (c : Consts) (env : Env) (start count time_limit : Nat)
    {again : USocket → ReadVars → Option ReadResult}
    (hagain : ∀ sk1 v1 res, ClosedInv c count sk1 v1 → again sk1 v1 = some res → res.ret = false)
    {sk : USocket} {v : ReadVars} (h : ClosedInv c count sk v) {res : ReadResult}
    (he : readRecv c env start count time_limit again sk v = some res) :
    res.ret = false := by
  unfold readRecv at he
  cases hrecv : env.recv sk.recvCalls v.ncount with
  | data bytes =>
    simp only [USocket.recv, hrecv] at he
    split at he
    · split at he
      · next h1 h2 => omega
      · cases he
        exact readEOF_false c env start count _ v h.1
    · refine readGot_false c env start count time_limit hagain ?_ _ _ he
      exact h.1
  | error e =>
    simp only [USocket.recv, hrecv] at he
    refine readError_false c env start count hagain ?_ _ he
    exact ⟨h.1, h.2⟩

theorem readLoop_false (c : Consts) (env : Env) (start count time_limit : Nat) :
    ∀ (fuel : Nat) (sk : USocket) (v : ReadVars) (res : ReadResult),
      ClosedInv c count sk v → readLoop c env start count time_limit fuel sk v = some res →
      res.ret = false := by
  intro fuel
  induction fuel with
  | zero => intro sk v res _ he; simp [readLoop] at he
  | succ fuel ih =>
    intro sk v res h he
    unfold readLoop at he
    simp only [USocket.waitForRead] at he
    split at he
    · split at he
      · refine readError_false c env start count ih ?_ _ he
        exact ⟨h.1, h.2⟩
      · refine readRecv_false c env start count time_limit ih ?_ he
        exact ⟨h.1, h.2⟩
    · exact readRecv_false c env start count time_limit ih h he

theorem read_false_of_close (c : Consts) (env : Env) (fuel : Nat) (sk : USocket)
    (buffer : UString) (count : Nat) (timeoutMS : Int) (time_limit : Nat) (res : ReadResult)
    (hclose : sk.iState = c.CLOSE)
    (he : read c env fuel sk buffer count timeoutMS time_limit = some res) :
    res.ret = false := by
  unfold read at he
  exact readLoop_false c env _ count time_limit fuel sk _ res ⟨hclose, fun _ => Or.inl rfl⟩ he

theorem readLoop_closed (c : Consts) (env : Env) (start count time_limit : Nat)
    (hd : env.descriptorClosed) (fuel : Nat) (sk : USocket) (v : ReadVars) :
    ∃ res, readLoop c env start count time_limit (fuel + 1) sk v = some res ∧
      res.sk.recvCalls ≤ sk.recvCalls + 1 := by
  obtain ⟨hrecv, -, hwait, -⟩ := hd
  have key : ∀ sk1 : USocket, sk1.recvCalls = sk.recvCalls →
      ∃ res, readRecv c env start count time_limit
          (readLoop c env start count time_limit fuel) sk1 v = some res ∧
        res.sk.recvCalls ≤ sk.recvCalls + 1 := by
    intro sk1 h1
    obtain ⟨e, he, hne⟩ := hrecv sk1.recvCalls v.ncount
    unfold readRecv
    simp only [USocket.recv, he, readError, hne, ne_eq, not_false_eq_true, ↓reduceIte]
    refine ⟨_, by simp; rfl, ?_⟩
    simp [readClose, readDone_sk, USocket.closesocket, h1]
  unfold readLoop
  simp only [USocket.waitForRead]
  split
  · split
    · next hw =>
      have := hwait _ hw
      simp only [readError, this, ne_eq, not_false_eq_true, ↓reduceIte]
      refine ⟨_, rfl, ?_⟩
      simp [readClose, readDone_sk, USocket.closesocket]
    · exact key _ rfl
  · exact key _ rfl

theorem write_closed (c : Consts) (env : Env) (hd : env.descriptorClosed) (fuel : Nat)
    (sk : USocket) (ptr : List Char) (count : Nat) (timeoutMS : Int) :
    ∃ sk1, write c env (fuel + 1) sk ptr count timeoutMS = some (0, sk1) ∧
      sk1.sendCalls ≤ sk.sendCalls + 1 ∧ sk1.sent = sk.sent := by
  obtain ⟨-, hsend, -, hwait⟩ := hd
  have key : ∀ sk1 : USocket, sk1.sendCalls = sk.sendCalls → sk1.sent = sk.sent →
      ∃ sk2, writeSend c env ptr (writeLoop c env ptr fuel) sk1 0 count timeoutMS
          = some (0, sk2) ∧
        sk2.sendCalls ≤ sk.sendCalls + 1 ∧ sk2.sent = sk.sent := by
    intro sk1 h1 h2
    obtain ⟨e, he, hne⟩ := hsend sk1.sendCalls count
    unfold writeSend
    simp only [USocket.send, he, writeError, hne, ne_eq, not_false_eq_true, ↓reduceIte]
    refine ⟨_, by simp; rfl, ?_, ?_⟩ <;> simp [USocket.closesocket, h1, h2]
  unfold write writeLoop
  simp only [USocket.waitForWrite]
  split
  · split
    · next hw =>
      have := hwait _ hw
      simp only [writeError, this, ne_eq, not_false_eq_true, ↓reduceIte]
      refine ⟨_, rfl, ?_, ?_⟩ <;> simp [USocket.closesocket]
    · exact key _ rfl rfl
  · exact key _ rfl rfl

theorem castInt_of_lt {count : Nat} (h : count < 2 ^ 31) : castInt count = (count : Int) := by
  unfold castInt
  have h1 : count % 2 ^ 32 = count := Nat.mod_eq_of_lt (by omega)
  rw [h1, if_pos h]

theorem readLoop_slow (c : Consts) (env : Env) (start count time_limit : Nat)
    (hlimit : time_limit ≠ 0) (hint : count < 2 ^ 31)
    (hrecv : ∀ i len, ∃ b, env.recv i len = RecvResult.data [b])
    (hwait : env.blocking = true → ∀ i, (env.waitForRead i).ret = 1) :
    ∀ (n fuel : Nat) (sk : USocket) (v : ReadVars),
      n + 1 ≤ fuel → 0 ≤ v.byte_read → v.byte_read + n + 1 < count → n + 1 ≤ v.ncount →
      (∀ i, i < n → env.checkTime (sk.checkTimeCalls + i) = true) →
      env.checkTime (sk.checkTimeCalls + n) = false →
      ∃ res, readLoop c env start count time_limit fuel sk v = some res ∧
        res.ret = false ∧
        res.sk.recvCalls = sk.recvCalls + (n + 1) ∧
        res.sk.checkTimeCalls = sk.checkTimeCalls + (n + 1) ∧
        res.sk.iState = sk.iState ||| c.TIMEOUT ∧
        res.sk.received.length = sk.received.length + (n + 1) ∧
        res.sk.closeCalls = sk.closeCalls := by
  intro n
  induction n with
  | zero =>
    intro fuel sk v hfuel hb0 hbn hnc _ hexp
    obtain ⟨fuel, rfl⟩ : ∃ f, fuel = f + 1 := ⟨fuel - 1, by omega⟩
    have key : ∀ sk1 : USocket, sk1.recvCalls = sk.recvCalls →
        sk1.checkTimeCalls = sk.checkTimeCalls → sk1.iState = sk.iState →
        sk1.received = sk.received → sk1.closeCalls = sk.closeCalls →
        ∃ res, readRecv c env start count time_limit
            (readLoop c env start count time_limit fuel) sk1 v = some res ∧
          res.ret = false ∧
          res.sk.recvCalls = sk.recvCalls + (0 + 1) ∧
          res.sk.checkTimeCalls = sk.checkTimeCalls + (0 + 1) ∧
          res.sk.iState = sk.iState ||| c.TIMEOUT ∧
          res.sk.received.length = sk.received.length + (0 + 1) ∧
          res.sk.closeCalls = sk.closeCalls := by
      intro sk1 h1 h2 h3 h4 h5
      obtain ⟨b, hb⟩ := hrecv sk1.recvCalls v.ncount
      have ht : List.take v.ncount [b] = [b] := List.take_of_length_le (by simpa using hnc)
      have hlt : v.byte_read + 1 < castInt count := by rw [castInt_of_lt hint]; omega
      have hct : env.checkTime sk1.checkTimeCalls = false := by rw [h2]; simpa using hexp
      unfold readRecv
      simp only [USocket.recv, hb, ht, List.length_singleton, Nat.cast_one]
      simp only [readGot, hlt, hlimit, hct, ne_eq, not_false_eq_true, and_self, ↓reduceIte]
      refine ⟨_, rfl, ?_, ?_⟩
      · rw [← Bool.not_eq_true, readDone_ret]
        rintro ⟨-, h, -⟩
        simp only at h
        omega
      · simp [readDone_sk, h1, h2, h3, h4, h5]
    unfold readLoop
    simp only [USocket.waitForRead]
    split
    · next hbt =>
      simp only [hwait hbt.1, ne_eq, not_true_eq_false, ↓reduceIte]
      exact key _ rfl rfl rfl rfl rfl
    · exact key _ rfl rfl rfl rfl rfl
  | succ n ih =>
    intro fuel sk v hfuel hb0 hbn hnc hok hexp
    obtain ⟨fuel, rfl⟩ : ∃ f, fuel = f + 1 := ⟨fuel - 1, by omega⟩
    have key : ∀ sk1 : USocket, sk1.recvCalls = sk.recvCalls →
        sk1.checkTimeCalls = sk.checkTimeCalls → sk1.iState = sk.iState →
        sk1.received = sk.received → sk1.closeCalls = sk.closeCalls →
        ∃ res, readRecv c env start count time_limit
            (readLoop c env start count time_limit fuel) sk1 v = some res ∧
          res.ret = false ∧
          res.sk.recvCalls = sk.recvCalls + (n + 1 + 1) ∧
          res.sk.checkTimeCalls = sk.checkTimeCalls + (n + 1 + 1) ∧
          res.sk.iState = sk.iState ||| c.TIMEOUT ∧
          res.sk.received.length = sk.received.length + (n + 1 + 1) ∧
          res.sk.closeCalls = sk.closeCalls := by
      intro sk1 h1 h2 h3 h4 h5
      obtain ⟨b, hb⟩ := hrecv sk1.recvCalls v.ncount
      have ht : List.take v.ncount [b] = [b] := List.take_of_length_le (by simp; omega)
      have hlt : v.byte_read + 1 < castInt count := by rw [castInt_of_lt hint]; omega
      have hct : env.checkTime sk1.checkTimeCalls = true := by
        rw [h2]; simpa using hok 0 (by omega)
      unfold readRecv
      simp only [USocket.recv, hb, ht, List.length_singleton, Nat.cast_one]
      simp only [readGot, hlt, hlimit, hct, ne_eq, not_false_eq_true, ↓reduceIte]
      simp only [Bool.true_eq_false, and_false, ↓reduceIte, Int.toNat_one]
      obtain ⟨res, hres, hr1, hr2, hr3, hr4, hr5, hr6⟩ := ih fuel
        { sk1 with recvCalls := sk1.recvCalls + 1, received := sk1.received ++ [b],
                   checkTimeCalls := sk1.checkTimeCalls + 1 }
        { v with pend := v.pend ++ [b], byte_read := v.byte_read + 1, ncount := v.ncount - 1 }
        (by omega) (by simp only; omega) (by simp only; omega) (by simp only; omega)
        (by
          intro i hi
          have := hok (i + 1) (by omega)
          simp only [h2]
          rw [← this]; congr 1; omega)
        (by
          simp only [h2]
          rw [← hexp]; congr 1; omega)
      refine ⟨res, hres, hr1, ?_, ?_, ?_, ?_, ?_⟩
      · rw [hr2]; simp only [h1]; omega
      · rw [hr3]; simp only [h2]; omega
      · rw [hr4]; simp only [h3]
      · rw [hr5]; simp [h4]; omega
      · rw [hr6]; simp only [h5]
    unfold readLoop
    simp only [USocket.waitForRead]
    split
    · next hbt =>
      simp only [hwait hbt.1, ne_eq, not_true_eq_false, ↓reduceIte]
      exact key _ rfl rfl rfl rfl rfl
    · exact key _ rfl rfl rfl rfl rfl

theorem adjust_prefix {C0 : List Char} (b : UString) (pend : List Char) (n : Nat)
    (h : C0 <+: b.content) (hn : C0.length ≤ n) :
    C0 <+: (b.size_adjust_force pend n).1.content := by
  obtain ⟨t, ht⟩ := h
  simp only [UString.size_adjust_force]
  refine List.IsPrefix.trans ?_ (List.prefix_append _ _)
  rw [← ht, List.append_assoc, List.take_append_eq_append_take,
    List.take_of_length_le hn]
  exact List.prefix_append _ _

theorem growInv_adjust {C0 : List Char} {start : Nat} {v : ReadVars} (h : GrowInv C0 start v)
    (b1 : UString) (pend : List Char)
    (hb1 : b1.content = (v.buffer.size_adjust_force pend (start + v.byte_read).toNat).1.content)
    (p1 : List Char) (n : Nat) (t : Int) :
    GrowInv C0 start
      { buffer := b1, pend := p1, byte_read := v.byte_read, ncount := n, timeoutMS := t } := by
  obtain ⟨hs, hp, h0⟩ := h
  refine ⟨hs, ?_, h0⟩
  simp only [hb1]
  exact adjust_prefix _ _ _ hp (by omega)

theorem readDone_grow (c : Consts) (count : Nat) {C0 : List Char} {start : Nat} (sk : USocket)
    {v : ReadVars} (h : GrowInv C0 start v) :
    C0 <+: (readDone c start count sk v).buffer.content := by
  rw [readDone_buffer]
  split
  · exact adjust_prefix _ _ _ h.2.1 (by have := h.1; have := h.2.2; omega)
  · exact h.2.1

theorem readClose_grow (c : Consts) (count : Nat) {C0 : List Char} {start : Nat} (sk : USocket)
    {v : ReadVars} (h : GrowInv C0 start v) :
    C0 <+: (readClose c start count sk v).buffer.content :=
  readDone_grow c count _ h

theorem readEOF_grow (c : Consts) (env : Env) (count : Nat) {C0 : List Char} {start : Nat}
    (sk : USocket) {v : ReadVars} (h : GrowInv C0 start v) :
    C0 <+: (readEOF c env start count sk v).buffer.content := by
  unfold readEOF
  split
  · split
    · exact h.2.1
    · exact readClose_grow c count _ h
  · split
    · split
      · exact h.2.1
      · exact readClose_grow c count _ h
    · exact readDone_grow c count _ h

theorem readError_grow (c : Consts) (env : Env) (count : Nat) {C0 : List Char} {start : Nat}
    {again : USocket → ReadVars → Option ReadResult}
    (hagain : ∀ sk1 v1 res, GrowInv C0 start v1 → again sk1 v1 = some res →
      C0 <+: res.buffer.content)
    (sk : USocket) {v : ReadVars} (h : GrowInv C0 start v) (errno : Nat)
    {res : ReadResult} (he : readError c env start count again errno sk v = some res) :
    C0 <+: res.buffer.content := by
  unfold readError at he
  split at he
  · cases he
    exact readClose_grow c count _ h
  · split at he
    · simp only [USocket.waitForRead] at he
      split at he
      · exact hagain _ _ _ h he
      · cases he
        exact readDone_grow c count _ h
    · cases he
      exact readDone_grow c count _ h

theorem readGot_grow (c : Consts) (env : Env) (count time_limit : Nat) {C0 : List Char}
    {start : Nat} {again : USocket → ReadVars → Option ReadResult}
    (hres : ∀ b n, (env.read_buffer_resize b n).content = b.content)
    (hagain : ∀ sk1 v1 res, GrowInv C0 start v1 → again sk1 v1 = some res →
      C0 <+: res.buffer.content)
    (sk : USocket) {v : ReadVars} (h : GrowInv C0 start v) (value : Int) (hv : 0 < value)
    (bytes : List Char) {res : ReadResult}
    (he : readGot c env start count time_limit again value bytes sk v = some res) :
    C0 <+: res.buffer.content := by
  have h1 : GrowInv C0 start
      { v with pend := v.pend ++ bytes, byte_read := v.byte_read + value } :=
    ⟨h.1, h.2.1, by have := h.2.2; simp only; omega⟩
  unfold readGot at he
  simp only at he
  split at he
  · split at he
    · cases he
      exact readDone_grow c count _ h1
    · refine hagain _ _ _ ?_ he
      exact ⟨h.1, h.2.1, h1.2.2⟩
  · split at he
    · split at he
      · split at he
        · cases hrecv : env.recv sk.recvCalls (env.pending sk.pendingCalls) with
          | data bytes1 =>
            simp only [USocket.recv, hrecv] at he
            split at he
            · cases he
              simp only [hres]
              exact adjust_prefix _ _ _ h.2.1 (by have := h.1; have := h.2.2; omega)
            · cases he
              refine readDone_grow c count _ ?_
              refine ⟨h.1, ?_, ?_⟩
              · simp only [hres]
                exact adjust_prefix _ _ _ h.2.1 (by have := h.1; have := h.2.2; omega)
              · have := h.2.2; simp only; omega
          | error e =>
            simp only [USocket.recv, hrecv, List.length_nil, Nat.not_lt_zero, if_false] at he
            cases he
            refine readDone_grow c count _ ?_
            refine ⟨h.1, ?_, ?_⟩
            · simp only [hres]
              exact adjust_prefix _ _ _ h.2.1 (by have := h.1; have := h.2.2; omega)
            · have := h.2.2; simp only; omega
        · refine hagain _ _ _ ?_ he
          exact growInv_adjust h1 _ _ (hres _ _) _ _ _
      · refine hagain _ _ _ ?_ he
        exact growInv_adjust h1 _ _ (hres _ _) _ _ _
    · split at he
      · refine hagain _ _ _ ?_ he
        exact growInv_adjust h1 _ _ rfl _ _ _
      · cases he
        exact readDone_grow c count _ h1

theorem readRecv_grow (c : Consts) (env : Env) (count time_limit : Nat) {C0 : List Char}
    {start : Nat} {again : USocket → ReadVars → Option ReadResult}
    (hres : ∀ b n, (env.read_buffer_resize b n).content = b.content)
    (hagain : ∀ sk1 v1 res, GrowInv C0 start v1 → again sk1 v1 = some res →
      C0 <+: res.buffer.content)
    (sk : USocket) {v : ReadVars} (h : GrowInv C0 start v) {res : ReadResult}
    (he : readRecv c env start count time_limit again sk v = some res) :
    C0 <+: res.buffer.content := by
  unfold readRecv at he
  cases hrecv : env.recv sk.recvCalls v.ncount with
  | data bytes =>
    simp only [USocket.recv, hrecv] at he
    split at he
    · split at he
      · next h1 h2 => omega
      · cases he
        exact readEOF_grow c env count _ h
    · next hpos =>
      exact readGot_grow c env count time_limit hres hagain _ h _ (by omega) _ he
  | error e =>
    simp only [USocket.recv, hrecv] at he
    exact readError_grow c env count hagain _ h _ he

theorem readLoop_grow (c : Consts) (env : Env) (count time_limit : Nat) {C0 : List Char}
    {start : Nat} (hres : ∀ b n, (env.read_buffer_resize b n).content = b.content) :
    ∀ (fuel : Nat) (sk : USocket) (v : ReadVars) (res : ReadResult),
      GrowInv C0 start v → readLoop c env start count time_limit fuel sk v = some res →
      C0 <+: res.buffer.content := by
  intro fuel
  induction fuel with
  | zero => intro sk v res _ he; simp [readLoop] at he
  | succ fuel ih =>
    intro sk v res h he
    unfold readLoop at he
    simp only [USocket.waitForRead] at he
    split at he
    · split at he
      · exact readError_grow c env count ih _ h _ he
      · exact readRecv_grow c env count time_limit hres ih _ h he
    · exact readRecv_grow c env count time_limit hres ih _ h he

theorem read_grow (c : Consts) (env : Env) (fuel : Nat) (sk : USocket) (buffer : UString)
    (count : Nat) (timeoutMS : Int) (time_limit : Nat) (res : ReadResult)
    (hres : ∀ b n, (env.read_buffer_resize b n).content = b.content)
    (he : read c env fuel sk buffer count timeoutMS time_limit = some res) :
    buffer.content <+: res.buffer.content := by
  unfold read at he
  refine readLoop_grow c env count time_limit hres fuel sk _ res ?_ he
  refine ⟨rfl, ?_, le_refl _⟩
  simp only []
  split_ifs <;> simp [hres]

theorem findFrom_some {tok : List Char} : ∀ {l : List Char} {i p : Nat},
    findFrom tok l i = some p →
    ∃ q, p = i + q ∧ q ≤ l.length ∧ tok <+: l.drop q ∧ ∀ q1, q1 < q → ¬ tok <+: l.drop q1 := by
  intro l
  induction l with
  | nil =>
    intro i p h
    simp only [findFrom] at h
    split at h
    · next ht => cases h; exact ⟨0, rfl, le_refl _, by simp [ht], by simp⟩
    · cases h
  | cons x xs ih =>
    intro i p h
    simp only [findFrom] at h
    split at h
    · next hp =>
      cases h
      exact ⟨0, rfl, by simp, by simpa using List.isPrefixOf_iff_prefix.mp hp, by simp⟩
    · next hp =>
      obtain ⟨q, hq, hle, hpre, hmin⟩ := ih h
      refine ⟨q + 1, by omega, by simp; omega, by simpa using hpre, ?_⟩
      intro q1 hq1
      cases q1 with
      | zero =>
        intro hcon
        exact hp (List.isPrefixOf_iff_prefix.mpr (by simpa using hcon))
      | succ q2 => simpa using hmin q2 (by omega)

theorem findFrom_none {tok : List Char} : ∀ {l : List Char} {i : Nat},
    findFrom tok l i = none → ∀ q, q ≤ l.length → ¬ tok <+: l.drop q := by
  intro l
  induction l with
  | nil =>
    intro i h q _
    simp only [findFrom] at h
    split at h
    · cases h
    · next ht => simpa using ht
  | cons x xs ih =>
    intro i h q hq
    simp only [findFrom] at h
    split at h
    · cases h
    · next hp =>
      cases q with
      | zero =>
        intro hcon
        exact hp (List.isPrefixOf_iff_prefix.mpr (by simpa using hcon))
      | succ q2 => simpa using ih h q2 (by simpa using hq)

theorem find_found (c : Consts) (b : UString) (tok : List Char) (pos : Nat)
    (h : b.find c tok pos ≠ c.U_NOT_FOUND) :
    pos ≤ b.find c tok pos ∧ tok <+: b.content.drop (b.find c tok pos) ∧
      ∀ q, pos ≤ q → q < b.find c tok pos → ¬ tok <+: b.content.drop q := by
  unfold UString.find at h ⊢
  split at h
  · next hpos =>
    rw [if_pos hpos]
    cases hf : findFrom tok (List.drop pos b.content) pos with
    | none => simp [hf] at h
    | some p =>
      simp only
      obtain ⟨q, hq, -, hpre, hmin⟩ := findFrom_some hf
      subst hq
      refine ⟨by omega, by simpa [List.drop_drop, Nat.add_comm] using hpre, ?_⟩
      intro q1 h1 h2
      have := hmin (q1 - pos) (by omega)
      rw [List.drop_drop] at this
      have e : pos + (q1 - pos) = q1 := by omega
      rwa [e] at this
  · exact absurd rfl h

theorem find_exists (c : Consts) (b : UString) (tok : List Char) (pos q : Nat)
    (hq : pos ≤ q) (hle : q ≤ b.size) (hocc : tok <+: b.content.drop q)
    (hsz : b.size < c.U_NOT_FOUND) :
    b.find c tok pos ≠ c.U_NOT_FOUND := by
  unfold UString.find
  rw [if_pos (by omega)]
  cases hf : findFrom tok (List.drop pos b.content) pos with
  | none =>
    exfalso
    have := findFrom_none hf (q - pos) (by simp [UString.size] at hle ⊢; omega)
    rw [List.drop_drop] at this
    have e : pos + (q - pos) = q := by omega
    rw [e] at this
    exact this hocc
  | some p =>
    simp only
    obtain ⟨q1, hq1, hle1, -, -⟩ := findFrom_some hf
    simp [UString.size] at hle1 hsz hle
    omega

theorem sub32_of_le {a b : Nat} (h : b ≤ a) (ha : a < 2 ^ 32) : sub32 a b = a - b := by
  unfold sub32
  have : ((a : Int) - (b : Int)) = ((a - b : Nat) : Int) := by omega
  rw [this]
  have h2 : (((a - b : Nat) : Int) % 2 ^ 32) = ((a - b : Nat) : Int) :=
    Int.emod_eq_of_lt (by omega) (by omega)
  rw [h2]; simp

theorem infix_of_prefix_drop {tok l : List Char} {q : Nat} (h : tok <+: l.drop q) :
    tok <:+: l := by
  obtain ⟨t, ht⟩ := h
  exact ⟨l.take q, t, by rw [List.append_assoc, ht, List.take_append_drop]⟩

theorem prefix_drop_of_infix {tok l : List Char} (h : tok <:+: l) :
    ∃ q, q ≤ l.length ∧ tok <+: l.drop q := by
  obtain ⟨s, t, hst⟩ := h
  refine ⟨s.length, ?_, ?_⟩
  · rw [← hst]; simp
  · rw [← hst, List.append_assoc, List.drop_left]
    exact List.prefix_append _ _

theorem prefix_drop_bound {tok l : List Char} {pos : Nat} (htok : tok ≠ [])
    (h : tok <+: l.drop pos) : pos + tok.length ≤ l.length := by
  have h1 := h.length_le
  have h2 : pos < l.length := by
    by_contra hge
    rw [List.drop_of_length_le (by omega)] at h
    exact htok (List.prefix_nil.mp h)
  simp only [List.length_drop] at h1
  omega

theorem readSeq_grow (c : Consts) (env : Env) (readFuel : Nat) (timeoutMS : Int)
    (hres : ∀ b n, (env.read_buffer_resize b n).content = b.content) :
    ∀ (k : Nat) (sk : USocket) (b : UString) (sk1 : USocket) (b1 : UString),
      readSeq c env readFuel timeoutMS k sk b = some (sk1, b1) → b.content <+: b1.content := by
  intro k
  induction k with
  | zero =>
    intro sk b sk1 b1 h
    simp only [readSeq, Option.some.injEq, Prod.mk.injEq] at h
    rw [h.2]
  | succ k ih =>
    intro sk b sk1 b1 h
    simp only [readSeq] at h
    split at h
    · next r hr =>
      split at h
      · exact (read_grow c env readFuel sk b _ timeoutMS 0 r hres hr).trans (ih _ _ _ _ h)
      · cases h
    · cases h


theorem occurs_ge_start {token : List Char} {b b1 : UString} {start q : Nat}
    (hinv : TokenInv token b start) (hgrow : b.content <+: b1.content)
    (hocc : token <+: b1.content.drop q) : start ≤ q := by
  by_contra hlt
  push_neg at hlt
  obtain ⟨h1, -, h3⟩ := hinv
  have hs : start + token.length ≤ b.size := by
    rcases h1 with h | h
    · omega
    · exact h
  obtain ⟨ext, hext⟩ := hgrow
  apply h3
  refine infix_of_prefix_drop (q := q) ?_
  have hq : q ≤ b.content.length := by simp only [UString.size] at hs; omega
  rw [← hext, List.drop_append_of_le_length hq] at hocc
  refine List.prefix_of_prefix_length_le hocc (List.prefix_append _ _) ?_
  simp only [List.length_drop, UString.size] at hs ⊢
  omega

theorem readWhileNotTokenLoop_spec (c : Consts) (env : Env) (readFuel : Nat) (timeoutMS : Int)
    (token : List Char)
    (hres : ∀ b n, (env.read_buffer_resize b n).content = b.content)
    (hnf : c.U_NOT_FOUND < 2 ^ 32) :
    ∀ (n : Nat) (sk : USocket) (b : UString) (start : Nat) (skn : USocket) (bn : UString)
      (r : ReadResult) (fuel : Nat),
      TokenInv token b start →
      readSeq c env readFuel timeoutMS n sk b = some (skn, bn) →
      (∀ k skk bk, 1 ≤ k → k ≤ n → readSeq c env readFuel timeoutMS k sk b = some (skk, bk) →
        ¬ token <:+: bk.content ∧ token.length ≤ bk.size) →
      read c env readFuel skn bn c.U_SINGLE_READ timeoutMS 0 = some r →
      r.buffer.size < c.U_NOT_FOUND →
      n < fuel →
      (r.ret = true → token <:+: r.buffer.content →
        ∃ pos, readWhileNotTokenLoop c env token timeoutMS readFuel fuel sk b start
            = some { ret := pos, sk := r.sk, buffer := r.buffer } ∧
          token <+: r.buffer.content.drop pos ∧
          ∀ q, q < pos → ¬ token <+: r.buffer.content.drop q) ∧
      (r.ret = false →
        readWhileNotTokenLoop c env token timeoutMS readFuel fuel sk b start
          = some { ret := c.U_NOT_FOUND, sk := r.sk, buffer := r.buffer }) := by
  intro n
  induction n with
  | zero =>
    intro sk b start skn bn r fuel hinv hrun _ hlast hsz hfuel
    obtain ⟨fuel, rfl⟩ : ∃ f, fuel = f + 1 := ⟨fuel - 1, by omega⟩
    simp only [readSeq, Option.some.injEq, Prod.mk.injEq] at hrun
    obtain ⟨rfl, rfl⟩ := hrun
    have hgrow := read_grow c env readFuel sk b _ timeoutMS 0 r hres hlast
    constructor
    · intro hret hin
      obtain ⟨q0, hq0, hocc0⟩ := prefix_drop_of_infix hin
      have hfound : r.buffer.find c token start ≠ c.U_NOT_FOUND :=
        find_exists c r.buffer token start q0 (occurs_ge_start hinv hgrow hocc0) hq0 hocc0 hsz
      obtain ⟨-, hpre, hmin⟩ := find_found c r.buffer token start hfound
      refine ⟨r.buffer.find c token start, ?_, hpre, ?_⟩
      · simp only [readWhileNotTokenLoop, hlast, hret, ↓reduceIte, hfound, ne_eq,
          not_false_eq_true]
      · intro q hq hocc
        exact hmin q (occurs_ge_start hinv hgrow hocc) hq hocc
    · intro hret
      simp only [readWhileNotTokenLoop, hlast, hret, Bool.false_eq_true, ↓reduceIte]
  | succ n ih =>
    intro sk b start skn bn r fuel hinv hrun hclean hlast hsz hfuel
    obtain ⟨fuel, rfl⟩ : ∃ f, fuel = f + 1 := ⟨fuel - 1, by omega⟩
    have hc1 := hclean 1
    simp only [readSeq] at hrun hc1
    cases hr1 : read c env readFuel sk b c.U_SINGLE_READ timeoutMS 0 with
    | none => simp [hr1] at hrun
    | some r1 =>
      simp only [hr1] at hrun hc1
      by_cases hret1 : r1.ret = true
      · simp only [hret1, ↓reduceIte] at hrun hc1
        obtain ⟨hno, hlen⟩ := hc1 r1.sk r1.buffer (le_refl _) (by omega) rfl
        have hgrow1 := read_grow c env readFuel sk b _ timeoutMS 0 r1 hres hr1
        have hgrown := readSeq_grow c env readFuel timeoutMS hres n _ _ _ _ hrun
        have hgrowl := read_grow c env readFuel skn bn _ timeoutMS 0 r hres hlast
        have hsz1 : r1.buffer.size < 2 ^ 32 := by
          have h1 := hgrown.length_le
          have h2 := hgrowl.length_le
          simp only [UString.size] at hsz ⊢
          omega
        have hnot : r1.buffer.find c token start = c.U_NOT_FOUND := by
          by_contra hne
          exact hno (infix_of_prefix_drop (find_found c r1.buffer token start hne).2.1)
        have hstep : readWhileNotTokenLoop c env token timeoutMS readFuel (fuel + 1) sk b start
            = readWhileNotTokenLoop c env token timeoutMS readFuel fuel r1.sk r1.buffer
                (r1.buffer.size - token.length) := by
          simp only [readWhileNotTokenLoop, hr1, hret1, ↓reduceIte, hnot, ne_eq,
            not_true_eq_false, sub32_of_le hlen hsz1]
        rw [hstep]
        refine ih r1.sk r1.buffer _ skn bn r fuel ?_ hrun ?_ hlast hsz (by omega)
        · exact ⟨Or.inr (by omega), by omega, hno⟩
        · intro k skk bk hk1 hk2 hseq
          refine hclean (k + 1) skk bk (by omega) (by omega) ?_
          simp only [readSeq, hr1, hret1, ↓reduceIte]
          exact hseq
      · simp [hret1] at hrun

/-! ## The claims -/

theorem sampleReserve_content (b : UString) (n : Nat) :
    (sampleReserve b n).content = b.content := by
  unfold sampleReserve
  split <;> rfl

theorem sampleReserve_space (b : UString) (n : Nat) : n ≤ (sampleReserve b n).space := by
  unfold sampleReserve
  split
  · simp [UString.space, UString.size]
  · omega

/-- C1 (failing input). Three segments "a", "b", "cd" (count 4) against the stub
that accepts one byte per call: the third `writev` call sends "d", so the byte
"c" is never transmitted, and the walk over the list then reads `iov[idx]` past
the end of the caller's array (`ret = none`) instead of returning 4. -/
theorem writev_skips_byte_after_second_short_send (c : Consts) (state : Nat)
    (timeoutMS : Int) (fuel : Nat) :
    writev c (sendAtMost 1) letters (fuel + 3) (USocket.fresh state)
        [⟨0, 1⟩, ⟨1, 1⟩, ⟨2, 2⟩] 3 4 timeoutMS
      = some { ret := none,
               sk := { USocket.fresh state with writevCalls := 3, sent := "abd".toList },
               iov := [⟨0, 0⟩, ⟨1, 1⟩, ⟨3, 1⟩] } := by
  rfl

/-- C2 (failing input). `write` of 5 bytes against the stub that accepts two
bytes per call returns 4 after two sends, with "abcd" sent: the total written is
compared with the count that is left, so no third send is issued for the last
byte. -/
theorem write_stops_short_after_second_short_send (c : Consts) (state : Nat)
    (timeoutMS : Int) (fuel : Nat) :
    write c (sendAtMost 2) (fuel + 2) (USocket.fresh state) "abcde".toList 5 timeoutMS
      = some (4, { USocket.fresh state with
                   sendCalls := 2, sent := "abcd".toList,
                   sendLog := [("abcde".toList, 2), ("cde".toList, 2)] }) := by
  rfl

/-- C3 (failing input). With the three lines of the reply delivered one per
`recv`, `readMultilineReply` is not complete after the third line: it issues a
fourth `recv`, and when that fails it returns BROKEN, not 123. -/
theorem readMultilineReply_asks_for_fourth_line (fuel : Nat) :
    (readMultilineReply sampleConsts threeLineReply (fuel + 4) (USocket.fresh sampleCONNECT)
        (List.replicate 128 '\x00') 128).map (fun r => (r.ret, r.sk.recvCalls))
      = some (some (sampleConsts.BROKEN : Int), 4) := by
  rfl

/-- C4 (counterexample). In a parallelization child, three bytes arrive, the
peer closes and the half-close fails: `read` returns with the buffer still at
its size at entry (2) although `recv` delivered 3 bytes. -/
theorem read_size_not_updated_in_child :
    (read sampleConsts childEnv 2 (USocket.fresh sampleCONNECT) ⟨"xy".toList, 2⟩ 10 0 0).map
        (fun r => (r.ret, r.buffer.size, r.sk.received))
      = some (false, 2, "abc".toList) := by
  rfl

/-- C4 (amended). When the growth hook keeps the content of the buffer and, in a
parallelization child, the half-close this call would attempt does not fail,
every run of `read` that returns without a store past the reserved space leaves
the buffer holding its content at entry followed by exactly the bytes the `recv`
calls of this call delivered: its size is the size at entry plus the number of
those bytes, whatever `read` returns, on a plain and on a TLS socket, also when
a `recv` fails. -/
theorem read_size_is_entry_plus_delivered (c : Consts) (env : Env) (fuel : Nat) (sk : USocket)
    (buffer : UString) (count : Nat) (timeoutMS : Int) (time_limit : Nat) (res : ReadResult)
    (hres : ∀ b n, (env.read_buffer_resize b n).content = b.content)
    (hpar : env.parallelization = 1 → env.shutdown sk.shutdownCalls = true)
    (he : read c env fuel sk buffer count timeoutMS time_limit = some res)
    (hdef : res.sk.overrun = false) :
    ∃ delivered, res.sk.received = sk.received ++ delivered ∧
      res.buffer.content = buffer.content ++ delivered ∧
      res.buffer.size = buffer.size + delivered.length := by
  obtain ⟨d, h1, h2⟩ := read_post c env fuel sk buffer count timeoutMS time_limit res
    hres hpar he hdef
  exact ⟨d, h1, h2, by simp [UString.size, h2]⟩

/-- Witness of C4 (amended): a TLS socket whose drain `recv` fails after 64 bytes
were delivered; the buffer holds the 64 bytes. -/
theorem read_size_is_entry_plus_delivered_witness :
    read sampleConsts tlsResetEnv 1 (USocket.fresh sampleCONNECT) ⟨[], 0⟩ 1 0 0
        = some tlsResetResult ∧
      tlsResetResult.sk.overrun = false ∧
      ∃ delivered,
        tlsResetResult.sk.received = (USocket.fresh sampleCONNECT).received ++ delivered ∧
        tlsResetResult.buffer.content = [] ++ delivered ∧
        tlsResetResult.buffer.size = 0 + delivered.length :=
  ⟨rfl, rfl, read_size_is_entry_plus_delivered sampleConsts tlsResetEnv 1
    (USocket.fresh sampleCONNECT) ⟨[], 0⟩ 1 0 0 tlsResetResult sampleReserve_content
    (fun h => absurd h (by decide)) rfl rfl⟩

/-- C5 (counterexample). `read` returns false although at least `count` bytes
were received and the socket is not CLOSE: with `count` 0 and nothing received,
and in a parallelization child after 64 bytes for `count` 1; it returns true
with 3 bytes received for `count` 4294967295; and it returns false after 64
bytes for `count` 64 when the drain of the pending TLS bytes fails (the run of
C10). -/
theorem read_result_differs_from_count_test :
    (read sampleConsts idleEnv 1 (USocket.fresh sampleCONNECT) ⟨[], 0⟩ 0 0 0).map
        (fun r => (r.ret, r.sk.received.length, decide (r.sk.iState = sampleConsts.CLOSE)))
      = some (false, 0, false) ∧
    (read sampleConsts childFullEnv 2 (USocket.fresh sampleCONNECT) ⟨[], 0⟩ 1 0 0).map
        (fun r => (r.ret, r.sk.received.length, decide (r.sk.iState = sampleConsts.CLOSE)))
      = some (false, 64, false) ∧
    (read sampleConsts abcEnv 1 (USocket.fresh sampleCONNECT) ⟨[], 0⟩ 4294967295 0 0).map
        (fun r => (r.ret, r.sk.received.length, decide (r.sk.iState = sampleConsts.CLOSE)))
      = some (true, 3, false) ∧
    (read sampleConsts tlsResetEnv 1 (USocket.fresh sampleCONNECT) ⟨[], 0⟩ 64 0 0).map
        (fun r => (r.ret, r.sk.received.length, decide (r.sk.iState = sampleConsts.CLOSE)))
      = some (false, 64, false) :=
  ⟨rfl, rfl, rfl, rfl⟩

/-- C5 (amended). When, in a parallelization child, the half-close this call
would attempt does not fail, a run of `read` that returns without a store past
the reserved space and does not end in a failed drain of the pending TLS bytes
returns true exactly when the `recv` calls of this call delivered at least one
byte and at least `(int)count` bytes and the state of the socket on return is
not CLOSE.  Any other `recv` may fail, on a plain and on a TLS socket, and the
growth hook is arbitrary. -/
theorem read_true_iff_count_reached (c : Consts) (env : Env) (fuel : Nat) (sk : USocket)
    (buffer : UString) (count : Nat) (timeoutMS : Int) (time_limit : Nat) (res : ReadResult)
    (hpar : env.parallelization = 1 → env.shutdown sk.shutdownCalls = true)
    (he : read c env fuel sk buffer count timeoutMS time_limit = some res)
    (hdef : res.sk.overrun = false)
    (hdrain : ¬ DrainFailed env sk.pendingCalls res.sk) :
    ∃ delivered, res.sk.received = sk.received ++ delivered ∧
      (res.ret = true ↔
        delivered ≠ [] ∧ castInt count ≤ (delivered.length : Int) ∧ res.sk.iState ≠ c.CLOSE) := by
  obtain ⟨d, h1, h3⟩ := read_retPost c env fuel sk buffer count timeoutMS time_limit res
    hpar he hdef
  exact ⟨d, h1, h3 hdrain⟩

/-- Witness of C5 (amended): a TLS socket on which "abc" arrives and the next
`recv` fails with EAGAIN, for `count` 5; `read` returns false. -/
theorem read_true_iff_count_reached_witness :
    read sampleConsts tlsStallEnv 2 (USocket.fresh sampleCONNECT) ⟨"xy".toList, 2⟩ 5 0 0
        = some tlsStallResult ∧
      tlsStallResult.sk.overrun = false ∧
      ¬ DrainFailed tlsStallEnv (USocket.fresh sampleCONNECT).pendingCalls tlsStallResult.sk ∧
      ∃ delivered,
        tlsStallResult.sk.received = (USocket.fresh sampleCONNECT).received ++ delivered ∧
        (tlsStallResult.ret = true ↔
          delivered ≠ [] ∧ castInt 5 ≤ (delivered.length : Int) ∧
            tlsStallResult.sk.iState ≠ sampleConsts.CLOSE) :=
  ⟨rfl, rfl, fun h => absurd h.2.1 (by decide),
    read_true_iff_count_reached sampleConsts tlsStallEnv 2 (USocket.fresh sampleCONNECT)
      ⟨"xy".toList, 2⟩ 5 0 0 tlsStallResult
      (fun h => absurd h (by decide)) rfl rfl (fun h => absurd h.2.1 (by decide))⟩

/-- C6 (failing input). The token "U0007 " arrives as "U0" and "007 OK": the first
read leaves fewer bytes than the token has, so that `buffer.size() - token_len`
wraps (`sub32 2 6`); after the second read the buffer holds a complete
occurrence at offset 0, yet `readWhileNotToken` reads on and returns
U_NOT_FOUND when the third read fails. -/
theorem readWhileNotToken_misses_token_after_short_read :
    (readWhileNotToken sampleConsts (streamEnv ["U0", "007 OK\r\n"]) 1 3
        (USocket.fresh sampleCONNECT) ⟨[], 0⟩ "U0007 ".toList 0).map
        (fun r => (r.ret, r.buffer.content, r.sk.recvCalls, r.sk.overrun))
      = some (sampleConsts.U_NOT_FOUND, "U0007 OK\r\n".toList, 3, false) ∧
    sub32 2 6 = 4294967292 := by
  constructor <;> rfl

/-- Outside the defect of C6 `readWhileNotToken` finds the token.  Starting from an
empty buffer, let the first `n` single reads
succeed, each leaving a buffer of at least `token.length` bytes in which the
token does not occur, and let the next read give `r`.  If that read succeeds and
its buffer contains the token, `readWhileNotToken` returns right after it, with
the offset of the first occurrence of the token in the buffer (also when the
occurrence straddles reads); if that read fails, it returns U_NOT_FOUND. -/
theorem readWhileNotToken_first_occurrence (c : Consts) (env : Env) (readFuel fuel : Nat)
    (timeoutMS : Int) (sk : USocket) (buffer : UString) (token : List Char) (n : Nat)
    (skn : USocket) (bn : UString) (r : ReadResult)
    (hres : ∀ b k, (env.read_buffer_resize b k).content = b.content)
    (hnf : c.U_NOT_FOUND < 2 ^ 32)
    (htok : token ≠ [])
    (hempty : buffer.content = [])
    (hrun : readSeq c env readFuel timeoutMS n sk buffer = some (skn, bn))
    (hclean : ∀ k skk bk, 1 ≤ k → k ≤ n →
      readSeq c env readFuel timeoutMS k sk buffer = some (skk, bk) →
      ¬ token <:+: bk.content ∧ token.length ≤ bk.size)
    (hlast : read c env readFuel skn bn c.U_SINGLE_READ timeoutMS 0 = some r)
    (hsz : r.buffer.size < c.U_NOT_FOUND)
    (hfuel : n < fuel) :
    (r.ret = true → token <:+: r.buffer.content →
      ∃ pos, readWhileNotToken c env readFuel fuel sk buffer token timeoutMS
          = some { ret := pos, sk := r.sk, buffer := r.buffer } ∧
        pos ≠ c.U_NOT_FOUND ∧
        token <+: r.buffer.content.drop pos ∧
        ∀ q, q < pos → ¬ token <+: r.buffer.content.drop q) ∧
    (r.ret = false →
      readWhileNotToken c env readFuel fuel sk buffer token timeoutMS
        = some { ret := c.U_NOT_FOUND, sk := r.sk, buffer := r.buffer }) := by
  have hinv : TokenInv token buffer buffer.size := by
    refine ⟨Or.inl (by simp [UString.size, hempty]), le_refl _, ?_⟩
    rw [hempty]
    intro h
    exact htok (List.eq_nil_of_infix_nil h)
  have hspec := readWhileNotTokenLoop_spec c env readFuel timeoutMS token hres hnf n sk buffer
    buffer.size skn bn r fuel hinv hrun hclean hlast hsz hfuel
  refine ⟨fun hret hin => ?_, hspec.2⟩
  obtain ⟨pos, hloop, hpre, hmin⟩ := hspec.1 hret hin
  have hb := prefix_drop_bound htok hpre
  simp only [UString.size] at hsz
  exact ⟨pos, hloop, by omega, hpre, hmin⟩

/-- Instance of the lemma above: "U0007 " split as "...U00" and "07 OK" is found
at offset 9 after the second read. -/
theorem readWhileNotToken_first_occurrence_witness :
    ∃ pos, readWhileNotToken sampleConsts straddleEnv 1 2 (USocket.fresh sampleCONNECT) ⟨[], 0⟩
        "U0007 ".toList 0
        = some { ret := pos, sk := straddleResult.sk, buffer := straddleResult.buffer } ∧
      pos ≠ sampleConsts.U_NOT_FOUND ∧
      "U0007 ".toList <+: straddleResult.buffer.content.drop pos ∧
      ∀ q, q < pos → ¬ "U0007 ".toList <+: straddleResult.buffer.content.drop q :=
  (readWhileNotToken_first_occurrence sampleConsts straddleEnv 1 2 0 (USocket.fresh sampleCONNECT)
    ⟨[], 0⟩ "U0007 ".toList 1 straddleSk1 ⟨"* hello\r\nU00".toList, 64⟩ straddleResult
    sampleReserve_content (by decide) (by decide) rfl rfl
    (by
      intro k skk bk h1 h2 h
      obtain rfl : k = 1 := by omega
      have e : readSeq sampleConsts straddleEnv 1 0 1 (USocket.fresh sampleCONNECT) ⟨[], 0⟩
          = some (straddleSk1, ⟨"* hello\r\nU00".toList, 64⟩) := rfl
      rw [e] at h
      cases h
      exact ⟨by decide, by decide⟩)
    rfl (by decide) (by decide)).1 rfl (by decide)

theorem commandToken_ne_nil (cmd_count : Nat) : commandToken cmd_count ≠ [] := by
  simp [commandToken]

/-- C7 (failing input). The command with token "U0007 " is sent from a buffer of
capacity 64; the inbound stream is "* " followed by "hello", CR LF, "U0007 OK",
CR LF.  The first read leaves 2 bytes, fewer than the token has; the received
buffer then contains the token at offset 9, yet `vsyncCommandToken` returns
U_NOT_FOUND, not 15. -/
theorem vsyncCommandToken_misses_token_after_short_read :
    (vsyncCommandToken sampleConsts (streamEnv ["* ", "hello\r\nU0007 OK\r\n"]) 1 3
        (USocket.fresh sampleCONNECT) ⟨[], 64⟩ 7 "NOOP".toList 0).map
        (fun r => (r.ret, r.buffer.content, r.sk.sent, r.sk.overrun))
      = some (sampleConsts.U_NOT_FOUND, "* hello\r\nU0007 OK\r\n".toList,
          "U0007 NOOP\r\n".toList, false) := by
  rfl

/-- Outside the defect of C7 `vsyncCommandToken` returns the offset after the
token.  Let the command fit the capacity of the buffer, its send pass `checkIO`,
the buffer be empty, the first `n` single reads succeed, each leaving at least
`token.length` bytes in which the generated token does not occur, and the next
read succeed with a buffer that contains the token.  Then `vsyncCommandToken`
returns the offset of the first occurrence of the token in the received buffer
plus the length of the token. -/
theorem vsyncCommandToken_offset_after_token (c : Consts) (env : Env) (readFuel fuel : Nat)
    (timeoutMS : Int) (sk : USocket) (buffer : UString) (cmd_count : Nat)
    (formatted : List Char) (n : Nat) (skn : USocket) (bn : UString) (r : ReadResult)
    (hres : ∀ b k, (env.read_buffer_resize b k).content = b.content)
    (hnf : c.U_NOT_FOUND < 2 ^ 32)
    (hempty : buffer.content = [])
    (hcap : (commandLine cmd_count formatted).length ≤ buffer.capacity)
    (hio : env.checkIO (sk.send env (commandLine cmd_count formatted)
      (commandLine cmd_count formatted).length).1 = true)
    (hrun : readSeq c env readFuel timeoutMS n
      (sk.send env (commandLine cmd_count formatted)
        (commandLine cmd_count formatted).length).2.2 buffer = some (skn, bn))
    (hclean : ∀ k skk bk, 1 ≤ k → k ≤ n →
      readSeq c env readFuel timeoutMS k
        (sk.send env (commandLine cmd_count formatted)
          (commandLine cmd_count formatted).length).2.2 buffer = some (skk, bk) →
      ¬ commandToken cmd_count <:+: bk.content ∧ (commandToken cmd_count).length ≤ bk.size)
    (hlast : read c env readFuel skn bn c.U_SINGLE_READ timeoutMS 0 = some r)
    (hret : r.ret = true)
    (hin : commandToken cmd_count <:+: r.buffer.content)
    (hsz : r.buffer.size < c.U_NOT_FOUND)
    (hfuel : n < fuel) :
    ∃ pos, vsyncCommandToken c env readFuel fuel sk buffer cmd_count formatted timeoutMS
        = some { ret := pos + (commandToken cmd_count).length, sk := r.sk, buffer := r.buffer } ∧
      commandToken cmd_count <+: r.buffer.content.drop pos ∧
      ∀ q, q < pos → ¬ commandToken cmd_count <+: r.buffer.content.drop q := by
  have hinv : TokenInv (commandToken cmd_count) buffer buffer.size := by
    refine ⟨Or.inl (by simp [UString.size, hempty]), le_refl _, ?_⟩
    rw [hempty]
    intro h
    exact commandToken_ne_nil cmd_count (List.eq_nil_of_infix_nil h)
  obtain ⟨pos, hloop, hpre, hmin⟩ :=
    (readWhileNotTokenLoop_spec c env readFuel timeoutMS (commandToken cmd_count) hres hnf n _
      buffer buffer.size skn bn r fuel hinv hrun hclean hlast hsz hfuel).1 hret hin
  have hb : ({ buffer with
      content := (commandLine cmd_count formatted).take buffer.size ++
        buffer.content.drop (commandLine cmd_count formatted).length } : UString) = buffer := by
    cases buffer with
    | mk content capacity =>
      simp only at hempty
      subst hempty
      simp [UString.size]
  have hlen : pos + (commandToken cmd_count).length ≤ r.buffer.size :=
    prefix_drop_bound (commandToken_ne_nil cmd_count) hpre
  refine ⟨pos, ?_, hpre, hmin⟩
  have hnc : ¬ buffer.capacity < (commandLine cmd_count formatted).length := by omega
  unfold vsyncCommandToken
  simp only [hnc, hio, ↓reduceIte, hb, readWhileNotToken, hloop]
  have hne : pos ≠ c.U_NOT_FOUND := by omega
  have hmod : (pos + (commandToken cmd_count).length) % 2 ^ 32
      = pos + (commandToken cmd_count).length := Nat.mod_eq_of_lt (by omega)
  simp only [ne_eq, hne, not_false_eq_true, ↓reduceIte, hmod]

/-- Instance of the lemma above: with token "U0007 " and the inbound stream
"* unrelated text", CR LF, "U0007 OK", CR LF, the offset returned is that of
"OK". -/
theorem vsyncCommandToken_offset_after_token_witness :
    ∃ pos, vsyncCommandToken sampleConsts taggedEnv 1 2 (USocket.fresh sampleCONNECT) ⟨[], 64⟩ 7
        "NOOP".toList 0
        = some { ret := pos + (commandToken 7).length, sk := taggedResult.sk,
                 buffer := taggedResult.buffer } ∧
      commandToken 7 <+: taggedResult.buffer.content.drop pos ∧
      ∀ q, q < pos → ¬ commandToken 7 <+: taggedResult.buffer.content.drop q :=
  vsyncCommandToken_offset_after_token sampleConsts taggedEnv 1 2 0 (USocket.fresh sampleCONNECT)
    ⟨[], 64⟩ 7 "NOOP".toList 1 taggedSk1 ⟨"* unrelated text\r\n".toList, 64⟩ taggedResult
    sampleReserve_content (by decide) rfl (by decide) rfl rfl
    (by
      intro k skk bk h1 h2 h
      obtain rfl : k = 1 := by omega
      have e : readSeq sampleConsts taggedEnv 1 0 1
          (USocket.send taggedEnv (USocket.fresh sampleCONNECT) (commandLine 7 "NOOP".toList)
            (commandLine 7 "NOOP".toList).length).2.2 ⟨[], 64⟩
          = some (taggedSk1, ⟨"* unrelated text\r\n".toList, 64⟩) := rfl
      rw [e] at h
      cases h
      exact ⟨by decide, by decide⟩)
    rfl rfl (by decide) (by decide) (by decide)

/-- C8 (counterexample). On a socket whose state is CLOSE and whose descriptor
is closed, `read` and `write` each still invoke the transport once. -/
theorem closed_socket_transport_is_invoked :
    (read sampleConsts closedEnv 1 (USocket.fresh sampleConsts.CLOSE) ⟨[], 0⟩ 1 0 0).map
        (fun r => (r.ret, r.sk.recvCalls)) = some (false, 1) ∧
    (write sampleConsts closedEnv 1 (USocket.fresh sampleConsts.CLOSE) "abc".toList 3 0).map
        (fun r => (r.1, r.2.sendCalls)) = some (0, 1) :=
  ⟨rfl, rfl⟩

/-- C8 (amended). For a socket whose state is CLOSE at entry, every call of
`read` that returns, returns false; and when the descriptor is closed (every
transfer and every unready wait fails with an `errno` other than EAGAIN) `read`
returns false and `write` returns 0 in their first pass, after at most one
`recv` or `send`. -/
theorem closed_socket_read_false_write_zero (c : Consts) (env : Env) (sk : USocket)
    (hclose : sk.iState = c.CLOSE) :
    (∀ fuel buffer count timeoutMS time_limit res,
      read c env fuel sk buffer count timeoutMS time_limit = some res → res.ret = false) ∧
    (env.descriptorClosed → ∀ fuel buffer count timeoutMS time_limit ptr,
      (∃ res, read c env (fuel + 1) sk buffer count timeoutMS time_limit = some res ∧
        res.ret = false ∧ res.sk.recvCalls ≤ sk.recvCalls + 1) ∧
      (∃ sk1, write c env (fuel + 1) sk ptr count timeoutMS = some (0, sk1) ∧
        sk1.sendCalls ≤ sk.sendCalls + 1 ∧ sk1.sent = sk.sent)) := by
  refine ⟨fun fuel buffer count timeoutMS time_limit res he =>
    read_false_of_close c env fuel sk buffer count timeoutMS time_limit res hclose he, ?_⟩
  intro hd fuel buffer count timeoutMS time_limit ptr
  refine ⟨?_, write_closed c env hd fuel sk ptr count timeoutMS⟩
  have hex : ∃ res, read c env (fuel + 1) sk buffer count timeoutMS time_limit = some res ∧
      res.sk.recvCalls ≤ sk.recvCalls + 1 := by
    unfold read
    exact readLoop_closed c env _ count time_limit hd fuel sk _
  obtain ⟨res, he, hcalls⟩ := hex
  exact ⟨res, he,
    read_false_of_close c env (fuel + 1) sk buffer count timeoutMS time_limit res hclose he,
    hcalls⟩

theorem closedEnv_descriptorClosed : closedEnv.descriptorClosed :=
  ⟨fun _ _ => ⟨EBADF, rfl, by decide⟩, fun _ _ => ⟨EBADF, rfl, by decide⟩,
    fun _ _ => (by decide : EBADF ≠ EAGAIN), fun _ _ => (by decide : EBADF ≠ EAGAIN)⟩

/-- Witness of C8 (amended): the sample closed descriptor. -/
theorem closed_socket_read_false_write_zero_witness :
    (USocket.fresh sampleConsts.CLOSE).iState = sampleConsts.CLOSE ∧
    (∃ res, read sampleConsts closedEnv 1 (USocket.fresh sampleConsts.CLOSE) ⟨[], 0⟩ 1 0 0
        = some res ∧ res.ret = false ∧
        res.sk.recvCalls ≤ (USocket.fresh sampleConsts.CLOSE).recvCalls + 1) ∧
    (∃ sk1, write sampleConsts closedEnv 1 (USocket.fresh sampleConsts.CLOSE) "abc".toList 1 0
        = some (0, sk1) ∧
        sk1.sendCalls ≤ (USocket.fresh sampleConsts.CLOSE).sendCalls + 1 ∧
        sk1.sent = (USocket.fresh sampleConsts.CLOSE).sent) :=
  ⟨rfl, (closed_socket_read_false_write_zero sampleConsts closedEnv
    (USocket.fresh sampleConsts.CLOSE) rfl).2 closedEnv_descriptorClosed 0 ⟨[], 0⟩ 1 0 0
    "abc".toList⟩

/-- C9. Let `read` be called with a non-zero `time_limit` and a `count` below
2^31 on a transport that delivers one byte per `recv` (and, for a blocking
socket, is reported readable by every wait), with a growth hook that reserves
what it is asked for.  If the first `n` calls of `checkTime` report the budget
kept and the next one reports it exceeded, after a `recv` that brings the total
to `n + 1 < count` bytes, then `read` returns false after exactly `n + 1` calls
of `recv`, with the TIMEOUT flag set in the state of the socket and `n + 1`
bytes delivered: given `n + 1` units of fuel it terminates. -/
theorem read_slow_loris_times_out (c : Consts) (env : Env) (fuel : Nat) (sk : USocket)
    (buffer : UString) (count : Nat) (timeoutMS : Int) (time_limit : Nat) (n : Nat)
    (hlimit : time_limit ≠ 0) (hint : count < 2 ^ 31)
    (hrecv : ∀ i len, ∃ b, env.recv i len = RecvResult.data [b])
    (hwait : env.blocking = true → ∀ i, (env.waitForRead i).ret = 1)
    (hgrow : ∀ b k, k ≤ (env.read_buffer_resize b k).space)
    (hn : n + 1 < count)
    (hok : ∀ i, i < n → env.checkTime (sk.checkTimeCalls + i) = true)
    (hexp : env.checkTime (sk.checkTimeCalls + n) = false)
    (hfuel : n + 1 ≤ fuel) :
    ∃ res, read c env fuel sk buffer count timeoutMS time_limit = some res ∧
      res.ret = false ∧
      res.sk.recvCalls = sk.recvCalls + (n + 1) ∧
      res.sk.checkTimeCalls = sk.checkTimeCalls + (n + 1) ∧
      res.sk.iState = sk.iState ||| c.TIMEOUT ∧
      res.sk.received.length = sk.received.length + (n + 1) ∧
      res.sk.closeCalls = sk.closeCalls := by
  unfold read
  refine readLoop_slow c env _ count time_limit hlimit hint hrecv hwait n fuel sk _ hfuel
    (le_refl _) (by simp only; omega) ?_ hok hexp
  simp only []
  have hchunk : count ≤ (if count < c.U_CAPACITY then c.U_CAPACITY else count) := by
    split <;> omega
  generalize (if count < c.U_CAPACITY then c.U_CAPACITY else count) = chunk at hchunk ⊢
  by_cases h1 : buffer.space < chunk
  · simp only [h1, ↓reduceIte]
    have := hgrow buffer chunk
    omega
  · simp only [h1, ↓reduceIte]
    omega

/-- Witness of C9: one byte per `recv`, `count` 10, the budget exceeded at the
third check. -/
theorem read_slow_loris_times_out_witness :
    ∃ res, read sampleConsts trickleEnv 3 (USocket.fresh sampleCONNECT) ⟨[], 0⟩ 10 0 5
        = some res ∧
      res.ret = false ∧
      res.sk.recvCalls = (USocket.fresh sampleCONNECT).recvCalls + (2 + 1) ∧
      res.sk.checkTimeCalls = (USocket.fresh sampleCONNECT).checkTimeCalls + (2 + 1) ∧
      res.sk.iState = (USocket.fresh sampleCONNECT).iState ||| sampleConsts.TIMEOUT ∧
      res.sk.received.length = (USocket.fresh sampleCONNECT).received.length + (2 + 1) ∧
      res.sk.closeCalls = (USocket.fresh sampleCONNECT).closeCalls :=
  read_slow_loris_times_out sampleConsts trickleEnv 3 (USocket.fresh sampleCONNECT) ⟨[], 0⟩ 10 0
    5 2 (by decide) (by decide) (fun _ _ => ⟨'x', rfl⟩) (fun h => absurd h (by decide))
    sampleReserve_space (by decide)
    (by intro i hi; interval_cases i <;> rfl) rfl (by decide)

/-- When the `recv` at label `read:` returns -1 with an `errno` other than EAGAIN,
`read` calls `closesocket` once, issues no further `recv`, leaves the state
CLOSE and returns false, whatever had been received before. -/
theorem readRecv_error_closes (c : Consts) (env : Env) (start count time_limit : Nat)
    (again : USocket → ReadVars → Option ReadResult) (sk : USocket) (v : ReadVars) (e : Nat)
    (hrecv : env.recv sk.recvCalls v.ncount = RecvResult.error e) (he : e ≠ EAGAIN) :
    ∃ res, readRecv c env start count time_limit again sk v = some res ∧
      res.ret = false ∧ res.sk.iState = c.CLOSE ∧
      res.sk.closeCalls = sk.closeCalls + 1 ∧ res.sk.recvCalls = sk.recvCalls + 1 := by
  unfold readRecv
  simp only [USocket.recv, hrecv, readError, he, ne_eq, not_false_eq_true, ↓reduceIte]
  refine ⟨_, by simp; rfl, readClose_false c start count _ v, ?_, ?_, ?_⟩ <;>
    simp [readClose, readDone_sk, USocket.closesocket]

/-- C10 (failing input). On a TLS socket the first `recv` fills the reserved
space, 5 decrypted bytes are pending and the `recv` that drains them returns -1
with ECONNRESET: `read` adds the -1 to `byte_read`, does not call `closesocket`,
leaves the state of the socket unchanged and returns true. -/
theorem read_ignores_failed_drain_recv :
    (read sampleConsts tlsResetEnv 1 (USocket.fresh sampleCONNECT) ⟨[], 0⟩ 1 0 0).map
        (fun r => (r.ret, r.sk.recvCalls, r.sk.closeCalls, r.sk.iState, r.buffer.size))
      = some (true, 2, 0, sampleCONNECT, 64) := by
  rfl

theorem readClose_recvCalls (c : Consts) (start count : Nat) (sk : USocket) (v : ReadVars) :
    (readClose c start count sk v).sk.recvCalls = sk.recvCalls := by
  simp [readClose, readDone_sk, USocket.closesocket]

theorem readEOF_recvCalls (c : Consts) (env : Env) (start count : Nat) (sk : USocket)
    (v : ReadVars) : (readEOF c env start count sk v).sk.recvCalls = sk.recvCalls := by
  unfold readEOF
  split
  · split
    · rfl
    · exact readClose_recvCalls c start count sk v
  · split
    · split
      · rfl
      · rw [readClose_recvCalls]
    · rw [readDone_sk]

theorem readError_recvCalls (c : Consts) (env : Env) (start count : Nat)
    {again : USocket → ReadVars → Option ReadResult}
    (hagain : ∀ s v1 r, again s v1 = some r → s.recvCalls ≤ r.sk.recvCalls)
    (errno : Nat) (sk : USocket) (v : ReadVars) {res : ReadResult}
    (he : readError c env start count again errno sk v = some res) :
    sk.recvCalls ≤ res.sk.recvCalls := by
  unfold readError at he
  split at he
  · cases he
    rw [readClose_recvCalls]
  · split at he
    · simp only [USocket.waitForRead] at he
      split at he
      · have h1 := hagain _ _ _ he
        exact h1
      · cases he
        rw [readDone_sk]
    · cases he
      rw [readDone_sk]

theorem readGot_recvCalls (c : Consts) (env : Env) (start count time_limit : Nat)
    {again : USocket → ReadVars → Option ReadResult}
    (hagain : ∀ s v1 r, again s v1 = some r → s.recvCalls ≤ r.sk.recvCalls)
    (value : Int) (bytes : List Char) (sk : USocket) (v : ReadVars) {res : ReadResult}
    (he : readGot c env start count time_limit again value bytes sk v = some res) :
    sk.recvCalls ≤ res.sk.recvCalls := by
  unfold readGot at he
  simp only at he
  split at he
  · split at he
    · cases he
      rw [readDone_sk]
      split <;> exact le_refl _
    · refine le_trans ?_ (hagain _ _ _ he)
      split <;> exact le_refl _
  · split at he
    · split at he
      · split at he
        · cases hrecv : env.recv sk.recvCalls (env.pending sk.pendingCalls) with
          | data bytes1 =>
            simp only [USocket.recv, hrecv] at he
            split at he
            · cases he
              exact Nat.le_succ _
            · cases he
              rw [readDone_sk]
              exact Nat.le_succ _
          | error e =>
            simp only [USocket.recv, hrecv, List.length_nil, Nat.not_lt_zero, if_false] at he
            cases he
            rw [readDone_sk]
            exact Nat.le_succ _
        · have h1 := hagain _ _ _ he
          exact h1
      · have h1 := hagain _ _ _ he
        exact h1
    · split at he
      · have h1 := hagain _ _ _ he
        exact h1
      · cases he
        rw [readDone_sk]

theorem readRecv_recvCalls (c : Consts) (env : Env) (start count time_limit : Nat)
    {again : USocket → ReadVars → Option ReadResult}
    (hagain : ∀ s v1 r, again s v1 = some r → s.recvCalls ≤ r.sk.recvCalls)
    (sk : USocket) (v : ReadVars) {res : ReadResult}
    (he : readRecv c env start count time_limit again sk v = some res) :
    sk.recvCalls + 1 ≤ res.sk.recvCalls := by
  unfold readRecv at he
  cases hrecv : env.recv sk.recvCalls v.ncount with
  | data bytes =>
    simp only [USocket.recv, hrecv] at he
    split at he
    · split at he
      · have h1 := readError_recvCalls c env start count hagain _ _ _ he
        exact h1
      · cases he
        rw [readEOF_recvCalls]
    · have h1 := readGot_recvCalls c env start count time_limit hagain _ _ _ _ he
      exact h1
  | error e =>
    simp only [USocket.recv, hrecv] at he
    have h1 := readError_recvCalls c env start count hagain _ _ _ he
    exact h1

theorem readLoop_recvCalls (c : Consts) (env : Env) (start count time_limit : Nat) :
    ∀ (fuel : Nat) (sk : USocket) (v : ReadVars) (res : ReadResult),
      readLoop c env start count time_limit fuel sk v = some res →
      sk.recvCalls ≤ res.sk.recvCalls := by
  intro fuel
  induction fuel with
  | zero => intro sk v res he; simp [readLoop] at he
  | succ fuel ih =>
    intro sk v res he
    unfold readLoop at he
    simp only [USocket.waitForRead] at he
    split at he
    · split at he
      · have h1 := readError_recvCalls c env start count ih _ _ _ he
        exact h1
      · have h1 := readRecv_recvCalls c env start count time_limit ih _ _ he
        exact le_trans (Nat.le_succ _) h1
    · exact le_trans (Nat.le_succ _) (readRecv_recvCalls c env start count time_limit ih _ _ he)


/-- C12 (counterexample).  With no timeout configured (`timeoutMS` 0) and every
`recv` blocking, `read` returns false after one `recv` with the state of the
socket as it was, without the TIMEOUT flag.  And on a blocking socket with a
timeout, where the wait after the blocked `recv` reports ready but the wait at
label `read:` that follows does not, `read` returns after that single `recv`:
the `recv` is not retried. -/
theorem read_would_block_without_timeout_sets_no_flag :
    read sampleConsts idleEnv 1 (USocket.fresh sampleCONNECT) { content := [], capacity := 0 }
        5 0 0 =
      some { ret := false,
             sk := { USocket.fresh sampleCONNECT with recvCalls := 1 },
             buffer := { content := [], capacity := 64 } } ∧
    (USocket.fresh sampleCONNECT).iState &&& sampleConsts.TIMEOUT = 0 ∧
    (blockingStallEnv.waitForRead 1).ret = 1 ∧
    read sampleConsts blockingStallEnv 2 (USocket.fresh sampleCONNECT)
        { content := [], capacity := 0 } 5 5 0 =
      some { ret := false,
             sk := { USocket.fresh sampleCONNECT with
                     recvCalls := 1, waitReadCalls := 4,
                     iState := sampleCONNECT ||| sampleConsts.TIMEOUT },
             buffer := { content := [], capacity := 64 } } := by
  refine ⟨rfl, by decide, rfl, rfl⟩

/-- C12 (amended).  Let the `recv` of a pass of the loop of `USocketExt::read` fail
with EAGAIN, `fuel + 1` further passes being available.  With no timeout
configured, `read` goes to label `done:` with the bytes read so far, without
waiting and without touching the state of the socket.  With a timeout it waits
for readability; when the wait does not report ready it sets the TIMEOUT flag
and goes to `done:`.  When the wait reports ready it goes back to label `read:`
with the same variables: a non-blocking socket reissues the `recv` at once; a
blocking socket waits once more and reissues the `recv` if that wait reports
ready too, and otherwise goes to label `error:` with the `errno` of that wait,
where an `errno` other than EAGAIN closes the socket with no further `recv`.
Whenever the `recv` is reissued, a run that returns has made at least two calls
of `recv`. -/
theorem read_would_block (c : Consts) (env : Env) (start count time_limit fuel : Nat)
    (sk : USocket) (v : ReadVars)
    (hrecv : env.recv sk.recvCalls v.ncount = RecvResult.error EAGAIN) :
    (v.timeoutMS = 0 →
      readRecv c env start count time_limit (readLoop c env start count time_limit (fuel + 1))
          sk v =
        some (readDone c start count { sk with recvCalls := sk.recvCalls + 1 } v) ∧
      (readDone c start count { sk with recvCalls := sk.recvCalls + 1 } v).sk =
        { sk with recvCalls := sk.recvCalls + 1 }) ∧
    (v.timeoutMS ≠ 0 → (env.waitForRead sk.waitReadCalls).ret ≠ 1 →
      readRecv c env start count time_limit (readLoop c env start count time_limit (fuel + 1))
          sk v =
        some (readDone c start count
          { sk with recvCalls := sk.recvCalls + 1, waitReadCalls := sk.waitReadCalls + 1,
                    iState := sk.iState ||| c.TIMEOUT } v) ∧
      (readDone c start count
          { sk with recvCalls := sk.recvCalls + 1, waitReadCalls := sk.waitReadCalls + 1,
                    iState := sk.iState ||| c.TIMEOUT } v).sk =
        { sk with recvCalls := sk.recvCalls + 1, waitReadCalls := sk.waitReadCalls + 1,
                  iState := sk.iState ||| c.TIMEOUT }) ∧
    (v.timeoutMS ≠ 0 → (env.waitForRead sk.waitReadCalls).ret = 1 →
      (env.blocking = false →
        readRecv c env start count time_limit (readLoop c env start count time_limit (fuel + 1))
            sk v =
          readRecv c env start count time_limit (readLoop c env start count time_limit fuel)
            { sk with recvCalls := sk.recvCalls + 1, waitReadCalls := sk.waitReadCalls + 1 } v) ∧
      (env.blocking = true → (env.waitForRead (sk.waitReadCalls + 1)).ret = 1 →
        readRecv c env start count time_limit (readLoop c env start count time_limit (fuel + 1))
            sk v =
          readRecv c env start count time_limit (readLoop c env start count time_limit fuel)
            { sk with recvCalls := sk.recvCalls + 1, waitReadCalls := sk.waitReadCalls + 2 } v) ∧
      (env.blocking = true → (env.waitForRead (sk.waitReadCalls + 1)).ret ≠ 1 →
        readRecv c env start count time_limit (readLoop c env start count time_limit (fuel + 1))
            sk v =
          readError c env start count (readLoop c env start count time_limit fuel)
            (env.waitForRead (sk.waitReadCalls + 1)).errno
            { sk with recvCalls := sk.recvCalls + 1, waitReadCalls := sk.waitReadCalls + 2 } v ∧
        ((env.waitForRead (sk.waitReadCalls + 1)).errno ≠ EAGAIN →
          ∃ res,
            readRecv c env start count time_limit
                (readLoop c env start count time_limit (fuel + 1)) sk v = some res ∧
            res.ret = false ∧ res.sk.recvCalls = sk.recvCalls + 1 ∧
            res.sk.iState = c.CLOSE ∧ res.sk.closeCalls = sk.closeCalls + 1)) ∧
      ((env.blocking = false ∨ (env.waitForRead (sk.waitReadCalls + 1)).ret = 1) →
        ∀ res,
          readRecv c env start count time_limit
              (readLoop c env start count time_limit (fuel + 1)) sk v = some res →
          sk.recvCalls + 2 ≤ res.sk.recvCalls)) := by
  have hback : v.timeoutMS ≠ 0 → (env.waitForRead sk.waitReadCalls).ret = 1 →
      readRecv c env start count time_limit (readLoop c env start count time_limit (fuel + 1))
          sk v =
        readLoop c env start count time_limit (fuel + 1)
          { sk with recvCalls := sk.recvCalls + 1, waitReadCalls := sk.waitReadCalls + 1 } v := by
    intro ht hw
    simp [readRecv, USocket.recv, hrecv, readError, ht, USocket.waitForRead, hw]
  have hnb : env.blocking = false →
      readLoop c env start count time_limit (fuel + 1)
          { sk with recvCalls := sk.recvCalls + 1, waitReadCalls := sk.waitReadCalls + 1 } v =
        readRecv c env start count time_limit (readLoop c env start count time_limit fuel)
          { sk with recvCalls := sk.recvCalls + 1, waitReadCalls := sk.waitReadCalls + 1 } v := by
    intro hb
    conv_lhs => unfold readLoop
    simp [hb]
  have hbl : v.timeoutMS ≠ 0 → env.blocking = true →
      (env.waitForRead (sk.waitReadCalls + 1)).ret = 1 →
      readLoop c env start count time_limit (fuel + 1)
          { sk with recvCalls := sk.recvCalls + 1, waitReadCalls := sk.waitReadCalls + 1 } v =
        readRecv c env start count time_limit (readLoop c env start count time_limit fuel)
          { sk with recvCalls := sk.recvCalls + 1, waitReadCalls := sk.waitReadCalls + 2 } v := by
    intro ht hb hw
    conv_lhs => unfold readLoop
    simp [hb, ht, USocket.waitForRead, hw]
  have hbe : v.timeoutMS ≠ 0 → env.blocking = true →
      (env.waitForRead (sk.waitReadCalls + 1)).ret ≠ 1 →
      readLoop c env start count time_limit (fuel + 1)
          { sk with recvCalls := sk.recvCalls + 1, waitReadCalls := sk.waitReadCalls + 1 } v =
        readError c env start count (readLoop c env start count time_limit fuel)
          (env.waitForRead (sk.waitReadCalls + 1)).errno
          { sk with recvCalls := sk.recvCalls + 1, waitReadCalls := sk.waitReadCalls + 2 } v := by
    intro ht hb hw
    conv_lhs => unfold readLoop
    simp [hb, ht, USocket.waitForRead, hw]
  refine ⟨fun ht => ⟨?_, readDone_sk _ _ _ _ _⟩, fun ht hw => ⟨?_, readDone_sk _ _ _ _ _⟩,
    fun ht hw => ⟨fun hb => ?_, fun hb hw1 => ?_, fun hb hw1 => ⟨?_, fun hne => ?_⟩,
      fun hor res he => ?_⟩⟩
  · simp [readRecv, USocket.recv, hrecv, readError, ht]
  · simp [readRecv, USocket.recv, hrecv, readError, ht, USocket.waitForRead, hw]
  · rw [hback ht hw, hnb hb]
  · rw [hback ht hw, hbl ht hb hw1]
  · rw [hback ht hw, hbe ht hb hw1]
  · rw [hback ht hw, hbe ht hb hw1]
    refine ⟨_, by simp [readError, hne]; rfl, readClose_false c start count _ v, ?_, ?_, ?_⟩ <;>
      simp [readClose, readDone_sk, USocket.closesocket]
  · rw [hback ht hw] at he
    have hmono := readLoop_recvCalls c env start count time_limit fuel
    rcases hor with hb | hw1
    · rw [hnb hb] at he
      have h1 := readRecv_recvCalls c env start count time_limit hmono _ _ he
      exact h1
    · cases hbk : env.blocking with
      | false =>
        rw [hnb hbk] at he
        have h1 := readRecv_recvCalls c env start count time_limit hmono _ _ he
        exact h1
      | true =>
        rw [hbl ht hbk hw1] at he
        have h1 := readRecv_recvCalls c env start count time_limit hmono _ _ he
        exact h1

/-- Witness of C12: on `retryEnv` the first `recv` would block, the wait reports
ready and the `recv` is reissued; it delivers "abc" and `read` returns true
after two calls of `recv` and one wait. -/
theorem read_would_block_witness :
    retryEnv.recv (USocket.fresh sampleCONNECT).recvCalls retryVars.ncount
      = RecvResult.error EAGAIN ∧
    readRecv sampleConsts retryEnv 0 3 0 (readLoop sampleConsts retryEnv 0 3 0 (0 + 1))
        (USocket.fresh sampleCONNECT) retryVars =
      readRecv sampleConsts retryEnv 0 3 0 (readLoop sampleConsts retryEnv 0 3 0 0)
        { USocket.fresh sampleCONNECT with
          recvCalls := (USocket.fresh sampleCONNECT).recvCalls + 1,
          waitReadCalls := (USocket.fresh sampleCONNECT).waitReadCalls + 1 } retryVars ∧
    readRecv sampleConsts retryEnv 0 3 0 (readLoop sampleConsts retryEnv 0 3 0 0)
        { USocket.fresh sampleCONNECT with
          recvCalls := (USocket.fresh sampleCONNECT).recvCalls + 1,
          waitReadCalls := (USocket.fresh sampleCONNECT).waitReadCalls + 1 } retryVars =
      some retryResult ∧
    read sampleConsts retryEnv 2 (USocket.fresh sampleCONNECT) { content := [], capacity := 0 }
        3 5 0 = some retryResult :=
  ⟨rfl,
    ((read_would_block sampleConsts retryEnv 0 3 0 0 (USocket.fresh sampleCONNECT) retryVars
      rfl).2.2 (by decide) rfl).1 rfl,
    rfl, rfl⟩

/-- C13 (counterexample).  The first `recv` delivers "ab\ncd", which contains a
newline, and the second "ef\n": `readLineReply` does not stop at the first one,
it returns 8 after two calls of `recv`. -/
theorem readLineReply_continues_past_inner_newline :
    readLineReply sampleConsts (streamEnv ["ab\ncd", "ef\n"]) 2
        (USocket.fresh sampleCONNECT) (List.replicate 16 'x') 0 15 =
      some { ret := some 8,
             sk := { USocket.fresh sampleCONNECT with
                     recvCalls := 2, received := "ab\ncdef\n".toList },
             buffer := "ab\ncdef\n\x00xxxxxxx".toList } := by
  rfl

theorem lineBuffer_length {B : List Char} {off : Nat} {bytes : List Char}
    (h : off + bytes.length ≤ B.length) : (lineBuffer B off bytes).length = B.length := by
  simp only [lineBuffer, List.length_append, List.length_take, List.length_drop]
  omega

theorem poke_lineBuffer (B : List Char) (off : Nat) (acc bytes : List Char)
    (h : off + (acc ++ bytes).length ≤ B.length) :
    poke (lineBuffer B off acc) (off + acc.length) bytes = some (lineBuffer B off (acc ++ bytes)) := by
  have hl : off + acc.length ≤ B.length := by
    rw [List.length_append] at h; omega
  have hlen := lineBuffer_length hl
  rw [List.length_append] at h
  unfold poke
  rw [if_pos (by rw [hlen]; omega)]
  congr 1
  have htake : (B.take off).length = off := by rw [List.length_take]; omega
  have h1 : (lineBuffer B off acc).take (off + acc.length) = B.take off ++ acc := by
    unfold lineBuffer
    rw [List.take_append_of_le_length (by simp [htake])]
    rw [List.take_of_length_le (by simp [htake])]
  have h2 : (lineBuffer B off acc).drop (off + acc.length + bytes.length)
      = B.drop (off + (acc.length + bytes.length)) := by
    unfold lineBuffer
    rw [List.drop_append_eq_append_drop]
    rw [List.drop_of_length_le (by simp [htake])]
    simp only [List.length_append, htake, List.nil_append, List.drop_drop]
    congr 1
    omega
  rw [h1, h2]
  simp [lineBuffer, List.append_assoc]

theorem lineBuffer_last {B : List Char} {off : Nat} {acc : List Char}
    (h : off + acc.length ≤ B.length) (hne : 0 < acc.length) :
    (lineBuffer B off acc)[off + (acc.length - 1)]? = acc.getLast? := by
  have htake : (B.take off).length = off := by rw [List.length_take]; omega
  unfold lineBuffer
  rw [List.append_assoc, List.getElem?_append_right (by rw [htake]; omega)]
  rw [htake, Nat.add_sub_cancel_left]
  rw [List.getElem?_append_left (by omega)]
  rw [List.getLast?_eq_getElem?]


theorem lineSk_recv_data (env : Env) (sk : USocket) (bs j : Nat) (bytes : List Char)
    (h : env.recv (sk.recvCalls + j) (bs - (lineBytes env sk.recvCalls bs j).length)
      = RecvResult.data bytes) :
    lineValue env sk.recvCalls bs j
        = ((bytes.take (bs - (lineBytes env sk.recvCalls bs j).length)).length : Int) ∧
      lineBytes env sk.recvCalls bs (j + 1)
        = lineBytes env sk.recvCalls bs j
            ++ bytes.take (bs - (lineBytes env sk.recvCalls bs j).length) ∧
      (lineSk sk (lineBytes env sk.recvCalls bs j) j).recv env
          (bs - (lineBytes env sk.recvCalls bs j).length)
        = (((bytes.take (bs - (lineBytes env sk.recvCalls bs j).length)).length : Int), 0,
            bytes.take (bs - (lineBytes env sk.recvCalls bs j).length),
            lineSk sk (lineBytes env sk.recvCalls bs (j + 1)) (j + 1)) := by
  refine ⟨?_, ?_, ?_⟩
  · simp only [lineValue, h]
  · simp only [lineBytes, h]
  · have hL : lineBytes env sk.recvCalls bs (j + 1)
        = lineBytes env sk.recvCalls bs j
            ++ bytes.take (bs - (lineBytes env sk.recvCalls bs j).length) := by
      simp only [lineBytes, h]
    rw [hL]
    simp only [USocket.recv, lineSk, h, List.append_assoc]
    rfl

theorem lineSk_recv_error (env : Env) (sk : USocket) (bs j : Nat) (e : Nat)
    (h : env.recv (sk.recvCalls + j) (bs - (lineBytes env sk.recvCalls bs j).length)
      = RecvResult.error e) :
    lineValue env sk.recvCalls bs j = -1 ∧
      lineBytes env sk.recvCalls bs (j + 1) = lineBytes env sk.recvCalls bs j ∧
      (lineSk sk (lineBytes env sk.recvCalls bs j) j).recv env
          (bs - (lineBytes env sk.recvCalls bs j).length)
        = (-1, e, [], lineSk sk (lineBytes env sk.recvCalls bs (j + 1)) (j + 1)) := by
  refine ⟨?_, ?_, ?_⟩
  · simp only [lineValue, h]
  · simp only [lineBytes, h]
  · have hL : lineBytes env sk.recvCalls bs (j + 1) = lineBytes env sk.recvCalls bs j := by
      simp only [lineBytes, h]
    rw [hL]
    simp only [USocket.recv, lineSk, h]
    rfl

/-- One pass of the loop of `readLineReply` whose `recv` fails the I/O check. -/
theorem readLineLoop_broken (c : Consts) (env : Env) (off bs fuel : Nat) (sk : USocket)
    (B : List Char) (j : Nat)
    (hfit : off + (lineBytes env sk.recvCalls bs (j + 1)).length ≤ B.length)
    (hbad : env.checkIO (lineValue env sk.recvCalls bs j) = false) :
    readLineLoop c env off bs (fuel + 1) (lineSk sk (lineBytes env sk.recvCalls bs j) j)
        (lineBuffer B off (lineBytes env sk.recvCalls bs j))
        ((lineBytes env sk.recvCalls bs j).length : Int) =
      some { ret := some c.BROKEN,
             sk := lineSk sk (lineBytes env sk.recvCalls bs (j + 1)) (j + 1),
             buffer := lineBuffer B off (lineBytes env sk.recvCalls bs (j + 1)) } := by
  unfold readLineLoop
  simp only [Int.toNat_ofNat]
  cases hr : env.recv (sk.recvCalls + j) (bs - (lineBytes env sk.recvCalls bs j).length) with
  | data bytes =>
    obtain ⟨hV, hL, hR⟩ := lineSk_recv_data env sk bs j bytes hr
    rw [hR]
    simp only
    rw [hL] at hfit
    rw [poke_lineBuffer _ _ _ _ hfit]
    simp only
    rw [← hV, hbad, ← hL]
    simp
  | error e =>
    obtain ⟨hV, hL, hR⟩ := lineSk_recv_error env sk bs j e hr
    rw [hR]
    simp only
    have hfit1 : off + (lineBytes env sk.recvCalls bs j ++ []).length ≤ B.length := by
      rw [List.append_nil, ← hL]; exact hfit
    rw [poke_lineBuffer _ _ _ _ hfit1]
    simp only
    rw [← hV, hbad, List.append_nil, ← hL]
    simp

/-- One pass of the loop of `readLineReply` whose `recv` passes the I/O check. -/
theorem readLineLoop_step (c : Consts) (env : Env) (off bs fuel : Nat) (sk : USocket)
    (B : List Char) (j : Nat) (hio : ∀ i, env.checkIO i = true → 0 < i)
    (hfit : off + (lineBytes env sk.recvCalls bs (j + 1)).length ≤ B.length)
    (hok : env.checkIO (lineValue env sk.recvCalls bs j) = true) :
    readLineLoop c env off bs (fuel + 1) (lineSk sk (lineBytes env sk.recvCalls bs j) j)
        (lineBuffer B off (lineBytes env sk.recvCalls bs j))
        ((lineBytes env sk.recvCalls bs j).length : Int) =
      if (lineBytes env sk.recvCalls bs (j + 1)).getLast? = some '\n' then
        match poke (lineBuffer B off (lineBytes env sk.recvCalls bs (j + 1)))
            (off + (lineBytes env sk.recvCalls bs (j + 1)).length) ['\x00'] with
        | none =>
          some { ret := none, sk := lineSk sk (lineBytes env sk.recvCalls bs (j + 1)) (j + 1),
                 buffer := lineBuffer B off (lineBytes env sk.recvCalls bs (j + 1)) }
        | some buffer2 =>
          some { ret := some ((lineBytes env sk.recvCalls bs (j + 1)).length : Int),
                 sk := lineSk sk (lineBytes env sk.recvCalls bs (j + 1)) (j + 1),
                 buffer := buffer2 }
      else
        readLineLoop c env off bs fuel (lineSk sk (lineBytes env sk.recvCalls bs (j + 1)) (j + 1))
          (lineBuffer B off (lineBytes env sk.recvCalls bs (j + 1)))
          ((lineBytes env sk.recvCalls bs (j + 1)).length : Int) := by
  have hpos := hio _ hok
  conv_lhs => unfold readLineLoop
  simp only [Int.toNat_ofNat]
  cases hr : env.recv (sk.recvCalls + j) (bs - (lineBytes env sk.recvCalls bs j).length) with
  | error e =>
    obtain ⟨hV, _, _⟩ := lineSk_recv_error env sk bs j e hr
    rw [hV] at hpos
    omega
  | data bytes =>
    obtain ⟨hV, hL, hR⟩ := lineSk_recv_data env sk bs j bytes hr
    rw [hR]
    simp only
    have hfit1 := hfit
    rw [hL] at hfit1
    rw [poke_lineBuffer _ _ _ _ hfit1]
    simp only
    rw [← hV, hok, ← hL]
    simp only [Bool.true_eq_false, if_false]
    have hlen : ((lineBytes env sk.recvCalls bs j).length : Int) + lineValue env sk.recvCalls bs j
        = ((lineBytes env sk.recvCalls bs (j + 1)).length : Int) := by
      rw [hV, hL, List.length_append]; push_cast; rfl
    rw [hlen]
    have hpos1 : 0 < (lineBytes env sk.recvCalls bs (j + 1)).length := by
      have : (0 : Int) < ((lineBytes env sk.recvCalls bs (j + 1)).length : Int) := by
        rw [← hlen]; omega
      omega
    rw [if_neg (by omega)]
    simp only [Int.toNat_ofNat]
    rw [lineBuffer_last hfit hpos1]
    cases hg : (lineBytes env sk.recvCalls bs (j + 1)).getLast? with
    | none =>
      exfalso
      rw [List.getLast?_eq_none_iff] at hg
      rw [hg] at hpos1
      simp at hpos1
    | some ch =>
      simp only
      by_cases hch : ch = '\n'
      · subst hch
        simp only [ne_eq, not_true_eq_false, if_false, if_true]
      · simp only [ne_eq, hch, not_false_eq_true, if_true, Option.some.injEq, if_false]


theorem lineBytes_length_mono (env : Env) (first bs : Nat) (j k : Nat) :
    (lineBytes env first bs j).length ≤ (lineBytes env first bs (j + k)).length := by
  induction k with
  | zero => exact le_refl _
  | succ k ih =>
    refine le_trans ih ?_
    show _ ≤ (lineBytes env first bs (j + k + 1)).length
    simp only [lineBytes]
    split
    · rw [List.length_append]; omega
    · exact le_refl _

/-- Passes of the loop of `readLineReply` that neither fail the I/O check nor end
in a newline. -/
theorem readLineLoop_advance (c : Consts) (env : Env) (off bs : Nat) (sk : USocket)
    (B : List Char) (hio : ∀ i, env.checkIO i = true → 0 < i) :
    ∀ (k j fuel : Nat),
      (∀ i, j ≤ i → i < j + k →
        env.checkIO (lineValue env sk.recvCalls bs i) = true ∧
        (lineBytes env sk.recvCalls bs (i + 1)).getLast? ≠ some '\n') →
      off + (lineBytes env sk.recvCalls bs (j + k)).length ≤ B.length →
      readLineLoop c env off bs (fuel + k) (lineSk sk (lineBytes env sk.recvCalls bs j) j)
          (lineBuffer B off (lineBytes env sk.recvCalls bs j))
          ((lineBytes env sk.recvCalls bs j).length : Int) =
        readLineLoop c env off bs fuel
          (lineSk sk (lineBytes env sk.recvCalls bs (j + k)) (j + k))
          (lineBuffer B off (lineBytes env sk.recvCalls bs (j + k)))
          ((lineBytes env sk.recvCalls bs (j + k)).length : Int) := by
  intro k
  induction k with
  | zero => intro j fuel _ _; rfl
  | succ k ih =>
    intro j fuel hall hfit
    have hjk : j + (k + 1) = j + 1 + k := by omega
    rw [hjk] at hfit ⊢
    have hmono := lineBytes_length_mono env sk.recvCalls bs (j + 1) k
    obtain ⟨hok, hnl⟩ := hall j (le_refl _) (by omega)
    have hstep := readLineLoop_step c env off bs (fuel + k) sk B j hio (by omega) hok
    rw [if_neg hnl] at hstep
    rw [show fuel + (k + 1) = fuel + k + 1 from rfl, hstep]
    exact ih (j + 1) fuel (fun i h1 h2 => hall i (by omega) (by omega)) hfit

theorem lineSk_zero (sk : USocket) : lineSk sk [] 0 = sk := by
  simp [lineSk]

theorem lineBuffer_nil (B : List Char) (off : Nat) : lineBuffer B off [] = B := by
  simp [lineBuffer]

/-- C13 (amended).  Let `checkIO` accept only positive values, and let the first `m`
calls of `recv` of `USocketExt::readLineReply` pass it, the bytes received so far
not ending in a newline after any of the calls before the last.  If the bytes
end in a newline after call `m` (and the terminator fits the allocation), the
function returns after exactly these `m` calls the total number `r` of bytes
received, `buffer[0..r)` holding them in arrival order and `buffer[r]` the
terminator.  If instead the next call fails the I/O check, it returns BROKEN. -/
theorem readLineReply_stops_when_last_byte_is_newline (c : Consts) (env : Env) (fuel : Nat)
    (sk : USocket) (B : List Char) (off bs m : Nat)
    (hio : ∀ i, env.checkIO i = true → 0 < i)
    (hok : ∀ j, j < m → env.checkIO (lineValue env sk.recvCalls bs j) = true)
    (hnl : ∀ j, 0 < j → j < m → (lineBytes env sk.recvCalls bs j).getLast? ≠ some '\n') :
    (0 < m → (lineBytes env sk.recvCalls bs m).getLast? = some '\n' →
      off + (lineBytes env sk.recvCalls bs m).length < B.length →
      readLineReply c env (fuel + m) sk B off bs =
        some { ret := some ((lineBytes env sk.recvCalls bs m).length : Int),
               sk := { sk with recvCalls := sk.recvCalls + m,
                               received := sk.received ++ lineBytes env sk.recvCalls bs m },
               buffer := B.take off ++ (lineBytes env sk.recvCalls bs m ++ ['\x00'])
                 ++ B.drop (off + ((lineBytes env sk.recvCalls bs m).length + 1)) }) ∧
    ((lineBytes env sk.recvCalls bs m).getLast? ≠ some '\n' →
      env.checkIO (lineValue env sk.recvCalls bs m) = false →
      off + (lineBytes env sk.recvCalls bs (m + 1)).length ≤ B.length →
      readLineReply c env (fuel + (m + 1)) sk B off bs =
        some { ret := some (c.BROKEN : Int),
               sk := { sk with recvCalls := sk.recvCalls + (m + 1),
                               received := sk.received ++ lineBytes env sk.recvCalls bs (m + 1) },
               buffer := B.take off ++ lineBytes env sk.recvCalls bs (m + 1)
                 ++ B.drop (off + (lineBytes env sk.recvCalls bs (m + 1)).length) }) := by
  have hstart : ∀ f, readLineReply c env f sk B off bs
      = readLineLoop c env off bs f (lineSk sk (lineBytes env sk.recvCalls bs 0) 0)
          (lineBuffer B off (lineBytes env sk.recvCalls bs 0))
          ((lineBytes env sk.recvCalls bs 0).length : Int) := by
    intro f
    show _ = readLineLoop c env off bs f (lineSk sk [] 0) (lineBuffer B off []) ((0 : Nat) : Int)
    rw [lineSk_zero, lineBuffer_nil]
    rfl
  constructor
  · intro hm hlast hfit
    obtain ⟨n, rfl⟩ : ∃ n, m = n + 1 := ⟨m - 1, by omega⟩
    rw [hstart, show fuel + (n + 1) = fuel + 1 + n from by omega]
    have hadv := readLineLoop_advance c env off bs sk B hio n 0 (fuel + 1)
      (fun i _ h2 => ⟨hok i (by omega), hnl (i + 1) (by omega) (by omega)⟩)
      (by
        have := lineBytes_length_mono env sk.recvCalls bs n 1
        rw [Nat.zero_add]
        omega)
    rw [hadv, Nat.zero_add]
    rw [readLineLoop_step c env off bs fuel sk B n hio (by omega) (hok n (by omega))]
    rw [if_pos hlast]
    have hp := poke_lineBuffer B off (lineBytes env sk.recvCalls bs (n + 1)) ['\x00']
      (by rw [List.length_append]; simp; omega)
    rw [hp]
    simp only [lineBuffer, lineSk, List.length_append, List.length_singleton]
  · intro hnot hbad hfit
    rw [hstart, show fuel + (m + 1) = fuel + 1 + m from by omega]
    have hadv := readLineLoop_advance c env off bs sk B hio m 0 (fuel + 1)
      (fun i _ h2 => ⟨hok i (by omega), by
        by_cases him : i + 1 < m
        · exact hnl (i + 1) (by omega) him
        · have : i + 1 = m := by omega
          rw [this]; exact hnot⟩)
      (by
        have := lineBytes_length_mono env sk.recvCalls bs m 1
        rw [Nat.zero_add]
        omega)
    rw [hadv, Nat.zero_add]
    rw [readLineLoop_broken c env off bs fuel sk B m hfit hbad]
    rfl

/-- Witness of C13: the line arrives in the two pieces "ab\ncd" and "ef\n". -/
theorem readLineReply_stops_when_last_byte_is_newline_witness :
    readLineReply sampleConsts (streamEnv ["ab\ncd", "ef\n"]) (0 + 2)
        (USocket.fresh sampleCONNECT) (List.replicate 16 'x') 0 15 =
      some { ret := some 8,
             sk := { USocket.fresh sampleCONNECT with
                     recvCalls := 2, received := "ab\ncdef\n".toList },
             buffer := "ab\ncdef\n\x00xxxxxxx".toList } :=
  (readLineReply_stops_when_last_byte_is_newline sampleConsts (streamEnv ["ab\ncd", "ef\n"]) 0
    (USocket.fresh sampleCONNECT) (List.replicate 16 'x') 0 15 2
    (fun i h => by simpa [streamEnv, idleEnv] using h)
    (fun j hj => by interval_cases j <;> rfl)
    (fun j h0 hj => by interval_cases j; decide)).1 (by decide) (by rfl) (by decide)

/-- C14.  For every call of the 6-argument `writev` with `cloop == 1` that returns,
the first `iovcnt` entries of the caller's array (base and length) are on return
what they were at entry, whatever the 5-argument `writev` did to them. -/
theorem writevCloop_one_restores_entries (c : Consts) (env : Env) (mem : Nat → Char)
    (fuel : Nat) (sk : USocket) (iov : List iovec) (iovcnt : Int) (count : Nat)
    (timeoutMS : Int) (res : WritevResult)
    (h : writevCloop c env mem fuel sk iov iovcnt count timeoutMS 1 = some res) :
    res.iov.take iovcnt.toNat = iov.take iovcnt.toNat := by
  unfold writevCloop at h
  split at h
  · cases h; rfl
  · rename_i hpre
    simp only at h
    split at h
    · cases h; rfl
    · simp only [show ¬ (1 > 1) from by decide, if_false, if_true] at h
      cases hw : writev c env mem fuel sk iov iovcnt count timeoutMS with
      | none => simp [hw] at h
      | some r =>
        simp only [hw, Option.map_some', Option.some.injEq] at h
        subst h
        have hl : (iov.take iovcnt.toNat).length = iovcnt.toNat := by
          rw [List.length_take]; omega
        show ((iov.take iovcnt.toNat) ++ _).take iovcnt.toNat = _
        rw [List.take_append_of_le_length (by omega)]
        rw [List.take_of_length_le (by omega)]

/-- Witness of C14: the first send is short, so that the 5-argument `writev`
shrinks the first entry of the caller's array, which is stored back. -/
theorem writevCloop_one_restores_entries_witness :
    writevCloop sampleConsts (sendAtMost 3) letters 2 (USocket.fresh sampleCONNECT)
        [⟨0, 4⟩, ⟨4, 2⟩] 2 6 0 1 =
      some { ret := some 6,
             sk := { USocket.fresh sampleCONNECT with writevCalls := 2, sent := "abcdef".toList },
             iov := [⟨0, 4⟩, ⟨4, 2⟩] } ∧
    writev sampleConsts (sendAtMost 3) letters 2 (USocket.fresh sampleCONNECT)
        [⟨0, 4⟩, ⟨4, 2⟩] 2 6 0 =
      some { ret := some 6,
             sk := { USocket.fresh sampleCONNECT with writevCalls := 2, sent := "abcdef".toList },
             iov := [⟨3, 1⟩, ⟨4, 2⟩] } ∧
    List.take (2 : Int).toNat [(⟨0, 4⟩ : iovec), ⟨4, 2⟩] =
      List.take (2 : Int).toNat [(⟨0, 4⟩ : iovec), ⟨4, 2⟩] :=
  ⟨rfl, rfl,
    writevCloop_one_restores_entries sampleConsts (sendAtMost 3) letters 2
      (USocket.fresh sampleCONNECT) [⟨0, 4⟩, ⟨4, 2⟩] 2 6 0
      { ret := some 6,
        sk := { USocket.fresh sampleCONNECT with writevCalls := 2, sent := "abcdef".toList },
        iov := [⟨0, 4⟩, ⟨4, 2⟩] } rfl⟩

/-- C15 (failing input).  Segments "a", "b", "cd" (`count` 4) on a stub that accepts one byte per
call: the run reaches, after two short sends, the third vectored send with a
current list whose lengths sum to 1 while the remaining `count` is 2, and which
describes "d" while "cd" is still to be sent. -/
theorem writev_third_send_list_differs_from_remainder (c : Consts) (state : Nat) (fuel : Nat) :
    writev c (sendAtMost 1) letters (fuel + 3) (USocket.fresh state)
        [⟨0, 1⟩, ⟨1, 1⟩, ⟨2, 2⟩] 3 4 0 =
      writevLoop c (sendAtMost 1) letters (fuel + 1)
        { USocket.fresh state with writevCalls := 2, sent := "ab".toList }
        { arr := [⟨0, 0⟩, ⟨1, 1⟩, ⟨3, 1⟩], off := 2, iovcnt := 1, count := 2, idx := 1,
          byte_written := 2, timeoutMS := 0 } ∧
    lengthSum (WritevVars.current
        { arr := [⟨0, 0⟩, ⟨1, 1⟩, ⟨3, 1⟩], off := 2, iovcnt := 1, count := 2, idx := 1,
          byte_written := 2, timeoutMS := 0 }) = 1 ∧
    gather letters (WritevVars.current
        { arr := [⟨0, 0⟩, ⟨1, 1⟩, ⟨3, 1⟩], off := 2, iovcnt := 1, count := 2, idx := 1,
          byte_written := 2, timeoutMS := 0 }) = "d".toList ∧
    (gather letters [⟨0, 1⟩, ⟨1, 1⟩, ⟨2, 2⟩]).drop 2 = "cd".toList := by
  refine ⟨rfl, rfl, rfl, rfl⟩

theorem acceptedSum_snoc (log : List (List Char × Int)) (e : List Char × Int) :
    acceptedSum (log ++ [e]) = acceptedSum log + e.2.toNat := by
  simp [acceptedSum]

theorem sendsInOrder_snoc (src : List Char) (count : Nat) (offer : List Char) (value : Int) :
    ∀ (log : List (List Char × Int)) (a : Nat), sendsInOrder src count a log →
      offer = (src.take count).drop (a + acceptedSum log) →
      sendsInOrder src count a (log ++ [(offer, value)]) := by
  intro log
  induction log with
  | nil =>
    intro a _ ho
    exact ⟨by simpa [acceptedSum] using ho, trivial⟩
  | cons e rest ih =>
    intro a h ho
    obtain ⟨o, v⟩ := e
    refine ⟨h.1, ih (a + v.toNat) h.2 ?_⟩
    rw [ho]
    simp only [acceptedSum, List.map_cons, List.sum_cons]
    rw [Nat.add_assoc]

theorem offer_eq_drop (ptr : List Char) (bw cnt count0 : Nat) (h : bw + cnt = count0) :
    (ptr.drop bw).take cnt = (ptr.take count0).drop bw := by
  rw [List.drop_take]
  congr 1
  omega

/-- The invariant of the loop of `write` after one more `send`, which was offered
the `count` bytes at `ptr + byte_written` and accepted `m` of them. -/
theorem writeInv_logged {ptr S0 : List Char} {L0 : List (List Char × Int)} {count0 : Nat}
    {sk : USocket} {byte_written : Int} {count : Nat}
    (hinv : WriteInv ptr S0 L0 count0 sk byte_written count) (sk1 : USocket) (value : Int)
    (m : Nat) (hm : value.toNat = m) (hmc : m ≤ count)
    (hsent : sk1.sent = sk.sent ++ ((ptr.drop byte_written.toNat).take count).take m)
    (hlog : sk1.sendLog = sk.sendLog ++ [((ptr.drop byte_written.toNat).take count, value)]) :
    WriteInv ptr S0 L0 count0 sk1 (byte_written + (m : Int)) (count - m) := by
  obtain ⟨h0, hsum, hs, log, hl, hord, hacc⟩ := hinv
  have htn : (byte_written + (m : Int)).toNat = byte_written.toNat + m := by omega
  refine ⟨by omega, by omega, ?_, log ++ [((ptr.drop byte_written.toNat).take count, value)],
    ?_, ?_, ?_⟩
  · rw [hsent, hs, htn, List.append_assoc, List.take_take, List.take_add]
    congr 2
    congr 1
    omega
  · rw [hlog, hl, List.append_assoc]
  · refine sendsInOrder_snoc ptr count0 _ value log 0 hord ?_
    rw [Nat.zero_add, hacc]
    exact offer_eq_drop ptr _ _ _ hsum
  · rw [acceptedSum_snoc, hacc, htn]
    simp only [hm]

theorem writePost_of_inv {ptr S0 : List Char} {L0 : List (List Char × Int)} {count0 : Nat}
    {sk sk1 : USocket} {byte_written : Int} {count : Nat}
    (hinv : WriteInv ptr S0 L0 count0 sk byte_written count)
    (hsent : sk1.sent = sk.sent) (hlog : sk1.sendLog = sk.sendLog) :
    WritePost ptr S0 L0 count0 (byte_written, sk1) := by
  obtain ⟨h0, hsum, hs, log, hl, hord, hacc⟩ := hinv
  exact ⟨h0, by show byte_written ≤ (count0 : Int); omega, by rw [hsent]; exact hs, log,
    by rw [hlog]; exact hl, hord, hacc⟩

theorem writeInv_of_eq {ptr S0 : List Char} {L0 : List (List Char × Int)} {count0 : Nat}
    {sk sk1 : USocket} {byte_written : Int} {count : Nat}
    (hinv : WriteInv ptr S0 L0 count0 sk byte_written count)
    (hsent : sk1.sent = sk.sent) (hlog : sk1.sendLog = sk.sendLog) :
    WriteInv ptr S0 L0 count0 sk1 byte_written count := by
  obtain ⟨h0, hsum, hs, log, hl, hord, hacc⟩ := hinv
  exact ⟨h0, hsum, by rw [hsent]; exact hs, log, by rw [hlog]; exact hl, hord, hacc⟩

theorem writeError_post (c : Consts) (env : Env) {ptr S0 : List Char}
    {L0 : List (List Char × Int)} {count0 : Nat}
    (again : USocket → Option (Int × USocket)) (errno : Nat) (sk : USocket)
    (byte_written : Int) (count : Nat) (timeoutMS : Int) (res : Int × USocket)
    (hinv : WriteInv ptr S0 L0 count0 sk byte_written count)
    (hagain : ∀ s, s.sent = sk.sent → s.sendLog = sk.sendLog → again s = some res →
      WritePost ptr S0 L0 count0 res)
    (he : writeError c env again errno sk byte_written timeoutMS = some res) :
    WritePost ptr S0 L0 count0 res := by
  unfold writeError at he
  split at he
  · cases he
    exact writePost_of_inv hinv rfl rfl
  · split at he
    · simp only [USocket.waitForWrite] at he
      split at he
      · refine hagain _ ?_ ?_ he
        · rfl
        · rfl
      · cases he
        exact writePost_of_inv hinv rfl rfl
    · cases he
      exact writePost_of_inv hinv rfl rfl

theorem writeSend_post (c : Consts) (env : Env) {ptr S0 : List Char}
    {L0 : List (List Char × Int)} {count0 : Nat}
    (again : USocket → Int → Nat → Int → Option (Int × USocket)) (sk : USocket)
    (byte_written : Int) (count : Nat) (timeoutMS : Int) (res : Int × USocket)
    (hinv : WriteInv ptr S0 L0 count0 sk byte_written count)
    (hagain : ∀ s bw cnt t, WriteInv ptr S0 L0 count0 s bw cnt → again s bw cnt t = some res →
      WritePost ptr S0 L0 count0 res)
    (he : writeSend c env ptr again sk byte_written count timeoutMS = some res) :
    WritePost ptr S0 L0 count0 res := by
  unfold writeSend at he
  cases hs : env.send sk.sendCalls count with
  | error e =>
    simp only [USocket.send, hs] at he
    simp only [show ((-1 : Int) ≤ 0) = True from by simp, if_true] at he
    have hinv1 := writeInv_logged hinv
      { sk with sendCalls := sk.sendCalls + 1,
                sendLog := sk.sendLog ++ [((ptr.drop byte_written.toNat).take count, -1)] }
      (-1) 0 (by decide) (Nat.zero_le _) (by simp) rfl
    simp only [Int.ofNat_zero, Int.add_zero, Nat.sub_zero] at hinv1
    refine writeError_post c env _ e _ byte_written count timeoutMS res hinv1 ?_ he
    intro s hs1 hs2 ha
    exact hagain s byte_written count timeoutMS (writeInv_of_eq hinv1 hs1 hs2) ha
  | accepted n =>
    simp only [USocket.send, hs] at he
    have hinv1 := writeInv_logged hinv
      { sk with sendCalls := sk.sendCalls + 1,
                sent := sk.sent ++ ((ptr.drop byte_written.toNat).take count).take (min n count),
                sendLog := sk.sendLog ++
                  [((ptr.drop byte_written.toNat).take count, ((min n count : Nat) : Int))] }
      ((min n count : Nat) : Int) (min n count) (by omega) (Nat.min_le_right _ _) rfl rfl
    split at he
    · rename_i hv
      have hz : min n count = 0 := by omega
      simp only [show ¬ (((min n count : Nat) : Int) = -1) from by omega, if_false] at he
      cases he
      rw [hz] at hinv1
      simp only [Int.ofNat_zero, Int.add_zero, Nat.sub_zero] at hinv1
      rw [hz]
      exact writePost_of_inv hinv1 rfl rfl
    · rename_i hv
      have hn : ((min n count : Nat) : Int).toNat = min n count := by omega
      split at he
      · refine hagain _ _ _ _ ?_ he
        rw [hn]
        exact hinv1
      · cases he
        exact writePost_of_inv hinv1 rfl rfl

theorem writeLoop_post (c : Consts) (env : Env) (ptr S0 : List Char)
    (L0 : List (List Char × Int)) (count0 : Nat) (res : Int × USocket) :
    ∀ (fuel : Nat) (sk : USocket) (byte_written : Int) (count : Nat) (timeoutMS : Int),
      WriteInv ptr S0 L0 count0 sk byte_written count →
      writeLoop c env ptr fuel sk byte_written count timeoutMS = some res →
      WritePost ptr S0 L0 count0 res := by
  intro fuel
  induction fuel with
  | zero => intro sk bw cnt t _ he; simp [writeLoop] at he
  | succ fuel ih =>
    intro sk bw cnt t hinv he
    unfold writeLoop at he
    simp only at he
    split at he
    · simp only [USocket.waitForWrite] at he
      have hinv1 : WriteInv ptr S0 L0 count0
          { sk with waitWriteCalls := sk.waitWriteCalls + 1 } bw cnt := hinv
      split at he
      · refine writeError_post c env _ _ _ bw cnt t res hinv1 ?_ he
        intro s hs1 hs2 ha
        exact ih s bw cnt t (writeInv_of_eq hinv1 hs1 hs2) ha
      · exact writeSend_post c env _ _ bw cnt t res hinv1
          (fun s b n t1 hi ha => ih s b n t1 hi ha) he
    · exact writeSend_post c env _ _ bw cnt t res hinv
        (fun s b n t1 hi ha => ih s b n t1 hi ha) he

/-- C16.  For every run of `USocketExt::write` that returns, on a source that holds
`count` bytes: the value `r` returned satisfies `0 <= r <= count`; each `send` of
the run was offered exactly the bytes of the source from the offset "bytes
accepted so far" up to `count`; `r` is the sum of the positive values the sends
returned; and the bytes accepted by the successive sends, concatenated, are
exactly the first `r` bytes of the source. -/
theorem write_sends_source_in_order (c : Consts) (env : Env) (fuel : Nat) (sk : USocket)
    (ptr : List Char) (count : Nat) (timeoutMS : Int) (r : Int) (sk1 : USocket)
    (hlen : count ≤ ptr.length)
    (h : write c env fuel sk ptr count timeoutMS = some (r, sk1)) :
    0 ≤ r ∧ r ≤ (count : Int) ∧ sk1.sent = sk.sent ++ ptr.take r.toNat ∧
      r = ((sk1.sent.length - sk.sent.length : Nat) : Int) ∧
      ∃ log, sk1.sendLog = sk.sendLog ++ log ∧ sendsInOrder ptr count 0 log ∧
        r = ((acceptedSum log : Nat) : Int) := by
  have hp := writeLoop_post c env ptr sk.sent sk.sendLog count (r, sk1) fuel sk 0 count timeoutMS
    ⟨le_refl _, by simp, by simp, [], by simp, trivial, rfl⟩ h
  obtain ⟨h0, hle, hsent, log, hlog, hord, hacc⟩ := hp
  simp only at hsent h0 hle hlog hacc
  refine ⟨h0, hle, hsent, ?_, log, hlog, hord, by omega⟩
  rw [hsent, List.length_append, List.length_take]
  have : r.toNat ≤ ptr.length := by omega
  omega

/-- Witness of C16: three bytes of "abcde" go out in two sends, the first offered
"abc" and accepting 2 bytes, the second offered "c" and accepting it. -/
theorem write_sends_source_in_order_witness :
    3 ≤ "abcde".toList.length ∧
    write sampleConsts (sendAtMost 2) 2 (USocket.fresh sampleCONNECT) "abcde".toList 3 0 =
      some (3, writeSampleSk) ∧
    writeSampleSk.sendLog = [("abc".toList, 2), ("c".toList, 1)] ∧
    (0 ≤ (3 : Int) ∧ (3 : Int) ≤ ((3 : Nat) : Int) ∧
      writeSampleSk.sent =
        (USocket.fresh sampleCONNECT).sent ++ "abcde".toList.take (3 : Int).toNat ∧
      (3 : Int) =
        ((writeSampleSk.sent.length - (USocket.fresh sampleCONNECT).sent.length : Nat) : Int) ∧
      ∃ log, writeSampleSk.sendLog = (USocket.fresh sampleCONNECT).sendLog ++ log ∧
        sendsInOrder "abcde".toList 3 0 log ∧ (3 : Int) = ((acceptedSum log : Nat) : Int)) :=
  ⟨by decide, rfl, rfl,
    write_sends_source_in_order sampleConsts (sendAtMost 2) 2 (USocket.fresh sampleCONNECT)
      "abcde".toList 3 0 3 writeSampleSk (by decide) rfl⟩

/-- C17 (failing input).  The reply "123-a" followed by the padded intermediate line "    123 x":
no line after the first begins with "123 ", yet `parseCommandResponse` reports
the reply complete, because `%3i` skips the white space in front of the number. -/
theorem parseCommandResponse_takes_padded_line_for_last :
    parseCommandResponse ("123-a\r\n    123 x\r\n".toList ++ List.replicate 8 '\x00') 18 123 =
      some false ∧
    atoi ("123-a\r\n    123 x\r\n".toList ++ List.replicate 8 '\x00') = 123 := by
  constructor <;> rfl

/-- C18 (failing input).  With `buffer_size` 4 and a `recv` that delivers the four bytes "abc\n",
`readLineReply` stores the terminator at index 4, which is `buffer_size`: in an
allocation of 5 bytes the byte at index 4 is overwritten, in one of 4 bytes the
store is outside the buffer. -/
theorem readLineReply_stores_terminator_at_buffer_size (fuel : Nat) :
    readLineReply sampleConsts (streamEnv ["abc\n"]) (fuel + 1) (USocket.fresh sampleCONNECT)
        "xxxxx".toList 0 4 =
      some { ret := some 4,
             sk := { USocket.fresh sampleCONNECT with recvCalls := 1, received := "abc\n".toList },
             buffer := "abc\n\x00".toList } ∧
    readLineReply sampleConsts (streamEnv ["abc\n"]) (fuel + 1) (USocket.fresh sampleCONNECT)
        "xxxx".toList 0 4 =
      some { ret := none,
             sk := { USocket.fresh sampleCONNECT with recvCalls := 1, received := "abc\n".toList },
             buffer := "abc\n".toList } := by
  constructor <;> rfl

/-- C19 (failing input).  With `iovcnt` 2 and `cloop` 129 (`count` 258) the asserted preconditions
hold, but the 128 further copies of the two entries do not fit the 256 entries
of `_iov`: the last copy writes past its end, before any vectored send. -/
theorem writevCloop_overflows_scratch (c : Consts) (env : Env) (mem : Nat → Char) (fuel : Nat)
    (sk : USocket) (timeoutMS : Int) :
    copyLoop [⟨0, 1⟩, ⟨1, 1⟩] 128 [⟨0, 1⟩, ⟨1, 1⟩] = none ∧
    writevCloop c env mem fuel sk [⟨0, 1⟩, ⟨1, 1⟩] 2 258 timeoutMS 129 =
      some { ret := none, sk := sk, iov := [⟨0, 1⟩, ⟨1, 1⟩] } := by
  constructor <;> rfl

/-- C20.  For every call of the 6-argument `writev` with `cloop > 1` that returns,
the caller's array is on return what it was at entry: the 5-argument `writev`
works on the scratch copy. -/
theorem writevCloop_many_keeps_caller_array (c : Consts) (env : Env) (mem : Nat → Char)
    (fuel : Nat) (sk : USocket) (iov : List iovec) (iovcnt : Int) (count : Nat)
    (timeoutMS : Int) (cloop : Nat) (res : WritevResult) (hcl : 1 < cloop)
    (h : writevCloop c env mem fuel sk iov iovcnt count timeoutMS cloop = some res) :
    res.iov = iov := by
  unfold writevCloop at h
  split at h
  · cases h; rfl
  · simp only at h
    split at h
    · cases h; rfl
    · split at h
      · cases h; rfl
      · rename_i scratch hs
        cases hw : writev c env mem fuel sk scratch (iovcnt * (cloop : Int)) count timeoutMS with
        | none => simp [hw] at h
        | some r =>
          simp only [hw, Option.map_some', Option.some.injEq] at h
          subst h
          rfl

/-- Witness of C20: two copies of "ab", "cd"; the first send is short, the
5-argument `writev` shrinks the scratch copy and the caller's array is as it was. -/
theorem writevCloop_many_keeps_caller_array_witness :
    1 < 2 ∧
    writevCloop sampleConsts (sendAtMost 5) letters 2 (USocket.fresh sampleCONNECT)
        [⟨0, 2⟩, ⟨2, 2⟩] 2 8 0 2 =
      some { ret := some 8,
             sk := { USocket.fresh sampleCONNECT with writevCalls := 2, sent := "abcdabcd".toList },
             iov := [⟨0, 2⟩, ⟨2, 2⟩] } ∧
    writev sampleConsts (sendAtMost 5) letters 2 (USocket.fresh sampleCONNECT)
        [⟨0, 2⟩, ⟨2, 2⟩, ⟨0, 2⟩, ⟨2, 2⟩] 4 8 0 =
      some { ret := some 8,
             sk := { USocket.fresh sampleCONNECT with writevCalls := 2, sent := "abcdabcd".toList },
             iov := [⟨0, 0⟩, ⟨2, 0⟩, ⟨1, 1⟩, ⟨2, 2⟩] } ∧
    (⟨some 8, { USocket.fresh sampleCONNECT with writevCalls := 2, sent := "abcdabcd".toList },
        [⟨0, 2⟩, ⟨2, 2⟩]⟩ : WritevResult).iov = [⟨0, 2⟩, ⟨2, 2⟩] :=
  ⟨by decide, rfl, rfl,
    writevCloop_many_keeps_caller_array sampleConsts (sendAtMost 5) letters 2
      (USocket.fresh sampleCONNECT) [⟨0, 2⟩, ⟨2, 2⟩] 2 8 0 2
      ⟨some 8, { USocket.fresh sampleCONNECT with writevCalls := 2, sent := "abcdabcd".toList },
        [⟨0, 2⟩, ⟨2, 2⟩]⟩ (by decide) rfl⟩

end ULib
